import Mathlib

/-!
# goquarkchain: minor-chain engine (`core/minorblockchain_add.go`)

A shallow embedding of the shard ("minor") chain engine and theorems about it.

Conventions of the embedding

* Go `uint32`/`uint64` values are natural numbers; every operation that can wrap
  is written with an explicit `% 2 ^ 32` or `% 2 ^ 64`.
* Go `*big.Int` values are integers (`Int`), `*big.Rat` values are rationals (`Rat`).
* A Go function returning `(T, error)` returns `Outcome T`: `ok` for a nil error,
  `error` for a returned error, `fault` for a run-time panic (division by zero,
  nil dereference).
* Functions of other packages that the file calls are collected in `Deps`.
-/

namespace GoQuarkChain

/-! ## Results of fallible Go code -/

/-- Result of a Go function with an `error` return: a value, a returned error,
or a run-time panic. -/
inductive Outcome (α : Type) where
  | ok (v : α)
  | error (msg : String)
  | fault
deriving Repr, DecidableEq

/-! ## Basic data -/

/-- Hash `common.Hash`, a 32-byte value read as a number. -/
abbrev CommonHash := Nat

/-- Recipient `account.Recipient` (`account/types.go`), a 20-byte value read as a number. -/
abbrev Recipient := Nat

/-- Branch `account.Branch`: the core file reads its `Value` field (a `uint32`, the
full shard id) and calls its methods `GetChainID`, `GetShardID`, `IsInBranch`. -/
structure Branch where
  Value : Nat
deriving DecidableEq, Repr

/-- Address `account.Address`: recipient and full shard key. -/
structure Address where
  Recipient : Recipient
  FullShardKey : Nat
deriving DecidableEq, Repr

/-- Functions and constants of other packages of the repository that
`minorblockchain_add.go` uses; their source is outside the file, so they are
parameters of the embedding.

* `GetChainID`, `GetShardID`: methods of `account.Branch` (both return `uint32`);
* `IsInBranch`: method `account.Branch.IsInBranch(fullShardKey)`;
* `IsP2`: `qkcCommon.IsP2`, the power-of-two test of the neighbor rule;
* `GtxxShardCost`: `params.GtxxShardCost`, the fixed gas cost of a cross-shard deposit;
* `BigIntMulBigRat`: `qkcCommon.BigIntMulBigRat`, product of a big integer and a
  big rational, as a big integer. -/
structure Deps where
  GetChainID : Branch → Nat
  GetShardID : Branch → Nat
  IsInBranch : Branch → Nat → Bool
  IsP2 : Nat → Bool
  GtxxShardCost : Int
  BigIntMulBigRat : Int → Rat → Int

/-! ## The neighbor rule -/

/-- Source `absUint32` (lines 388-393): the guarded subtraction never wraps. -/
def absUint32 (a b : Nat) : Nat :=
  if a > b then a - b else b - a

/-- Source `isNeighbor` (lines 400-411), the package-level function. -/
def isNeighbor (d : Deps) (b1 b2 : Branch) (shardSize : Nat) : Bool :=
  if shardSize ≤ 32 then true
  else if d.GetChainID b1 = d.GetChainID b2 then
    d.IsP2 (absUint32 (d.GetShardID b1) (d.GetShardID b2))
  else if d.GetShardID b1 = d.GetShardID b2 then
    d.IsP2 (absUint32 (d.GetChainID b1) (d.GetChainID b2))
  else false

/-! ## A concrete instance of the outside functions -/

/-- Modelled from the spec: `qkcCommon.IsP2` is outside the file; the spec calls it
the "power-of-two distance rule". The usual bit test `x & (x - 1) == 0` on a
`uint32`; at `0` the wrapped `x - 1` is all ones and the test is true, which the
truncated subtraction of `Nat` reproduces. -/
def isP2 (x : Nat) : Bool :=
  x &&& (x - 1) == 0

/-- Modelled from the spec: `qkcCommon.BigIntMulBigRat` is outside the file; the
spec has the fee "equal to crossShardGasCost × gasPrice × localFeeRate", an integer
amount: the product with the numerator divided (rounding down) by the denominator. -/
def bigIntMulBigRat (x : Int) (r : Rat) : Int :=
  (x * r.num) / (r.den : Int)

/-- Modelled from the spec: `account.Branch` "identifies a shard by (chain-id,
shard-id) pair"; here the chain id is read from the upper 16 bits of the `uint32`
value and the shard id from the lower 16 bits. The constant `params.GtxxShardCost`
("a fixed cross-shard gas cost") is taken as 9000. -/
def stdDeps : Deps where
  GetChainID := fun b => b.Value / 65536
  GetShardID := fun b => b.Value % 65536
  IsInBranch := fun b k => k % 65536 == b.Value % 65536
  IsP2 := isP2
  GtxxShardCost := 9000
  BigIntMulBigRat := bigIntMulBigRat

/-! ## Gas limit of the next block -/

/-- Fields of `config.POSWConfig` read by the chain engine: `DiffDivider` and
`WindowSize` are `uint32`, `TotalStakePerBlock` is a `*big.Int`. -/
structure PoswConfig where
  Enabled : Bool := false
  DiffDivider : Nat := 1
  WindowSize : Nat := 1
  TotalStakePerBlock : Int := 1
deriving Repr

/-- Fields of `config.ShardConfig` read by the chain engine: `GasLimitMinimum` is
a `uint64`, the other three gas fields are converted with `uint64(...)` before use;
`GenesisGasLimit` is the `uint64` field `Genesis.GasLimit`, the gas-limit floor of the
shard; `CoinbaseAmount` is a `*big.Int`. -/
structure ShardConfig where
  GasLimitMinimum : Nat
  GasLimitEmaDenominator : Nat
  GasLimitUsageAdjustmentNumerator : Nat
  GasLimitUsageAdjustmentDenominator : Nat
  GenesisGasLimit : Nat := 0
  CoinbaseAmount : Int := 0
  PoswConfig : PoswConfig := {}
deriving Repr

/-- Source `MinorBlockChain.computerGasLimit` (lines 441-463). All arithmetic is on
`uint64`: products and sums wrap modulo `2 ^ 64`, a division by zero panics. The
subtraction `parentGasLimit - decay` cannot wrap below zero (`decay ≤ parentGasLimit`),
it is written with the wrap all the same. -/
def computerGasLimit (shardConfig : ShardConfig)
    (parentGasLimit parentGasUsed gasLimitFloor : Nat) : Outcome Nat :=
  if gasLimitFloor < shardConfig.GasLimitMinimum then
    .error "gas limit floor is too low"
  else if shardConfig.GasLimitEmaDenominator = 0 then
    .fault
  else if parentGasLimit ≠ 0 ∧ shardConfig.GasLimitUsageAdjustmentDenominator = 0 then
    .fault
  else
    let decay := parentGasLimit / shardConfig.GasLimitEmaDenominator
    let usageIncrease :=
      if parentGasLimit ≠ 0 then
        (parentGasUsed * shardConfig.GasLimitUsageAdjustmentNumerator) % 2 ^ 64
          / shardConfig.GasLimitUsageAdjustmentDenominator
          / shardConfig.GasLimitEmaDenominator
      else 0
    let target := ((parentGasLimit + 2 ^ 64 - decay) % 2 ^ 64 + usageIncrease) % 2 ^ 64
    let gasLimit :=
      if shardConfig.GasLimitMinimum < target then target else shardConfig.GasLimitMinimum
    if gasLimit < shardConfig.GasLimitMinimum then
      .ok shardConfig.GasLimitMinimum
    else if gasLimit < gasLimitFloor then
      .ok ((parentGasLimit + decay) % 2 ^ 64)
    else
      .ok gasLimit

/-- The usage increase in the words of the spec, on natural numbers (no wrap):
`parentGasUsed × usageNumerator / usageDenominator / emaDenominator` in integer
division, and `0` for a zero parent gas limit (the guard of the source). -/
def gasUsageIncrease (c : ShardConfig) (parentGasLimit parentGasUsed : Nat) : Nat :=
  if parentGasLimit = 0 then 0
  else parentGasUsed * c.GasLimitUsageAdjustmentNumerator
    / c.GasLimitUsageAdjustmentDenominator / c.GasLimitEmaDenominator

/-- The target of the spec, on natural numbers (no wrap):
`max(GasLimitMinimum, parentGasLimit − decay + usageIncrease)`. -/
def gasLimitTarget (c : ShardConfig) (parentGasLimit parentGasUsed : Nat) : Nat :=
  max c.GasLimitMinimum
    (parentGasLimit - parentGasLimit / c.GasLimitEmaDenominator
      + gasUsageIncrease c parentGasLimit parentGasUsed)

/-- Repeated application of `computerGasLimit` in the steady state of the spec
(`parentGasUsed = parentGasLimit / 2`): the gas limit after `n` blocks. -/
def iterateGasLimit (shardConfig : ShardConfig) (gasLimitFloor : Nat) : Nat → Nat → Outcome Nat
  | 0, g => .ok g
  | n + 1, g =>
    match computerGasLimit shardConfig g (g / 2) gasLimitFloor with
    | .ok g1 => iterateGasLimit shardConfig gasLimitFloor n g1
    | .error e => .error e
    | .fault => .fault

/-- The configuration of the spec's scenario: minimum 5000, EMA denominator 1024,
usage adjustment 3/2. -/
def scenarioShardConfig : ShardConfig where
  GasLimitMinimum := 5000
  GasLimitEmaDenominator := 1024
  GasLimitUsageAdjustmentNumerator := 3
  GasLimitUsageAdjustmentDenominator := 2

/-! ## Big numbers -/

/-- Go `(*big.Int).Uint64()`: the low 64 bits of the magnitude. -/
def bigUint64 (x : Int) : Nat :=
  x.natAbs % 2 ^ 64

/-- Go conversion of an integer to `int64` (two's complement wrap). -/
def wrapInt64 (z : Int) : Int :=
  (z + 2 ^ 63) % 2 ^ 64 - 2 ^ 63

/-- Go `(*big.Int).Int64()`: `int64(low64(|x|))`, negated when `x` is negative. -/
def bigInt64 (x : Int) : Int :=
  let v := wrapInt64 (bigUint64 x)
  if x < 0 then wrapInt64 (-v) else v

/-! ## Cross-shard deposits and the working state -/

/-- Deposit `types.CrossShardTransactionDeposit`; `Value` and `GasPrice` are the
`big.Int` values inside the `serialize.Uint256` fields. -/
structure CrossShardTransactionDeposit where
  TxHash : CommonHash
  From : Address
  To : Address
  Value : Int
  GasPrice : Int
deriving Repr

/-- Fields of `config.QuarkChainConfig` read by `getLocalFeeRate`. -/
structure QuarkChainConfig where
  RewardTaxRate : Rat

/-- Modelled from the spec: `state.StateDB` is the external state store; the
"Working State Snapshot" has account balances and "mutable
gas-used/gas-limit/block-fee/coinbase-address" fields scoped to one block, the
cross-shard gas used recorded for the block, and the chain configuration set
with `SetQuarkChainConfig` (absent until set). -/
structure EvmState where
  balances : Recipient → Int
  gasUsed : Int
  gasLimit : Int
  blockFee : Int
  blockCoinBase : Recipient
  xShardReceiveGasUsed : Int
  quarkChainConfig : Option QuarkChainConfig
  senderDisallowList : List Recipient := []

/-- Modelled from the spec: `StateDB.AddBalance` of the external state store adds
the amount to the balance of the account. -/
def EvmState.AddBalance (s : EvmState) (addr : Recipient) (amount : Int) : EvmState :=
  { s with balances := fun a => if a = addr then s.balances a + amount else s.balances a }

/-- Modelled from the spec: `StateDB.SetGasUsed` of the external state store. -/
def EvmState.SetGasUsed (s : EvmState) (g : Int) : EvmState :=
  { s with gasUsed := g }

/-- Modelled from the spec: `StateDB.AddBlockFee` of the external state store adds
the amount to the accumulated block fee. -/
def EvmState.AddBlockFee (s : EvmState) (fee : Int) : EvmState :=
  { s with blockFee := s.blockFee + fee }

/-- Modelled from the spec: `StateDB.SetXShardReceiveGasUsed` of the external state store. -/
def EvmState.SetXShardReceiveGasUsed (s : EvmState) (g : Int) : EvmState :=
  { s with xShardReceiveGasUsed := g }

/-- Source `getLocalFeeRate` (lines 491-499): numerator and denominator of the tax
rate go through `Int64()`, the difference is an `int64` subtraction, and
`big.NewRat` panics on a zero denominator. -/
def getLocalFeeRate (qkcConfig : Option QuarkChainConfig) : Outcome Rat :=
  match qkcConfig with
  | none => .ok 1
  | some c =>
    let num := bigInt64 c.RewardTaxRate.num
    let demo := bigInt64 (c.RewardTaxRate.den : Int)
    if demo = 0 then .fault
    else .ok ((wrapInt64 (demo - num) : Rat) / (demo : Rat))

/-! ## Root blocks and the chain -/

/-- Fields of `types.MinorBlockHeader` read by the chain engine; `Hash` is the value
of the method `Hash()`, `Number` and `Time` are `uint64`, `GasLimit` the `big.Int`
inside the `serialize.Uint256`, `Difficulty` a `*big.Int`. -/
structure MinorBlockHeader where
  Hash : CommonHash
  Branch : Branch
  PrevRootBlockHash : CommonHash
  ParentHash : CommonHash := 0
  Number : Nat := 0
  GasLimit : Int := 0
  Time : Nat := 0
  Difficulty : Int := 0
  Coinbase : Address := ⟨0, 0⟩
deriving Repr

/-- Fields of `types.RootBlockHeader`; `Hash` is the value of `Hash()`, `Number` is
a `uint32`, `CoinbaseAmount` the `big.Int` inside the `serialize.Uint256`. -/
structure RootBlockHeader where
  Hash : CommonHash
  ParentHash : CommonHash
  Number : Nat
  Coinbase : Address
  CoinbaseAmount : Int
deriving Repr

/-- Root block `types.RootBlock`: header and confirmed minor headers, in order. -/
structure RootBlock where
  Header : RootBlockHeader
  MinorBlockHeaders : List MinorBlockHeader
deriving Repr

/-- The part of `MinorBlockChain` that deposit settlement and block building read.
The stores are lookups that may miss: `GetRootBlockByHash`,
`getRootBlockHeaderByHash` (both defined outside the file) and
`rawdb.ReadCrossShardTxList`; the cluster configuration gives
`GetInitializedShardIdsBeforeRootHeight`, `GetGenesisRootHeight`,
`GetShardSizeByChainId` and the `uint32` field `MaxNeighbors`;
`MaxBlocksPerShardInOneRootBlock` is the value of the method of that name of the
shard configuration. -/
structure MinorBlockChain where
  branch : Branch
  shardConfig : ShardConfig
  rootTip : RootBlockHeader
  GetRootBlockByHash : CommonHash → Option RootBlock
  getRootBlockHeaderByHash : CommonHash → Option RootBlockHeader
  ReadCrossShardTxList : CommonHash → Option (List CrossShardTransactionDeposit)
  GetInitializedShardIdsBeforeRootHeight : Nat → List Nat
  GetGenesisRootHeight : Nat → Nat
  GetShardSizeByChainId : Nat → Nat
  MaxNeighbors : Nat
  MaxBlocksPerShardInOneRootBlock : Nat

/-- Source `MinorBlockChain.isNeighbor` (lines 380-386): a nil height means the
height of the root tip; the number of initialized shards is converted to `uint32`. -/
def MinorBlockChain.isNeighbor (d : Deps) (m : MinorBlockChain) (remoteBranch : Branch)
    (rootHeight : Option Nat) : Bool :=
  let h := match rootHeight with
    | none => m.rootTip.Number
    | some h => h
  let shardSize := (m.GetInitializedShardIdsBeforeRootHeight h).length
  GoQuarkChain.isNeighbor d m.branch remoteBranch (shardSize % 2 ^ 32)

/-- Loop of `getCrossShardTxListByRootBlockHash` (lines 530-552) over the confirmed
minor headers, `txList` being the deposits collected so far. Reading `.TXList` of a
missing deposit list is a nil dereference. -/
def getCrossShardTxListLoop (d : Deps) (m : MinorBlockChain) :
    List MinorBlockHeader → List CrossShardTransactionDeposit →
      Outcome (List CrossShardTransactionDeposit)
  | [], txList => .ok txList
  | mHeader :: rest, txList =>
    if mHeader.Branch = m.branch then
      getCrossShardTxListLoop d m rest txList
    else
      match m.getRootBlockHeaderByHash mHeader.PrevRootBlockHash with
      | none => .error "not get pre root header"
      | some prevRootHeader =>
        if !(m.isNeighbor d mHeader.Branch (some prevRootHeader.Number)) then
          getCrossShardTxListLoop d m rest txList
        else
          let xShardTxList := m.ReadCrossShardTxList mHeader.Hash
          if prevRootHeader.Number ≤ m.GetGenesisRootHeight m.branch.Value % 2 ^ 32 then
            match xShardTxList with
            | some _ => .error "get xShard tx list err"
            | none => getCrossShardTxListLoop d m rest txList
          else
            match xShardTxList with
            | none => .fault
            | some l => getCrossShardTxListLoop d m rest (txList ++ l)

/-- Source `MinorBlockChain.getCrossShardTxListByRootBlockHash` (lines 524-564). -/
def getCrossShardTxListByRootBlockHash (d : Deps) (m : MinorBlockChain) (hash : CommonHash) :
    Outcome (List CrossShardTransactionDeposit) :=
  match m.GetRootBlockByHash hash with
  | none => .error "root block is nil"
  | some rBlock =>
    match getCrossShardTxListLoop d m rBlock.MinorBlockHeaders [] with
    | .ok txList =>
      if d.IsInBranch m.branch rBlock.Header.Coinbase.FullShardKey then
        .ok (txList ++ [{ TxHash := 0, From := ⟨0, 0⟩, To := rBlock.Header.Coinbase,
                          Value := rBlock.Header.CoinbaseAmount, GasPrice := 0 }])
      else .ok txList
    | .error e => .error e
    | .fault => .fault

/-- Body of the loop of `runOneCrossShardTxListByRootBlockHash` (lines 1103-1119):
one deposit applied to the state. -/
def applyDeposit (d : Deps) (localFeeRate : Rat) (evmState : EvmState)
    (tx : CrossShardTransactionDeposit) : EvmState :=
  let s1 := evmState.AddBalance tx.To.Recipient tx.Value
  let addGasUsed : Int := if bigUint64 tx.GasPrice ≠ 0 then d.GtxxShardCost else 0
  let addGasUsedT := s1.gasUsed + addGasUsed
  let gasUsed := if s1.gasLimit > addGasUsedT then addGasUsedT else s1.gasLimit
  let s2 := s1.SetGasUsed gasUsed
  let xShardFee := d.BigIntMulBigRat (d.GtxxShardCost * tx.GasPrice) localFeeRate
  let s3 := s2.AddBlockFee xShardFee
  s3.AddBalance s3.blockCoinBase (bigUint64 xShardFee)

/-- Source `MinorBlockChain.runOneCrossShardTxListByRootBlockHash` (lines 1096-1122):
returns the deposit list and the state after settling it. When the list cannot be
read the state is untouched. -/
def runOneCrossShardTxListByRootBlockHash (d : Deps) (m : MinorBlockChain) (hash : CommonHash)
    (evmState : EvmState) : Outcome (List CrossShardTransactionDeposit × EvmState) :=
  match getCrossShardTxListByRootBlockHash d m hash with
  | .error e => .error e
  | .fault => .fault
  | .ok txList =>
    match getLocalFeeRate evmState.quarkChainConfig with
    | .error e => .error e
    | .fault => .fault
    | .ok localFeeRate =>
      let s := txList.foldl (applyDeposit d localFeeRate) evmState
      .ok (txList, s.SetXShardReceiveGasUsed s.gasUsed)

/-- The balances after crediting the value of every deposit of a list to its
recipient, in order. -/
def creditValues (balances : Recipient → Int) (txList : List CrossShardTransactionDeposit) :
    Recipient → Int :=
  txList.foldl (fun b tx => fun a => if a = tx.To.Recipient then b a + tx.Value else b a) balances

/-! ## A small chain for the examples -/

/-- Example chain of shard (chain 0, shard 1): the root block with hash 10 (height 6)
confirms one header, hash 20, of shard (chain 0, shard 2), whose previous root block
(hash 9) has height 5; two shards are initialized, the genesis root height is 0, and
`txList` is the deposit list stored for the header. The root coinbase is outside the
shard's branch. -/
def exampleChain (txList : List CrossShardTransactionDeposit) : MinorBlockChain where
  branch := ⟨1⟩
  shardConfig := scenarioShardConfig
  rootTip := ⟨10, 9, 6, ⟨99, 2⟩, 0⟩
  GetRootBlockByHash := fun h =>
    if h = 10 then
      some ⟨⟨10, 9, 6, ⟨99, 2⟩, 0⟩, [{ Hash := 20, Branch := ⟨2⟩, PrevRootBlockHash := 9 }]⟩
    else none
  getRootBlockHeaderByHash := fun h =>
    if h = 10 then some ⟨10, 9, 6, ⟨99, 2⟩, 0⟩
    else if h = 9 then some ⟨9, 8, 5, ⟨99, 2⟩, 0⟩
    else none
  ReadCrossShardTxList := fun h => if h = 20 then some txList else none
  GetInitializedShardIdsBeforeRootHeight := fun _ => [1, 2]
  GetGenesisRootHeight := fun _ => 0
  GetShardSizeByChainId := fun _ => 2
  MaxNeighbors := 2
  MaxBlocksPerShardInOneRootBlock := 5

/-- Example state: all balances 0, gas limit 1,000,000, gas used 0, no block fee,
coinbase recipient 50, reward tax rate 1/2. -/
def exampleState : EvmState where
  balances := fun _ => 0
  gasUsed := 0
  gasLimit := 1000000
  blockFee := 0
  blockCoinBase := 50
  xShardReceiveGasUsed := 0
  quarkChainConfig := some ⟨1 / 2⟩

/-- Example deposit to recipient 7 (shard key 1) with the given value and gas price. -/
def exampleDeposit (value gasPrice : Int) : CrossShardTransactionDeposit where
  TxHash := 1
  From := ⟨3, 2⟩
  To := ⟨7, 1⟩
  Value := value
  GasPrice := gasPrice

/-! ## The deposits of a root block, in the words of the spec -/

/-- Whether a confirmed header belongs to a neighbor of this shard "at the height of
the header's previous root block" (false when that root block is unknown). -/
def neighborAtPrevRoot (d : Deps) (m : MinorBlockChain) (mHeader : MinorBlockHeader) : Bool :=
  match m.getRootBlockHeaderByHash mHeader.PrevRootBlockHash with
  | none => false
  | some prevRootHeader => m.isNeighbor d mHeader.Branch (some prevRootHeader.Number)

/-- The stored deposit lists, "concatenated in header order", of the confirmed
headers "whose branch is not this shard's branch and is a neighbor of this shard";
a header without a stored list contributes nothing. -/
def neighborDeposits (d : Deps) (m : MinorBlockChain) (headers : List MinorBlockHeader) :
    List CrossShardTransactionDeposit :=
  ((headers.filter (fun h => decide (h.Branch ≠ m.branch) && neighborAtPrevRoot d m h)).map
    (fun h => (m.ReadCrossShardTxList h.Hash).getD [])).flatten

/-- The stores hold what deposit collection expects for a confirmed header of another
shard: its previous root block is known and, when the shard is a neighbor, a deposit
list is stored exactly when that root block is above the genesis root height of
this shard. -/
def DepositsStored (d : Deps) (m : MinorBlockChain) (mHeader : MinorBlockHeader) : Prop :=
  mHeader.Branch ≠ m.branch →
    ∃ p, m.getRootBlockHeaderByHash mHeader.PrevRootBlockHash = some p ∧
      (m.isNeighbor d mHeader.Branch (some p.Number) = true →
        ((m.ReadCrossShardTxList mHeader.Hash).isSome = true ↔
          m.GetGenesisRootHeight m.branch.Value % 2 ^ 32 < p.Number))

/-- Example chain whose root block 10 pays its coinbase (amount 500, recipient 99)
into this shard's branch; the rest is `exampleChain`. -/
def exampleChainOwnCoinbase (txList : List CrossShardTransactionDeposit) : MinorBlockChain :=
  { exampleChain txList with
    GetRootBlockByHash := fun h =>
      if h = 10 then
        some ⟨⟨10, 9, 6, ⟨99, 1⟩, 500⟩, [{ Hash := 20, Branch := ⟨2⟩, PrevRootBlockHash := 9 }]⟩
      else none }

/-- Example chain in which no deposit list is stored for the confirmed header 20. -/
def exampleChainNoList : MinorBlockChain :=
  { exampleChain [] with ReadCrossShardTxList := fun _ => none }

/-- Example chain whose genesis root height is 5, the height of the previous root
block of the confirmed header 20, with a deposit list stored for that header. -/
def exampleChainAtGenesis (txList : List CrossShardTransactionDeposit) : MinorBlockChain :=
  { exampleChain txList with GetGenesisRootHeight := fun _ => 5 }

/-- The synthetic deposit that `getCrossShardTxListByRootBlockHash` appends (lines
553-561): it credits the root block's coinbase amount to its coinbase address at gas
price 0. -/
def rootCoinbaseDeposit (h : RootBlockHeader) : CrossShardTransactionDeposit :=
  { TxHash := 0, From := ⟨0, 0⟩, To := h.Coinbase, Value := h.CoinbaseAmount, GasPrice := 0 }

/-! ## Settling the root blocks between two root headers -/

/-- Loop of `runCrossShardTxList` (lines 468-484) with a bound `fuel` on the number of
loop tests; `none` means the bound was reached. `rHeader` is the root header under
test and `txList` the deposits collected so far. The state after a returned error is
not tracked. -/
def runCrossShardTxListLoop (d : Deps) (m : MinorBlockChain) (ancestorRootHeader : RootBlockHeader) :
    Nat → EvmState → RootBlockHeader → List CrossShardTransactionDeposit →
      Option (Outcome (List CrossShardTransactionDeposit × EvmState))
  | 0, _, _, _ => none
  | fuel + 1, evmState, rHeader, txList =>
    if rHeader.Hash = ancestorRootHeader.Hash then
      if evmState.gasUsed > evmState.gasLimit then
        some (.error "runCrossShardTxList err:gasUsed > GasLimit")
      else some (.ok (txList, evmState))
    else if rHeader.Number = ancestorRootHeader.Number then
      some (.error "incorrect ancestor root header")
    else if evmState.gasUsed > evmState.gasLimit then
      some (.error "gas consumed by cross-shard tx exceeding limit")
    else
      match runOneCrossShardTxListByRootBlockHash d m rHeader.Hash evmState with
      | .error e => some (.error e)
      | .fault => some .fault
      | .ok (onTxList, s) =>
        match m.getRootBlockHeaderByHash rHeader.ParentHash with
        | none => some (.error "root block is nil")
        | some parent =>
          runCrossShardTxListLoop d m ancestorRootHeader fuel s parent (txList ++ onTxList)

/-- Source `MinorBlockChain.runCrossShardTxList` (lines 465-489). -/
def runCrossShardTxList (d : Deps) (m : MinorBlockChain) (fuel : Nat) (evmState : EvmState)
    (descendantRootHeader ancestorRootHeader : RootBlockHeader) :
    Option (Outcome (List CrossShardTransactionDeposit × EvmState)) :=
  runCrossShardTxListLoop d m ancestorRootHeader fuel evmState descendantRootHeader []

/-- First loop of `includeCrossShardTxList` (lines 1076-1082) with a bound `fuel` on
the number of loop tests: the root headers from the descendant down to the child of
the ancestor. A missing parent header is a nil dereference at the next loop test. -/
def includeWalk (m : MinorBlockChain) (ancestorRootHeader : RootBlockHeader) :
    Nat → RootBlockHeader → List RootBlockHeader → Option (Outcome (List RootBlockHeader))
  | 0, _, _ => none
  | fuel + 1, rHeader, headerList =>
    if rHeader.Hash = ancestorRootHeader.Hash then some (.ok headerList)
    else if rHeader.Number ≤ ancestorRootHeader.Number then
      some (.error "root height small than ancestor root height")
    else
      match m.getRootBlockHeaderByHash rHeader.ParentHash with
      | none => some .fault
      | some parent => includeWalk m ancestorRootHeader fuel parent (headerList ++ [rHeader])

/-- Second loop of `includeCrossShardTxList` (lines 1084-1093) over the headers in the
order they are settled. The test `GetGasUsed() == GetGasLimit()` compares two
`*big.Int` pointers: `same` says whether they are the same pointer before the step.
`runOneCrossShardTxListByRootBlockHash` stores the gas-limit pointer itself as gas used
exactly when the sum reaches the limit and a fresh number below the limit otherwise
(lines 1108-1113), so after a non-empty deposit list the pointers are equal exactly
when the values are; after an empty list nothing was stored and the test is what it
was before. Modelled from the spec: the getters and setters of the external state
store are taken to hand the pointers through. -/
def includeSettle (d : Deps) (m : MinorBlockChain) (descendantRootHeader : RootBlockHeader) :
    List RootBlockHeader → EvmState → Bool → Outcome (RootBlockHeader × EvmState)
  | [], evmState, _ => .ok (descendantRootHeader, evmState)
  | h :: rest, evmState, same =>
    match runOneCrossShardTxListByRootBlockHash d m h.Hash evmState with
    | .error e => .error e
    | .fault => .fault
    | .ok (onTxList, s) =>
      let same1 := if onTxList.isEmpty then same else decide (s.gasUsed = s.gasLimit)
      if same1 then .ok (h, s) else includeSettle d m descendantRootHeader rest s same1

/-- Source `MinorBlockChain.includeCrossShardTxList` (lines 1070-1094). The first
test (the two headers being the same pointer) returns what the general path returns
for headers with equal hashes, the header and the untouched state, and is not
modelled apart. -/
def includeCrossShardTxList (d : Deps) (m : MinorBlockChain) (fuel : Nat) (evmState : EvmState)
    (same : Bool) (descendantRootHeader ancestorRootHeader : RootBlockHeader) :
    Option (Outcome (RootBlockHeader × EvmState)) :=
  match includeWalk m ancestorRootHeader fuel descendantRootHeader [] with
  | none => none
  | some (.error e) => some (.error e)
  | some .fault => some .fault
  | some (.ok headerList) =>
    some (includeSettle d m descendantRootHeader headerList.reverse evmState same)

/-- The root headers met when following parent links `k` times from `h`, newest
first, and the header reached; `none` when a parent is unknown. -/
def rootPath (m : MinorBlockChain) : Nat → RootBlockHeader →
    Option (List RootBlockHeader × RootBlockHeader)
  | 0, h => some ([], h)
  | k + 1, h =>
    match m.getRootBlockHeaderByHash h.ParentHash with
    | none => none
    | some p =>
      match rootPath m k p with
      | none => none
      | some (l, a) => some (h :: l, a)

/-- Settling the root blocks of a list of root headers one after the other with
`runOneCrossShardTxListByRootBlockHash`: the deposits in that order and the final state. -/
def settleRoots (d : Deps) (m : MinorBlockChain) :
    List RootBlockHeader → EvmState → Outcome (List CrossShardTransactionDeposit × EvmState)
  | [], st => .ok ([], st)
  | h :: rest, st =>
    match runOneCrossShardTxListByRootBlockHash d m h.Hash st with
    | .error e => .error e
    | .fault => .fault
    | .ok (l, s) =>
      match settleRoots d m rest s with
      | .error e => .error e
      | .fault => .fault
      | .ok (l2, s2) => .ok (l ++ l2, s2)

/-- Modelled from the spec: `account.Branch.GetFullShardID` is outside the file; the
full shard id of a branch is its `Value` (the file builds the branch of a
transaction's destination as `account.Branch{Value: tx.EvmTx.ToFullShardId()}`). -/
def Branch.GetFullShardID (b : Branch) : Nat :=
  b.Value

/-- Source `MinorBlockChain.getMaxBlocksInOneRootBlock` (lines 808-810): the
conversion to `uint64`. -/
def MinorBlockChain.getMaxBlocksInOneRootBlock (m : MinorBlockChain) : Nat :=
  m.MaxBlocksPerShardInOneRootBlock % 2 ^ 64

/-- The right-hand side of the assignment in `getXShardTxLimits` (line 825) for one
header: gas limit and cost go through `Uint64()` and `uint32(...)`, the divisions
are on `uint32`, and a zero divisor panics. -/
def xShardTxLimitOf (d : Deps) (m : MinorBlockChain) (mHeader : MinorBlockHeader) :
    Outcome Nat :=
  let cost := bigUint64 d.GtxxShardCost % 2 ^ 32
  let blocks := m.getMaxBlocksInOneRootBlock % 2 ^ 32
  if cost = 0 ∨ m.MaxNeighbors = 0 ∨ blocks = 0 then .fault
  else .ok (bigUint64 mHeader.GasLimit % 2 ^ 32 / cost / m.MaxNeighbors / blocks)

/-- Loop of `getXShardTxLimits` (lines 824-826); the Go map is a lookup function,
an assignment replaces the entry of the key. -/
def getXShardTxLimitsLoop (d : Deps) (m : MinorBlockChain) :
    List MinorBlockHeader → (Nat → Option Nat) → Outcome (Nat → Option Nat)
  | [], results => .ok results
  | mHeader :: rest, results =>
    match xShardTxLimitOf d m mHeader with
    | .error e => .error e
    | .fault => .fault
    | .ok q =>
      getXShardTxLimitsLoop d m rest
        (fun k => if k = mHeader.Branch.GetFullShardID then some q else results k)

/-- Source `MinorBlockChain.getXShardTxLimits` (lines 822-828). -/
def getXShardTxLimits (d : Deps) (m : MinorBlockChain) (rBlock : RootBlock) :
    Outcome (Nat → Option Nat) :=
  getXShardTxLimitsLoop d m rBlock.MinorBlockHeaders (fun _ => none)

/-- The last header of a list whose branch has the full shard id `id`. -/
def lastHeaderOf (id : Nat) : List MinorBlockHeader → Option MinorBlockHeader
  | [] => none
  | h :: rest =>
    match lastHeaderOf id rest with
    | some x => some x
    | none => if h.Branch.GetFullShardID = id then some h else none

/-- The quota of the spec on natural numbers: "shard's declared gas limit /
crossShardTxCost / maxNeighbors / maxBlocksPerRootBlock" in integer division. -/
def xShardQuota (d : Deps) (m : MinorBlockChain) (gasLimit : Int) : Int :=
  gasLimit / d.GtxxShardCost / (m.MaxNeighbors : Int) / (m.MaxBlocksPerShardInOneRootBlock : Int)

/-- Example root block with two headers of shard (chain 0, shard 2), of gas limits
900,000 and then 1,800,000. -/
def exampleRootBlockTwoHeaders : RootBlock :=
  ⟨⟨10, 9, 6, ⟨99, 2⟩, 0⟩,
    [{ Hash := 20, Branch := ⟨2⟩, PrevRootBlockHash := 9, Number := 4, GasLimit := 900000 },
     { Hash := 21, Branch := ⟨2⟩, PrevRootBlockHash := 9, ParentHash := 20, Number := 5,
       GasLimit := 1800000 }]⟩

/-- Example root block with one header of shard (chain 0, shard 2) that declares the
gas limit `2 ^ 32`. -/
def exampleRootBlockLargeGasLimit : RootBlock :=
  ⟨⟨10, 9, 6, ⟨99, 2⟩, 0⟩,
    [{ Hash := 20, Branch := ⟨2⟩, PrevRootBlockHash := 9, Number := 4, GasLimit := 2 ^ 32 }]⟩

/-! ## Filling a block with pool transactions -/

/-- Fields of a `types.Transaction` (its `EvmTx`) read by the chain engine: the gas
(`uint64`), the chain ids, the destination shard key, the recorded shard sizes, the
nonce, and the gas price (a `*big.Int`). -/
structure Transaction where
  Nonce : Nat
  Gas : Nat
  FromChainID : Nat
  ToChainID : Nat
  ToFullShardKey : Nat
  FromShardSize : Nat := 0
  ToShardSize : Nat := 0
  GasPrice : Int := 0
deriving Repr, DecidableEq

/-- Receipt `types.Receipt` of an executed transaction, read as a number. -/
abbrev Receipt := Nat

/-- Functions of the transaction type and of the execution engine, outside the file:

* `ShardSizeError`: the error, if any, with which `SetToShardSize` and
  `SetFromShardSize` reject a shard size;
* `ToFullShardId`: `EvmTransaction.ToFullShardId()` (a `uint32`);
* `ApplyTransaction`: the execution engine on the gas pool, the used gas, the state
  and the transaction; it returns the receipt and the new gas pool, used gas and
  state, or an error. -/
structure TxDeps where
  ShardSizeError : Nat → Option String
  ToFullShardId : Transaction → Nat
  ApplyTransaction : Nat → Nat → EvmState → Transaction →
    Outcome (Receipt × Nat × Nat × EvmState)

/-- Modelled from the spec: `EvmTransaction.SetToShardSize` is outside the file; it
"rewrite[s] the transaction's recorded shard-size parameters" and returns an error
for a size it rejects. -/
def Transaction.SetToShardSize (td : TxDeps) (tx : Transaction) (size : Nat) :
    Outcome Transaction :=
  match td.ShardSizeError size with
  | some e => .error e
  | none => .ok { tx with ToShardSize := size }

/-- Modelled from the spec: `EvmTransaction.SetFromShardSize` is outside the file; see
`Transaction.SetToShardSize`. -/
def Transaction.SetFromShardSize (td : TxDeps) (tx : Transaction) (size : Nat) :
    Outcome Transaction :=
  match td.ShardSizeError size with
  | some e => .error e
  | none => .ok { tx with FromShardSize := size }

/-- The variables of the loop of `addTransactionToBlock`: the state, the gas pool,
the used gas, the counters per destination shard (a Go map, 0 for a missing key),
the receipts and the included transactions. `remainingAtSelection` is not in the
source: it records, for each included transaction, the gas remaining
(`gas limit − gas used`) when it was selected. -/
structure BuildState where
  evmState : EvmState
  gp : Nat
  usedGas : Nat
  xShardTxCounters : Nat → Nat
  receipts : List Receipt
  txsInBlock : List Transaction
  remainingAtSelection : List Int

/-- Loop of `addTransactionToBlock` (lines 846-883). The price-and-nonce ordered set
is the list of the transactions in the order `Peek` yields them: every round of the
loop that goes on pops exactly once. Counters are `uint32`. -/
def addTransactionLoop (d : Deps) (td : TxDeps) (m : MinorBlockChain)
    (xShardTxLimits : Nat → Option Nat) : List Transaction → BuildState → Outcome BuildState
  | [], b => .ok b
  | tx :: rest, b =>
    if ¬ (b.evmState.gasUsed < b.evmState.gasLimit) then .ok b
    else
      let diff := b.evmState.gasLimit - b.evmState.gasUsed
      if tx.Gas > bigUint64 diff then
        addTransactionLoop d td m xShardTxLimits rest b
      else
        match tx.SetToShardSize td (m.GetShardSizeByChainId tx.ToChainID) with
        | .error e => .error e
        | .fault => .fault
        | .ok tx1 =>
          match tx1.SetFromShardSize td (m.GetShardSizeByChainId tx1.FromChainID) with
          | .error e => .error e
          | .fault => .fault
          | .ok tx2 =>
            let toId := td.ToFullShardId tx2
            if toId ≠ m.branch.Value ∧
                (m.isNeighbor d ⟨toId⟩ none = false ∨
                  (b.xShardTxCounters toId + 1) % 2 ^ 32 > (xShardTxLimits toId).getD 0) then
              addTransactionLoop d td m xShardTxLimits rest b
            else
              match td.ApplyTransaction b.gp b.usedGas b.evmState tx2 with
              | .error e => .error e
              | .fault => .fault
              | .ok (receipt, gp1, usedGas1, s1) =>
                addTransactionLoop d td m xShardTxLimits rest
                  { evmState := s1
                    gp := gp1
                    usedGas := usedGas1
                    xShardTxCounters := fun k =>
                      if k = toId then (b.xShardTxCounters toId + 1) % 2 ^ 32
                      else b.xShardTxCounters k
                    receipts := b.receipts ++ [receipt]
                    txsInBlock := b.txsInBlock ++ [tx2]
                    remainingAtSelection := b.remainingAtSelection ++ [diff] }

/-- The variables of the loop before its first round (lines 837-844): the gas pool
holds the low 64 bits of the gas limit of the block, the rest is empty. -/
def initialBuildState (evmState : EvmState) (blockGasLimit : Int) : BuildState :=
  { evmState := evmState
    gp := bigUint64 blockGasLimit
    usedGas := 0
    xShardTxCounters := fun _ => 0
    receipts := []
    txsInBlock := []
    remainingAtSelection := [] }

/-- The block returned by `addTransactionToBlock`: the previous root block hash
stamped on the header, the transactions and the receipts; with it the state after the
loop and the record of the gas remaining at each selection. -/
structure BuiltBlock where
  PrevRootBlockHash : CommonHash
  Transactions : List Transaction
  Receipts : List Receipt
  evmState : EvmState
  remainingAtSelection : List Int

/-- Source `MinorBlockChain.addTransactionToBlock` (lines 830-888). `pending` is the
result of `txPool.Pending()` put in price-and-nonce order, `blockGasLimit` the gas
limit of the header of `block`. A root block that is not known is a nil dereference
in `getXShardTxLimits`. -/
def addTransactionToBlock (d : Deps) (td : TxDeps) (m : MinorBlockChain)
    (pending : Outcome (List Transaction)) (rootBlockHash : CommonHash) (blockGasLimit : Int)
    (evmState : EvmState) : Outcome BuiltBlock :=
  match pending with
  | .error e => .error e
  | .fault => .fault
  | .ok txs =>
    match m.GetRootBlockByHash rootBlockHash with
    | none => .fault
    | some rBlock =>
      match getXShardTxLimits d m rBlock with
      | .error e => .error e
      | .fault => .fault
      | .ok xShardTxLimits =>
        match addTransactionLoop d td m xShardTxLimits txs
            (initialBuildState evmState blockGasLimit) with
        | .error e => .error e
        | .fault => .fault
        | .ok b =>
          .ok { PrevRootBlockHash := rootBlockHash
                Transactions := b.txsInBlock
                Receipts := b.receipts
                evmState := b.evmState
                remainingAtSelection := b.remainingAtSelection }

/-- Example of the outside transaction functions: every shard size is accepted, the
destination full shard id is the shard key, and execution fails with a nonce error
for a transaction of nonce 7 and otherwise uses the gas of the transaction. -/
def exampleTxDeps : TxDeps where
  ShardSizeError := fun _ => none
  ToFullShardId := fun tx => tx.ToFullShardKey
  ApplyTransaction := fun gp usedGas st tx =>
    if tx.Nonce = 7 then .error "nonce too low"
    else .ok (tx.Nonce, gp - tx.Gas, usedGas + tx.Gas, st.SetGasUsed (st.gasUsed + tx.Gas))

/-- Example transaction of this shard (full shard id 1) with the given nonce and 21000 gas. -/
def exampleTx (nonce : Nat) : Transaction :=
  { Nonce := nonce, Gas := 21000, FromChainID := 0, ToChainID := 0, ToFullShardKey := 1 }

/-- What the loop of `addTransactionToBlock` keeps true of the included transactions:
the counter of a destination is the number of included transactions sent to it; for a
destination other than this shard that number is at most the quota (0 without an
entry); an included transaction to another shard goes to a neighbor; and the gas of
each included transaction was at most the gas remaining when it was selected. -/
def BuildInvariant (d : Deps) (td : TxDeps) (m : MinorBlockChain)
    (xShardTxLimits : Nat → Option Nat) (txs : List Transaction) (counters : Nat → Nat)
    (remaining : List Int) : Prop :=
  (∀ toId, counters toId = txs.countP (fun t => decide (td.ToFullShardId t = toId))) ∧
  (∀ toId, toId ≠ m.branch.Value →
    txs.countP (fun t => decide (td.ToFullShardId t = toId)) ≤ (xShardTxLimits toId).getD 0) ∧
  (∀ tx ∈ txs, td.ToFullShardId tx ≠ m.branch.Value →
    m.isNeighbor d ⟨td.ToFullShardId tx⟩ none = true) ∧
  List.Forall₂ (fun tx rem => (tx.Gas : Int) ≤ rem) txs remaining

/-! ## Accepting a root block -/

/-- The mutable part of `MinorBlockChain` that `AddRootBlock` reads and writes, next to
the read-only part `chain` (whose root-block lookups and `rootTip` it updates). A
minor block is represented by its header.

* `confirmedHeaderTip`: nil until a header is confirmed;
* `currentHeader`, `currentBlock`: `m.hc.CurrentHeader()` and `m.CurrentBlock()`;
* `minorBlocks`: the stored minor blocks by hash (`GetBlockByHash`, `GetBlock`,
  `rawdb.ReadMinorBlockHeader`);
* `canonical`: `GetBlockByNumber`, the block of the canonical chain at a height;
* `lastConfirmed`: `rawdb.ReadLastConfirmedMinorBlockHeaderAtRootBlock`, the hash of
  the last confirmed minor header per root block hash (the zero hash when absent);
* `genesisBlocks`: `rawdb.ReadGenesis`, the genesis minor block per root block hash.

Modelled from the spec: the stores are the "block/header ... persistence layer keyed
by hash and by height" of the external state store. -/
structure ChainState where
  chain : MinorBlockChain
  confirmedHeaderTip : Option MinorBlockHeader
  currentHeader : MinorBlockHeader
  currentBlock : Option MinorBlockHeader
  genesisBlock : MinorBlockHeader
  minorBlocks : CommonHash → Option MinorBlockHeader
  canonical : Nat → Option MinorBlockHeader
  lastConfirmed : CommonHash → CommonHash
  genesisBlocks : CommonHash → Option MinorBlockHeader

/-- The loop of `isSameRootChain` (lines 599-601): `n` parent links up from `header`; a
missing parent is a nil dereference. -/
def rootAncestor (lookup : CommonHash → Option RootBlockHeader) :
    Nat → RootBlockHeader → Outcome RootBlockHeader
  | 0, header => .ok header
  | n + 1, header =>
    match lookup header.ParentHash with
    | none => .fault
    | some p => rootAncestor lookup n p

/-- Source `MinorBlockChain.isSameRootChain` (lines 594-604) over the lookup
`getRootBlockHeaderByHash`; a nil header is a nil dereference. -/
def isSameRootChain (lookup : CommonHash → Option RootBlockHeader)
    (long short : Option RootBlockHeader) : Outcome Bool :=
  match long, short with
  | some l, some s =>
    if s.Number > l.Number then .ok false
    else
      match rootAncestor lookup (l.Number - s.Number) l with
      | .ok header => .ok (decide (header.Hash = s.Hash))
      | .error e => .error e
      | .fault => .fault
  | _, _ => .fault

/-- Headers of shard 1 for the examples: the genesis header, its child, its grandchild,
and a header at height 4 whose parent is not the grandchild. -/
def exampleGenesisHeader : MinorBlockHeader :=
  { Hash := 30, Branch := ⟨1⟩, PrevRootBlockHash := 9, ParentHash := 0, Number := 0 }

/-- See `exampleGenesisHeader`. -/
def exampleHeaderOne : MinorBlockHeader :=
  { Hash := 31, Branch := ⟨1⟩, PrevRootBlockHash := 9, ParentHash := 30, Number := 1 }

/-- See `exampleGenesisHeader`. -/
def exampleHeaderTwo : MinorBlockHeader :=
  { Hash := 32, Branch := ⟨1⟩, PrevRootBlockHash := 10, ParentHash := 31, Number := 2 }

/-- See `exampleGenesisHeader`. -/
def exampleHeaderFar : MinorBlockHeader :=
  { Hash := 34, Branch := ⟨1⟩, PrevRootBlockHash := 10, ParentHash := 33, Number := 4 }

/-- The stored minor blocks of `exampleChainState`. -/
def exampleMinorBlocks (h : CommonHash) : Option MinorBlockHeader :=
  if h = 30 then some exampleGenesisHeader
  else if h = 31 then some exampleHeaderOne
  else if h = 32 then some exampleHeaderTwo
  else if h = 34 then some exampleHeaderFar
  else none

/-- A chain state of shard 1 on `exampleChain`: the root tip is the root block of hash
10 at height 6, the head and the confirmed header tip are `exampleHeaderOne`. -/
def exampleChainState : ChainState where
  chain := exampleChain []
  confirmedHeaderTip := some exampleHeaderOne
  currentHeader := exampleHeaderOne
  currentBlock := some exampleHeaderOne
  genesisBlock := exampleGenesisHeader
  minorBlocks := exampleMinorBlocks
  canonical := fun n =>
    if n = 0 then some exampleGenesisHeader
    else if n = 1 then some exampleHeaderOne
    else none
  lastConfirmed := fun h => if h = 10 then 31 else 0
  genesisBlocks := fun _ => none

/-- Loop of `EstimateGas` (lines 1226-1233) with a bound `fuel` on the loop tests; the
sums are on `uint64`. `runTx gas` says whether the closure `runTx` (lines 1206-1224)
returns a nil error: it validates and executes the transaction with that gas on a
fresh copy of the current state, so its result is a function of the gas. -/
def estimateGasLoop (runTx : Nat → Bool) : Nat → Nat → Nat → Option (Nat × Nat)
  | 0, _, _ => none
  | fuel + 1, lo, hi =>
    if (lo + 1) % 2 ^ 64 < hi then
      let mid := (lo + hi) % 2 ^ 64 / 2
      if runTx mid then estimateGasLoop runTx fuel lo mid
      else estimateGasLoop runTx fuel mid hi
    else some (lo, hi)

/-- The upper bound `cap` of the search of `EstimateGas` (lines 1200-1204): the gas of
the transaction when above 21000, otherwise the low 64 bits of the gas limit of the
state. -/
def estimateGasCap (st : EvmState) (tx : Transaction) : Nat :=
  if tx.Gas > 21000 then tx.Gas else bigUint64 st.gasLimit

/-- Source `MinorBlockChain.EstimateGas` (lines 1193-1238). `currentState` is the
result of `m.State()`, defined outside the file. -/
def EstimateGas (runTx : Nat → Bool) (currentState : Outcome EvmState) (fuel : Nat)
    (tx : Transaction) : Option (Outcome Nat) :=
  match currentState with
  | .error e => some (.error e)
  | .fault => some .fault
  | .ok st =>
    let cap := estimateGasCap st tx
    match estimateGasLoop runTx fuel (21000 - 1) cap with
    | none => none
    | some (_, hi) =>
      if hi = cap ∧ runTx hi = true then some (.ok 0) else some (.ok hi)

/-- Example transaction with 30000 gas; the rest is `exampleTx 0`. -/
def exampleTxGas30000 : Transaction :=
  { exampleTx 0 with Gas := 30000 }

/-! ## Storing a minor block -/

/-- Minor block `types.MinorBlock`: the header, the transactions, and of the meta data
the gas used (the `big.Int` inside the `serialize.Uint256`) and the state root. -/
structure MinorBlock where
  Header : MinorBlockHeader
  Transactions : List Transaction := []
  GasUsed : Int := 0
  Root : CommonHash := 0
deriving Repr

/-- What `putMinorBlock` writes to: the height index `heightToMinorBlockHashes` (a Go
map from a height to a set of hashes; `none` for a missing key), and in the database
the minor blocks (`rawdb.WriteMinorBlock`), the total transaction counts
(`rawdb.ReadTotalTx`, `rawdb.WriteTotalTx`; a `uint32` per hash) and the confirmed
deposit lists (`rawdb.WriteConfirmedCrossShardTxList`); `EnableTransactionHistory` is
the field of the cluster configuration. -/
structure MinorBlockDb where
  heightToMinorBlockHashes : Nat → Option (List CommonHash)
  minorBlocks : CommonHash → Option MinorBlock
  totalTx : CommonHash → Option Nat
  confirmedCrossShardTxList : CommonHash → Option (List CrossShardTransactionDeposit)
  EnableTransactionHistory : Bool

/-- Source `putTotalTxCount` (lines 90-101). -/
def putTotalTxCount (db : MinorBlockDb) (mBlock : MinorBlock) : Outcome MinorBlockDb :=
  let write := fun (prevCount : Nat) =>
    { db with totalTx := fun h => if h = mBlock.Header.Hash then some prevCount else db.totalTx h }
  if mBlock.Header.Number > 2 then
    match db.totalTx mBlock.Header.ParentHash with
    | none => .error "get totalTx failed"
    | some dbPreCount => .ok (write ((0 + dbPreCount) % 2 ^ 32))
  else .ok (write 0)

/-- Source `putConfirmedCrossShardTransactionDepositList` (lines 107-115). -/
def putConfirmedCrossShardTransactionDepositList (db : MinorBlockDb) (hash : CommonHash)
    (xShardReceiveTxList : List CrossShardTransactionDeposit) : Outcome MinorBlockDb :=
  if !db.EnableTransactionHistory then .ok db
  else
    .ok { db with
      confirmedCrossShardTxList := fun h =>
        if h = hash then some xShardReceiveTxList else db.confirmedCrossShardTxList h }

/-- Source `putMinorBlock` (lines 133-147). The database after a returned error is not
tracked. -/
def putMinorBlock (db : MinorBlockDb) (mBlock : MinorBlock)
    (xShardReceiveTxList : List CrossShardTransactionDeposit) : Outcome MinorBlockDb :=
  let hashes := (db.heightToMinorBlockHashes mBlock.Header.Number).getD []
  let hashes1 := if mBlock.Header.Hash ∈ hashes then hashes else mBlock.Header.Hash :: hashes
  let db1 := { db with
    heightToMinorBlockHashes := fun n =>
      if n = mBlock.Header.Number then some hashes1 else db.heightToMinorBlockHashes n
    minorBlocks := fun h => if h = mBlock.Header.Hash then some mBlock else db.minorBlocks h }
  match putTotalTxCount db1 mBlock with
  | .error e => .error e
  | .fault => .fault
  | .ok db2 => putConfirmedCrossShardTransactionDepositList db2 mBlock.Header.Hash xShardReceiveTxList

/-- Example database: the total transaction count 5 is recorded under the hash 42. -/
def exampleMinorBlockDb : MinorBlockDb where
  heightToMinorBlockHashes := fun _ => none
  minorBlocks := fun _ => none
  totalTx := fun h => if h = 42 then some 5 else none
  confirmedCrossShardTxList := fun _ => none
  EnableTransactionHistory := false

/-- Example block at height 3 on the block of hash 42, with two transactions. -/
def exampleMinorBlockTwoTxs : MinorBlock :=
  { Header := { Hash := 43, Branch := ⟨1⟩, PrevRootBlockHash := 9, ParentHash := 42, Number := 3 }
    Transactions := [exampleTx 0, exampleTx 1] }

/-! ## The unconfirmed headers -/

/-- Source `checkEqual` (lines 758-773) on two headers that may be nil. -/
def checkEqual (a b : Option MinorBlockHeader) : Bool :=
  match a, b with
  | none, none => true
  | none, some _ => false
  | some _, none => false
  | some x, some y => decide (x.Hash = y.Hash)

/-- First loop of `getAllUnconfirmedHeaderList` (lines 783-787): `n` rounds from
`header`, each appending the header and going to its parent (`GetHeaderByHash`, the
stored headers); a nil header is a nil dereference in the round that reads its parent
hash. Returns the list, newest first, and the header reached. -/
def unconfirmedWalk (s : ChainState) :
    Nat → Option MinorBlockHeader → List MinorBlockHeader →
      Outcome (List MinorBlockHeader × Option MinorBlockHeader)
  | 0, header, headerList => .ok (headerList, header)
  | n + 1, header, headerList =>
    match header with
    | none => .fault
    | some h => unconfirmedWalk s n (s.minorBlocks h.ParentHash) (headerList ++ [h])

/-- Source `getAllUnconfirmedHeaderList` (lines 774-799): `none` is the nil slice
returned when the walk does not end at the confirmed header tip. The heights are
converted to `int64` and `int`; they are taken to be below `2 ^ 63`, where the
conversions and the difference are exact. -/
def getAllUnconfirmedHeaderList (s : ChainState) : Outcome (Option (List MinorBlockHeader)) :=
  let startHeight : Int := match s.confirmedHeaderTip with
    | none => -1
    | some tip => (tip.Number : Int)
  let allHeight := (s.currentHeader.Number : Int) - startHeight
  match unconfirmedWalk s allHeight.toNat (some s.currentHeader) [] with
  | .error e => .error e
  | .fault => .fault
  | .ok (headerList, header) =>
    if !checkEqual header s.confirmedHeaderTip then .ok none
    else .ok (some headerList.reverse)

/-- Source `GetUnconfirmedHeaderList` (lines 802-806). The slice expression
`headers[0:maxBlocks]` panics when `maxBlocks` exceeds the capacity of `headers`, and
up to the capacity it yields the elements of the backing array, nil pointers (`none`)
beyond the length. The nil slice and a slice made with length 0 and never appended to
have capacity 0; `growCap n` is the capacity the Go runtime has given a slice after
`n ≥ 1` appends. -/
def GetUnconfirmedHeaderList (growCap : Nat → Nat) (s : ChainState) :
    Outcome (List (Option MinorBlockHeader)) :=
  match getAllUnconfirmedHeaderList s with
  | .error e => .error e
  | .fault => .fault
  | .ok headers =>
    let maxBlocks := s.chain.getMaxBlocksInOneRootBlock
    let elems := headers.getD []
    let capacity := if elems.length = 0 then 0 else max elems.length (growCap elems.length)
    if maxBlocks ≤ elems.length then .ok ((elems.take maxBlocks).map some)
    else if maxBlocks ≤ capacity then
      .ok (elems.map some ++ List.replicate (maxBlocks - elems.length) none)
    else .fault

/-- An instance of the capacity of an appended slice for the examples: twice the
length. -/
def exampleGrowCap (n : Nat) : Nat :=
  2 * n

/-! ## The coinbase addresses of the POSW window -/

/-- Entry `heightAndAddrs` of `coinBaseAddrCache`. -/
structure HeightAndAddrs where
  height : Nat
  addrs : List Recipient
deriving Repr, DecidableEq

/-- The Go map `coinBaseAddrCache` from a header hash to an entry: a list of the
entries with their keys, a key at most once. -/
abbrev CoinBaseAddrCache := List (CommonHash × HeightAndAddrs)

/-- Reading a key of the Go map. -/
def cacheGet (cache : CoinBaseAddrCache) (k : CommonHash) : Option HeightAndAddrs :=
  (cache.find? (fun e => decide (e.1 = k))).map (fun e => e.2)

/-- Assigning to a key of the Go map: the entry of the key is replaced or added. -/
def cacheSet (cache : CoinBaseAddrCache) (k : CommonHash) (v : HeightAndAddrs) :
    CoinBaseAddrCache :=
  (k, v) :: cache.filter (fun e => decide (e.1 ≠ k))

/-- The view of the minor chain with the bodies of the blocks, from functions defined
outside the file: the stored blocks and headers by hash (`GetBlockByHash`,
`GetHeaderByHash`), the block of the canonical chain at a height (`GetBlockByNumber`),
the head (`CurrentBlock`, `CurrentHeader`), and the state of a state root
(`StateAt`). -/
structure MinorBlockStore where
  GetBlockByHash : CommonHash → Option MinorBlock
  GetHeaderByHash : CommonHash → Option MinorBlockHeader
  GetBlockByNumber : Nat → Option MinorBlock
  CurrentBlock : MinorBlock
  CurrentHeader : MinorBlockHeader
  StateAt : CommonHash → Outcome EvmState

/-- The loop of `getCoinBaseAddressUntilBlock` without a cache entry (lines 64-73):
`n` rounds from `header`, each putting the coinbase recipient of the header in front
of the list; the parent header is read after every round that is not at height 0,
the last one included. -/
def coinBaseWalk (st : MinorBlockStore) :
    Nat → MinorBlockHeader → List Recipient → Outcome (List Recipient)
  | 0, _, addrLists => .ok addrLists
  | n + 1, header, addrLists =>
    let addrLists1 := header.Coinbase.Recipient :: addrLists
    if header.Number = 0 then .ok addrLists1
    else
      match st.GetHeaderByHash header.ParentHash with
      | none => .error "mysteriously missing block"
      | some p => coinBaseWalk st n p addrLists1

/-- The list that `getCoinBaseAddressUntilBlock` computes (lines 55-74), from the
cache entry of the parent hash if there is one and by `coinBaseWalk` otherwise. -/
def coinBaseAddrLists (st : MinorBlockStore) (cache : CoinBaseAddrCache)
    (header : MinorBlockHeader) (length : Nat) : Outcome (List Recipient) :=
  match cacheGet cache header.ParentHash with
  | some data =>
    let addrLists := data.addrs
    let addrLists1 :=
      if addrLists.length = length ∧ addrLists.length ≥ 1 then addrLists.drop 1 else addrLists
    .ok (addrLists1 ++ [header.Coinbase.Recipient])
  | none => coinBaseWalk st length header []

/-- The end of `getCoinBaseAddressUntilBlock` (lines 75-86): the list is stored under
the header hash, and when the cache has more than 128 entries every entry is deleted
whose height is not above `height - 16`, a `uint64` difference that wraps below
height 16. -/
def cacheStore (cache : CoinBaseAddrCache) (headerHash : CommonHash) (height : Nat)
    (addrLists : List Recipient) : CoinBaseAddrCache :=
  let cache1 := cacheSet cache headerHash ⟨height, addrLists⟩
  if cache1.length > 128 then
    cache1.filter (fun e => decide (e.2.height > (height + 2 ^ 64 - 16) % 2 ^ 64))
  else cache1

/-- Source `getCoinBaseAddressUntilBlock` (lines 47-88): the result and the cache
after the call; `length` is a `uint32`. -/
def getCoinBaseAddressUntilBlock (st : MinorBlockStore) (cache : CoinBaseAddrCache)
    (headerHash : CommonHash) (length : Nat) : Outcome (List Recipient) × CoinBaseAddrCache :=
  match st.GetBlockByHash headerHash with
  | none => (.error "minor block is nil", cache)
  | some currBlock =>
    match coinBaseAddrLists st cache currBlock.Header length with
    | .error e => (.error e, cache)
    | .fault => (.fault, cache)
    | .ok addrLists =>
      (.ok addrLists, cacheStore cache headerHash currBlock.Header.Number addrLists)

/-- Source `getPOSWCoinBaseBlockCnt` (lines 36-45): a nil length is the window size of
the POSW configuration. -/
def getPOSWCoinBaseBlockCnt (st : MinorBlockStore) (shardConfig : ShardConfig)
    (cache : CoinBaseAddrCache) (headerHash : CommonHash) (length : Option Nat) :
    Outcome (List Recipient) × CoinBaseAddrCache :=
  getCoinBaseAddressUntilBlock st cache headerHash (length.getD shardConfig.PoswConfig.WindowSize)

/-- Example state of the POSW examples: recipient 103 has the balance 10, every other
recipient 0; the rest is `exampleState`. -/
def examplePoswState : EvmState :=
  { exampleState with balances := fun a => if a = 103 then 10 else 0 }

/-- The block of hash `h` in `exampleLineStore`: at height `h - 100`, on the block of
hash `h - 1`, with the coinbase recipient `h` and the difficulty 1000. -/
def exampleLineBlock (h : CommonHash) : MinorBlock :=
  { Header :=
      { Hash := h, Branch := ⟨1⟩, PrevRootBlockHash := 9, ParentHash := h - 1, Number := h - 100,
        Difficulty := 1000, Coinbase := ⟨h, 1⟩ } }

/-- Example store: one line of blocks, the block of hash `h ≥ 100` at height `h - 100`
(`exampleLineBlock`), the head at height 3, and `examplePoswState` as the state of
every root. -/
def exampleLineStore : MinorBlockStore where
  GetBlockByHash := fun h => if 100 ≤ h then some (exampleLineBlock h) else none
  GetHeaderByHash := fun h => if 100 ≤ h then some (exampleLineBlock h).Header else none
  GetBlockByNumber := fun n => some (exampleLineBlock (n + 100))
  CurrentBlock := exampleLineBlock 103
  CurrentHeader := (exampleLineBlock 103).Header
  StateAt := fun _ => .ok examplePoswState

/-- Example cache with 128 entries: the blocks of heights 900 to 1027 of
`exampleLineStore`. -/
def exampleFullCache : CoinBaseAddrCache :=
  (List.range 128).map (fun i => (1000 + i, ⟨900 + i, [1000 + i]⟩))

/-! ## The gas price oracle -/

/-- Fields of `gasPriceSuggestionOracle` (defined outside the file): the memoized price
(`uint64`) and head hash, and the configured number of blocks and percentile, unsigned
integers that `GasPrice` converts to `int64` and `int`. -/
structure GasPriceSuggestionOracle where
  LastPrice : Nat
  LastHead : CommonHash
  CheckBlocks : Nat
  Percentile : Nat
deriving Repr, DecidableEq

/-- The prices that `GasPrice` reads from a block (lines 1257-1260): the low 64 bits
of the gas price of each transaction, in order. -/
def blockGasPrices (block : MinorBlock) : List Nat :=
  block.Transactions.map (fun v => bigUint64 v.GasPrice)

/-- Loop of `GasPrice` over the heights (lines 1252-1262): `n` rounds from the height
`index`; a missing block is a nil dereference. -/
def gasPriceLoop (st : MinorBlockStore) : Nat → Nat → List Nat → Outcome (List Nat)
  | 0, _, prices => .ok prices
  | n + 1, index, prices =>
    match st.GetBlockByNumber index with
    | none => .fault
    | some block => gasPriceLoop st n (index + 1) (prices ++ blockGasPrices block)

/-- Go conversion of a `uint64` to `int64` (and to `int`): values from `2 ^ 63` up
become negative. -/
def int64OfUint64 (u : Nat) : Int :=
  if u % 2 ^ 64 < 2 ^ 63 then ((u % 2 ^ 64 : Nat) : Int)
  else ((u % 2 ^ 64 : Nat) : Int) - 2 ^ 64

/-- The first height that `GasPrice` reads (lines 1246-1250), an `int64`. -/
def gasPriceStartHeight (st : MinorBlockStore) (o : GasPriceSuggestionOracle) : Int :=
  let currHeight := st.CurrentBlock.Header.Number
  let startHeight :=
    wrapInt64 (wrapInt64 (int64OfUint64 currHeight - int64OfUint64 o.CheckBlocks) + 1)
  if startHeight < 3 then 3 else startHeight

/-- Source `MinorBlockChain.GasPrice` (lines 1241-1272): the returned price (`none`
for a nil pointer) and the oracle after the call. The index of the percentile is
computed on `int`; an index outside the slice is a panic. -/
def GasPrice (st : MinorBlockStore) (o : GasPriceSuggestionOracle) :
    Outcome (Option Nat) × GasPriceSuggestionOracle :=
  let currHead := st.CurrentBlock.Header.Hash
  if currHead = o.LastHead then (.ok (some o.LastPrice), o)
  else
    let currHeight := st.CurrentBlock.Header.Number
    let startHeight := gasPriceStartHeight st o
    let endHeight := int64OfUint64 ((currHeight + 1) % 2 ^ 64)
    match gasPriceLoop st (endHeight - startHeight).toNat startHeight.toNat [] with
    | .error e => (.error e, o)
    | .fault => (.fault, o)
    | .ok prices =>
      if prices.length = 0 then (.ok none, o)
      else
        let sorted := prices.insertionSort (fun a b => a ≤ b)
        let index :=
          (wrapInt64 (((prices.length : Int) - 1) * int64OfUint64 o.Percentile)).tdiv 100
        if index < 0 ∨ (prices.length : Int) ≤ index then (.fault, o)
        else
          let price := sorted.getD index.toNat 0
          (.ok (some price), { o with LastPrice := price, LastHead := currHead })

/-- The first height of the window of the oracle in the words of the spec:
`max(3, head − CheckBlocks + 1)`. -/
def gasPriceWindowStart (st : MinorBlockStore) (o : GasPriceSuggestionOracle) : Nat :=
  max 3 (st.CurrentBlock.Header.Number + 1 - o.CheckBlocks)

/-- The heights of the window of the oracle: from `gasPriceWindowStart` to the head. -/
def gasPriceWindowHeights (st : MinorBlockStore) (o : GasPriceSuggestionOracle) : List Nat :=
  List.range' (gasPriceWindowStart st o)
    (st.CurrentBlock.Header.Number + 1 - gasPriceWindowStart st o)

/-- The prices of the canonical blocks at the given heights, in order (`blockGasPrices`
of each); a height without a block contributes nothing. -/
def pricesOfHeights (st : MinorBlockStore) (heights : List Nat) : List Nat :=
  (heights.map (fun n =>
    match st.GetBlockByNumber n with
    | some b => blockGasPrices b
    | none => [])).flatten

/-- Example store for the oracle: the head is the block of hash 203 at height 3, with
three transactions of gas prices 30, 10 and 20; it is the canonical block of every
height. -/
def examplePriceStore : MinorBlockStore :=
  let head : MinorBlock :=
    { Header := { Hash := 203, Branch := ⟨1⟩, PrevRootBlockHash := 9, ParentHash := 202,
                  Number := 3 }
      Transactions := [{ exampleTx 0 with GasPrice := 30 }, { exampleTx 1 with GasPrice := 10 },
                       { exampleTx 2 with GasPrice := 20 }] }
  { exampleLineStore with
    GetBlockByNumber := fun _ => some head
    CurrentBlock := head
    CurrentHeader := head.Header }

/-- Example store for the oracle whose head, at height 3, has one transaction of gas
price `2 ^ 64 + 7`. -/
def exampleLargePriceStore : MinorBlockStore :=
  let head : MinorBlock :=
    { Header := { Hash := 203, Branch := ⟨1⟩, PrevRootBlockHash := 9, ParentHash := 202,
                  Number := 3 }
      Transactions := [{ exampleTx 0 with GasPrice := 2 ^ 64 + 7 }] }
  { exampleLineStore with
    GetBlockByNumber := fun _ => some head
    CurrentBlock := head
    CurrentHeader := head.Header }

/-- Example oracle: nothing memoized (head hash 0), one block looked back, the 50th
percentile. -/
def exampleOracle : GasPriceSuggestionOracle :=
  { LastPrice := 0, LastHead := 0, CheckBlocks := 1, Percentile := 50 }

/-- The percentile of a list of prices in the words of the spec: the element at index
`(n − 1) × Percentile / 100` (integer division) of the prices sorted ascending. -/
def percentilePrice (prices : List Nat) (percentile : Nat) : Nat :=
  (prices.insertionSort (fun a b => a ≤ b)).getD ((prices.length - 1) * percentile / 100) 0

/-- The store `examplePriceStore` without any canonical block to read: the same head,
and no block at any height. -/
def examplePriceStoreNoBlocks : MinorBlockStore :=
  { examplePriceStore with GetBlockByNumber := fun _ => none }

/-! ## The POSW difficulty -/

/-- Source `createEvmState` (lines 207-221): the state of the state root; with POSW
enabled and a header hash whose low 64 bits are zero, the coinbase addresses of the
window are set as the sender disallow list. `SetShardConfig` has no counterpart in the
model of the state. Returns the state and the coinbase cache after the call. -/
def createEvmState (st : MinorBlockStore) (shardConfig : ShardConfig)
    (cache : CoinBaseAddrCache) (trieRootHash headerHash : CommonHash) :
    Outcome EvmState × CoinBaseAddrCache :=
  match st.StateAt trieRootHash with
  | .error e => (.error e, cache)
  | .fault => (.fault, cache)
  | .ok evmState =>
    if shardConfig.PoswConfig.Enabled = true ∧ headerHash % 2 ^ 64 = 0 then
      match getPOSWCoinBaseBlockCnt st shardConfig cache headerHash none with
      | (.error e, cache1) => (.error e, cache1)
      | (.fault, cache1) => (.fault, cache1)
      | (.ok powsAddr, cache1) => (.ok { evmState with senderDisallowList := powsAddr }, cache1)
    else (.ok evmState, cache)

/-- Source `getEvmStateForNewBlock` (lines 223-242): the state after the parent of the
block, with the coinbase and the gas limit of the block and the chain configuration
set. The copy of an ephemeral state is the same value. -/
def getEvmStateForNewBlock (st : MinorBlockStore) (shardConfig : ShardConfig)
    (qkcConfig : QuarkChainConfig) (cache : CoinBaseAddrCache) (block : MinorBlock) :
    Outcome EvmState × CoinBaseAddrCache :=
  match st.GetBlockByHash block.Header.ParentHash with
  | none => (.error "insufficient balance to pay for gas", cache)
  | some preMinorBlock =>
    match createEvmState st shardConfig cache preMinorBlock.Root block.Header.ParentHash with
    | (.error e, cache1) => (.error e, cache1)
    | (.fault, cache1) => (.fault, cache1)
    | (.ok evmState, cache1) =>
      (.ok { evmState with
          blockCoinBase := block.Header.Coinbase.Recipient
          gasLimit := block.Header.GasLimit
          quarkChainConfig := some qkcConfig },
        cache1)

/-- The block threshold of `POSWDiffAdjust` (lines 1332-1335): the low 64 bits of the
stake divided by the low 64 bits of the stake per block (a zero divisor panics), and
the window size when that is smaller than the low 32 bits of the quotient. -/
def poswBlockThreshold (config : PoswConfig) (stakes : Int) : Outcome Nat :=
  if bigUint64 config.TotalStakePerBlock = 0 then .fault
  else
    let blockThreShold := bigUint64 stakes / bigUint64 config.TotalStakePerBlock
    if config.WindowSize < blockThreShold % 2 ^ 32 then .ok config.WindowSize
    else .ok blockThreShold

/-- Source `MinorBlockChain.POSWDiffAdjust` (lines 1319-1348): the adjusted difficulty
and the coinbase cache after the call. The difficulty is cut to a `uint32`; the list
of coinbase addresses of the window (of length `WindowSize - 1`, a `uint32`
difference) is computed, logged and not used, and its error is dropped: the count
`cnt` is the constant 1. -/
def POSWDiffAdjust (st : MinorBlockStore) (shardConfig : ShardConfig)
    (qkcConfig : QuarkChainConfig) (cache : CoinBaseAddrCache) (block : MinorBlock) :
    Outcome Nat × CoinBaseAddrCache :=
  let diff := bigUint64 block.Header.Difficulty % 2 ^ 32
  let coinbaseAddress := block.Header.Coinbase.Recipient
  match getEvmStateForNewBlock st shardConfig qkcConfig cache block with
  | (.error e, cache1) => (.error e, cache1)
  | (.fault, cache1) => (.fault, cache1)
  | (.ok evmState, cache1) =>
    let config := shardConfig.PoswConfig
    match poswBlockThreshold config (evmState.balances coinbaseAddress) with
    | .error e => (.error e, cache1)
    | .fault => (.fault, cache1)
    | .ok blockThreShold =>
      let windowSize := if config.WindowSize = 0 then 2 ^ 32 - 1 else config.WindowSize - 1
      let cache2 :=
        (getPOSWCoinBaseBlockCnt st shardConfig cache1 block.Header.ParentHash
          (some windowSize)).2
      let cnt := 1
      if cnt < blockThreShold then
        if config.DiffDivider = 0 then (.fault, cache2)
        else (.ok (diff / config.DiffDivider), cache2)
      else (.ok diff, cache2)

/-- The number of blocks carrying the coinbase recipient of a block in the trailing
window ending at its parent, in the words of the spec: the window has
`WindowSize - 1` blocks and is walked along the parent links. -/
def poswWindowCount (st : MinorBlockStore) (shardConfig : ShardConfig) (block : MinorBlock) :
    Nat :=
  match (getCoinBaseAddressUntilBlock st [] block.Header.ParentHash
      (shardConfig.PoswConfig.WindowSize - 1)).1 with
  | .ok addrs => addrs.count block.Header.Coinbase.Recipient
  | _ => 0

/-- Example shard configuration with POSW: divider 2, window 3, stake per block 10;
the rest is the configuration of the scenario. -/
def examplePoswShardConfig : ShardConfig :=
  { scenarioShardConfig with
    PoswConfig := { Enabled := true, DiffDivider := 2, WindowSize := 3, TotalStakePerBlock := 10 } }

/-- Example block on the head of `exampleLineStore` with the difficulty `2 ^ 32 + 5`
and the coinbase recipient 50, whose balance in `examplePoswState` is 0. -/
def exampleLargeDifficultyBlock : MinorBlock :=
  { Header :=
      { Hash := 104, Branch := ⟨1⟩, PrevRootBlockHash := 9, ParentHash := 103, Number := 4,
        Difficulty := 2 ^ 32 + 5, Coinbase := ⟨50, 1⟩ } }

/-! ## Creating a block to mine -/

/-- Functions and configuration outside the file that `CreateBlockToMine` uses:

* `CalcDifficulty`: `m.engine.CalcDifficulty` of the consensus engine, on a time and
  the head header;
* `BlockHash`: the hash of a new header;
* `Commit`, `IntermediateRoot`: methods of the external state store;
* `Quarkchain`: the chain configuration `m.clusterConfig.Quarkchain`. -/
structure MineDeps where
  CalcDifficulty : Nat → MinorBlockHeader → Outcome Int
  BlockHash : MinorBlockHeader → CommonHash
  Commit : EvmState → Outcome CommonHash
  IntermediateRoot : EvmState → CommonHash
  Quarkchain : QuarkChainConfig

/-- The candidate returned by `CreateBlockToMine`: the header, the transactions and
receipts, and the values stamped by `Finalize`. -/
structure MinedBlock where
  Header : MinorBlockHeader
  Transactions : List Transaction
  Receipts : List Receipt
  Root : CommonHash
  GasUsed : Int
  CrossShardGasUsed : Int
  CoinbaseAmount : Int

/-- The first statements of `CreateBlockToMine` (lines 896-905): the creation time; `now`
is the reading of the clock, and the sum with the head's timestamp is on `uint64`. -/
def mineCreateTime (now headTime : Nat) (createTime : Option Nat) : Nat :=
  match createTime with
  | none => if now < (headTime + 1) % 2 ^ 64 then (headTime + 1) % 2 ^ 64 else now
  | some t => t

/-- Source `MinorBlockChain.GetNextBlockDifficulty` (lines 713-724); without a creation
time the clock is compared with the height of the head plus one. -/
def GetNextBlockDifficulty (md : MineDeps) (st : MinorBlockStore) (now : Nat)
    (createTime : Option Nat) : Outcome Int :=
  let realTime := match createTime with
    | none =>
      if now < (st.CurrentBlock.Header.Number + 1) % 2 ^ 64 then
        (st.CurrentBlock.Header.Number + 1) % 2 ^ 64
      else now
    | some t => t
  md.CalcDifficulty realTime st.CurrentHeader

/-- The gas limit that `CreateBlockToMine` gives the new block (line 911): the result
of `computerGasLimit` on the gas limit and gas used of the head and the gas-limit floor
`Genesis.GasLimit` of the shard. The error of `computerGasLimit` is assigned to `err`
and overwritten by the next statement without a test; the value returned with it is
0. -/
def mineNewGasLimit (m : MinorBlockChain) (prevBlock : MinorBlock) : Outcome Nat :=
  match computerGasLimit m.shardConfig (bigUint64 prevBlock.Header.GasLimit)
      (bigUint64 prevBlock.GasUsed) m.shardConfig.GenesisGasLimit with
  | .ok newGasLimit => .ok newGasLimit
  | .error _ => .ok 0
  | .fault => .fault

/-- Modelled from the spec: `MinorBlock.CreateBlockToAppend` is outside the file; the
candidate on a block has a "header (parent hash, height/number, branch id, coinbase
address ..., gas limit ..., difficulty, timestamp, previous-root-block-hash ...)":
the parent hash is the hash of the block, the height is one more, branch and previous
root block hash are those of the block, and time, difficulty, coinbase address and gas
limit are the arguments; a nil address is the empty address of the shard key of the
block's coinbase. -/
def MinorBlock.CreateBlockToAppend (prevBlock : MinorBlock) (md : MineDeps) (createTime : Nat)
    (difficulty : Int) (address : Option Address) (gasLimit : Nat) : MinorBlock :=
  let header : MinorBlockHeader :=
    { Hash := 0
      Branch := prevBlock.Header.Branch
      PrevRootBlockHash := prevBlock.Header.PrevRootBlockHash
      ParentHash := prevBlock.Header.Hash
      Number := prevBlock.Header.Number + 1
      GasLimit := (gasLimit : Int)
      Time := createTime
      Difficulty := difficulty
      Coinbase := address.getD ⟨0, prevBlock.Header.Coinbase.FullShardKey⟩ }
  { Header := { header with Hash := md.BlockHash header } }

/-- The state for the new block in `CreateBlockToMine` (lines 914-917). The error of
`getEvmStateForNewBlock` is not tested either: it leaves a nil state (`none`), on which
`SetGasLimit` is a nil dereference. The coinbase cache after the call is not
tracked. -/
def mineState (st : MinorBlockStore) (m : MinorBlockChain) (md : MineDeps)
    (cache : CoinBaseAddrCache) (block : MinorBlock) (gasLimit : Option Int) :
    Outcome (Option EvmState) :=
  match (getEvmStateForNewBlock st m.shardConfig md.Quarkchain cache block).1 with
  | .fault => .fault
  | .error _ =>
    match gasLimit with
    | none => .ok none
    | some _ => .fault
  | .ok evmState =>
    match gasLimit with
    | none => .ok (some evmState)
    | some g => .ok (some { evmState with gasLimit := g })

/-- Source `MinorBlockChain.getCoinBaseAmount` (lines 564-568): the coinbase amount of
the shard times the local fee rate of the chain configuration. -/
def getCoinBaseAmount (d : Deps) (md : MineDeps) (m : MinorBlockChain) : Outcome Int :=
  match getLocalFeeRate (some md.Quarkchain) with
  | .error e => .error e
  | .fault => .fault
  | .ok localFeeRate => .ok (d.BigIntMulBigRat m.shardConfig.CoinbaseAmount localFeeRate)

/-- The end of `CreateBlockToMine` (lines 935-944), `coinBase` being the result of
`getCoinBaseAmount`: the amount is added to the balance of the coinbase, the state is
committed, and the block is finalized. Modelled from the spec: `Finalize` "stamp[s] the
block with gas used, cross-shard gas used, and total coinbase amount" and the state
root. -/
def mineFinalize (md : MineDeps) (block : MinorBlock) (built : BuiltBlock)
    (coinBase : Outcome Int) : Outcome MinedBlock :=
  match coinBase with
  | .error e => .error e
  | .fault => .fault
  | .ok pureCoinBaseAmount =>
    let evmState := built.evmState.AddBalance built.evmState.blockCoinBase pureCoinBaseAmount
    match md.Commit evmState with
    | .error e => .error e
    | .fault => .fault
    | .ok _ =>
      .ok { Header := { block.Header with PrevRootBlockHash := built.PrevRootBlockHash }
            Transactions := built.Transactions
            Receipts := built.Receipts
            Root := md.IntermediateRoot evmState
            GasUsed := evmState.gasUsed
            CrossShardGasUsed := evmState.xShardReceiveGasUsed
            CoinbaseAmount := pureCoinBaseAmount + evmState.blockFee }

/-- The middle of `CreateBlockToMine` (lines 919-934): the root tip has to be on the
chain of the previous root block of the head, the deposits of the root blocks in
between are included as far as the gas allows, and the block is filled from the pool.
The pointers to gas used and gas limit of the new state are different
(`same = false`). -/
def mineBuild (d : Deps) (td : TxDeps) (md : MineDeps) (m : MinorBlockChain) (fuel : Nat)
    (pending : Outcome (List Transaction)) (prevHeader : MinorBlock) (block : MinorBlock)
    (evmState : EvmState) : Option (Outcome MinedBlock) :=
  match m.GetRootBlockByHash prevHeader.Header.PrevRootBlockHash with
  | none => some .fault
  | some rBlock =>
    let ancestorRootHeader := rBlock.Header
    match isSameRootChain m.getRootBlockHeaderByHash (some m.rootTip)
        (some ancestorRootHeader) with
    | .error e => some (.error e)
    | .fault => some .fault
    | .ok false => some (.error "not same root chain")
    | .ok true =>
      match includeCrossShardTxList d m fuel evmState false m.rootTip ancestorRootHeader with
      | none => none
      | some (.error e) => some (.error e)
      | some .fault => some .fault
      | some (.ok (rootHeader, evmState1)) =>
        match addTransactionToBlock d td m pending rootHeader.Hash block.Header.GasLimit
            evmState1 with
        | .error e => some (.error e)
        | .fault => some .fault
        | .ok built => some (mineFinalize md block built (getCoinBaseAmount d md m))

/-- The middle of `CreateBlockToMine` (lines 919-934) on the nil state that an
unchecked error of `getEvmStateForNewBlock` leaves: the tests that do not read the
state return their errors, the first read of the state is a nil dereference (in
`runOneCrossShardTxListByRootBlockHash` after the deposit list is collected, or at the
loop test of `addTransactionToBlock` after the pool is read). -/
def mineBuildNoState (d : Deps) (m : MinorBlockChain) (fuel : Nat)
    (pending : Outcome (List Transaction)) (prevHeader : MinorBlock) :
    Option (Outcome MinedBlock) :=
  match m.GetRootBlockByHash prevHeader.Header.PrevRootBlockHash with
  | none => some .fault
  | some rBlock =>
    let ancestorRootHeader := rBlock.Header
    match isSameRootChain m.getRootBlockHeaderByHash (some m.rootTip)
        (some ancestorRootHeader) with
    | .error e => some (.error e)
    | .fault => some .fault
    | .ok false => some (.error "not same root chain")
    | .ok true =>
      match includeWalk m ancestorRootHeader fuel m.rootTip [] with
      | none => none
      | some (.error e) => some (.error e)
      | some .fault => some .fault
      | some (.ok headerList) =>
        match headerList.reverse with
        | h :: _ =>
          match getCrossShardTxListByRootBlockHash d m h.Hash with
          | .error e => some (.error e)
          | _ => some .fault
        | [] =>
          match pending with
          | .error e => some (.error e)
          | _ => some .fault

/-- Source `MinorBlockChain.CreateBlockToMine` (lines 895-946), continued in
`mineState`, `mineBuild` (`mineBuildNoState` on a nil state) and `mineFinalize`. `now`
is the reading of the clock, `pending` the result of `txPool.Pending()` in
price-and-nonce order, `fuel` the bound on the walk of `includeCrossShardTxList`. -/
def CreateBlockToMine (d : Deps) (td : TxDeps) (md : MineDeps) (m : MinorBlockChain)
    (st : MinorBlockStore) (cache : CoinBaseAddrCache) (fuel : Nat) (now : Nat)
    (pending : Outcome (List Transaction)) (createTime : Option Nat)
    (address : Option Address) (gasLimit : Option Int) : Option (Outcome MinedBlock) :=
  let realCreateTime := mineCreateTime now st.CurrentBlock.Header.Time createTime
  match GetNextBlockDifficulty md st now (some realCreateTime) with
  | .error e => some (.error e)
  | .fault => some .fault
  | .ok difficulty =>
    let prevBlock := st.CurrentBlock
    match mineNewGasLimit m prevBlock with
    | .error e => some (.error e)
    | .fault => some .fault
    | .ok newGasLimit =>
      let block := prevBlock.CreateBlockToAppend md realCreateTime difficulty address newGasLimit
      match mineState st m md cache block gasLimit with
      | .error e => some (.error e)
      | .fault => some .fault
      | .ok none => mineBuildNoState d m fuel pending st.CurrentBlock
      | .ok (some evmState) => mineBuild d td md m fuel pending st.CurrentBlock block evmState

/-- Example of the outside functions of block creation: the difficulty is 1000 for
every time that is not before the timestamp of the head, the hash of a header is its
parent hash plus one, the commit succeeds with state root 0, and the reward tax rate is
1/2. -/
def exampleMineDeps : MineDeps where
  CalcDifficulty := fun t h =>
    if t < h.Time then .error "time is smaller than parent time" else .ok 1000
  BlockHash := fun h => h.ParentHash + 1
  Commit := fun _ => .ok 0
  IntermediateRoot := fun _ => 0
  Quarkchain := ⟨1 / 2⟩

/-- The head of `exampleMineStore`: the block of hash 103 at height 3, with the
timestamp 100, the gas limit 1,000,000 and the gas used 500,000; its previous root
block is the root block of hash 10. -/
def exampleMineHead : MinorBlock :=
  { Header :=
      { Hash := 103, Branch := ⟨1⟩, PrevRootBlockHash := 10, ParentHash := 102, Number := 3,
        GasLimit := 1000000, Time := 100, Difficulty := 1000, Coinbase := ⟨103, 1⟩ }
    GasUsed := 500000 }

/-- Example store for block creation: `exampleLineStore` with `exampleMineHead` as its
head. -/
def exampleMineStore : MinorBlockStore :=
  { exampleLineStore with
    GetBlockByHash := fun h =>
      if h = 103 then some exampleMineHead else exampleLineStore.GetBlockByHash h
    CurrentBlock := exampleMineHead
    CurrentHeader := exampleMineHead.Header }

/-- Example chain for block creation whose gas-limit floor 5000 is the minimum; the
rest is `exampleChain`, whose floor is 0. -/
def exampleMineChain : MinorBlockChain :=
  { exampleChain [] with shardConfig := { scenarioShardConfig with GenesisGasLimit := 5000 } }

/-! ## The sibling settlement routine -/

/-- Source `minBigInt` (lines 394-399). -/
def minBigInt (a b : Int) : Int :=
  if a < b then a else b

/-- Body of the loop of `ruOneCrossShardTxListByRootBlockHash` (lines 509-519): one
deposit applied to the state; the coinbase is credited with the fee itself. -/
def applyDepositRu (d : Deps) (localFeeRate : Rat) (evmState : EvmState)
    (tx : CrossShardTransactionDeposit) : EvmState :=
  let s1 := evmState.AddBalance tx.To.Recipient tx.Value
  let addGasUsed : Int := if bigUint64 tx.GasPrice ≠ 0 then d.GtxxShardCost else 0
  let gasUsed := minBigInt s1.gasLimit (s1.gasUsed + addGasUsed)
  let s2 := s1.SetGasUsed gasUsed
  let xShardFee := d.BigIntMulBigRat (d.GtxxShardCost * tx.GasPrice) localFeeRate
  let s3 := s2.AddBlockFee xShardFee
  s3.AddBalance s3.blockCoinBase xShardFee

/-- Source `MinorBlockChain.ruOneCrossShardTxListByRootBlockHash` (lines 501-522):
returns the deposit list and the state after settling it. -/
def ruOneCrossShardTxListByRootBlockHash (d : Deps) (m : MinorBlockChain) (hash : CommonHash)
    (evmState : EvmState) : Outcome (List CrossShardTransactionDeposit × EvmState) :=
  match getCrossShardTxListByRootBlockHash d m hash with
  | .error e => .error e
  | .fault => .fault
  | .ok txList =>
    match getLocalFeeRate evmState.quarkChainConfig with
    | .error e => .error e
    | .fault => .fault
    | .ok localFeeRate =>
      let s := txList.foldl (applyDepositRu d localFeeRate) evmState
      .ok (txList, s.SetXShardReceiveGasUsed s.gasUsed)

/-- The fee of a deposit: the cross-shard gas cost times the gas price times the local
fee rate, as both settlement routines compute it. -/
def depositFee (d : Deps) (localFeeRate : Rat) (tx : CrossShardTransactionDeposit) : Int :=
  d.BigIntMulBigRat (d.GtxxShardCost * tx.GasPrice) localFeeRate

/-- The gas that settling a deposit adds before the cap: the cross-shard gas cost when
the low 64 bits of the gas price are not zero. -/
def depositGas (d : Deps) (tx : CrossShardTransactionDeposit) : Int :=
  if bigUint64 tx.GasPrice ≠ 0 then d.GtxxShardCost else 0

/-- What `runOneCrossShardTxListByRootBlockHash` adds to the balance of the account `a`
for one deposit: the value when `a` is the recipient, and the low 64 bits of the fee
when `a` is the coinbase of the block. -/
def depositCredit (d : Deps) (localFeeRate : Rat) (coinBase a : Recipient)
    (tx : CrossShardTransactionDeposit) : Int :=
  (if a = tx.To.Recipient then tx.Value else 0)
    + (if a = coinBase then (bigUint64 (depositFee d localFeeRate tx) : Int) else 0)

/-- The deposits of a root block (none when they cannot be collected). -/
def depositsOf (d : Deps) (m : MinorBlockChain) (h : RootBlockHeader) :
    List CrossShardTransactionDeposit :=
  match getCrossShardTxListByRootBlockHash d m h.Hash with
  | .ok l => l
  | _ => []

/-- Example state with the reward tax rate `1 / 2 ^ 64`, whose denominator has the low
64 bits 0; the rest is `exampleState`. -/
def exampleStateTinyTax : EvmState :=
  { exampleState with quarkChainConfig := some ⟨1 / 2 ^ 64⟩ }

/-- Example state with the reward tax rate 3/2, which makes the local fee rate −1/2; the
rest is `exampleState`. -/
def exampleStateHighTax : EvmState :=
  { exampleState with quarkChainConfig := some ⟨3 / 2⟩ }

/-! ## Queries at a height -/

/-- Methods of the external state store used by the queries: the nonce and the code of
an account, and the storage proof of a key of an account. -/
structure StateQueries where
  GetNonce : EvmState → Recipient → Nat
  GetCode : EvmState → Recipient → List Nat
  GetStorageProof : EvmState → Recipient → CommonHash → Outcome (List (List Nat))

/-- Source `MinorBlockChain.GetBalance` (lines 606-621). The first statement,
`realHeight := *height`, reads through the pointer before the test `height == nil`: a
nil height is a nil dereference, and the assignment inside the test is not reached. -/
def GetBalance (st : MinorBlockStore) (recipient : Recipient) (height : Option Nat) :
    Outcome Int :=
  match height with
  | none => .fault
  | some h =>
    let realHeight := h
    match st.GetBlockByNumber realHeight with
    | none => .error "minor block is nil"
    | some mBlock =>
      match st.StateAt mBlock.Root with
      | .error e => .error e
      | .fault => .fault
      | .ok evmState => .ok (evmState.balances recipient)

/-- Source `MinorBlockChain.GetTransactionCount` (lines 624-639): the height of the
head is read first and replaced by the height given, if one is given. -/
def GetTransactionCount (st : MinorBlockStore) (q : StateQueries) (recipient : Recipient)
    (height : Option Nat) : Outcome Nat :=
  let realHeight := match height with
    | none => st.CurrentBlock.Header.Number
    | some h => h
  match st.GetBlockByNumber realHeight with
  | none => .error "minor block is nil"
  | some mBlock =>
    match st.StateAt mBlock.Root with
    | .error e => .error e
    | .fault => .fault
    | .ok evmState => .ok (q.GetNonce evmState recipient)

/-- Source `MinorBlockChain.GetCode` (lines 642-657); the first statement reads through
the pointer as in `GetBalance`. -/
def GetCode (st : MinorBlockStore) (q : StateQueries) (recipient : Recipient)
    (height : Option Nat) : Outcome (List Nat) :=
  match height with
  | none => .fault
  | some h =>
    let realHeight := h
    match st.GetBlockByNumber realHeight with
    | none => .error "minor block is nil"
    | some mBlock =>
      match st.StateAt mBlock.Root with
      | .error e => .error e
      | .fault => .fault
      | .ok evmState => .ok (q.GetCode evmState recipient)

/-- Source `MinorBlockChain.GetStorageAt` (lines 660-675); the first statement reads
through the pointer as in `GetBalance`. -/
def GetStorageAt (st : MinorBlockStore) (q : StateQueries) (recipient : Recipient)
    (key : CommonHash) (height : Option Nat) : Outcome (List (List Nat)) :=
  match height with
  | none => .fault
  | some h =>
    let realHeight := h
    match st.GetBlockByNumber realHeight with
    | none => .error "minor block is nil"
    | some mBlock =>
      match st.StateAt mBlock.Root with
      | .error e => .error e
      | .fault => .fault
      | .ok evmState => q.GetStorageProof evmState recipient key

/-- Example of the state-store queries: the nonce of an account is its balance (as a
natural number), the code is empty, and the storage proof is the key alone. -/
def exampleQueries : StateQueries where
  GetNonce := fun s a => (s.balances a).toNat
  GetCode := fun _ _ => []
  GetStorageProof := fun _ _ key => .ok [[key]]

/-! ## Lemmas on the power-of-two test -/

theorem absUint32_comm (a b : Nat) : absUint32 a b = absUint32 b a := by
  unfold absUint32
  split_ifs <;> omega

/-- C1: for every pair of branches and every shard size, `isNeighbor b1 b2 n`
equals `isNeighbor b2 b1 n` (whatever the power-of-two test is). -/
theorem isNeighbor_symm (d : Deps) (b1 b2 : Branch) (n : Nat) :
    isNeighbor d b1 b2 n = isNeighbor d b2 b1 n := by
  unfold isNeighbor
  by_cases hn : n ≤ 32
  · simp [hn]
  · by_cases hc : d.GetChainID b1 = d.GetChainID b2
    · simp [hn, hc, absUint32_comm (d.GetShardID b1)]
    · have hc2 : ¬ d.GetChainID b2 = d.GetChainID b1 := fun h => hc h.symm
      by_cases hs : d.GetShardID b1 = d.GetShardID b2
      · simp [hn, hc, hc2, hs, absUint32_comm (d.GetChainID b1)]
      · have hs2 : ¬ d.GetShardID b2 = d.GetShardID b1 := fun h => hs h.symm
        simp [hn, hc, hc2, hs, hs2]

/-- C3: for every shard size `n ≤ 32` and every pair of branches, `isNeighbor`
returns true. -/
theorem isNeighbor_small_shard_size (d : Deps) (b1 b2 : Branch) (n : Nat) (hn : n ≤ 32) :
    isNeighbor d b1 b2 n = true := by
  simp [isNeighbor, hn]

/-- Witness of C3: shard size 16, branches with different chain ids and shard ids. -/
theorem isNeighbor_small_shard_size_witness :
    (16 ≤ 32) ∧ isNeighbor stdDeps ⟨5⟩ ⟨131074⟩ 16 = true :=
  ⟨by decide, isNeighbor_small_shard_size stdDeps ⟨5⟩ ⟨131074⟩ 16 (by decide)⟩

/-! ## Theorems: the gas limit -/

/-- The step of `computerGasLimit` when nothing wraps, as a formula on natural numbers. -/
theorem computerGasLimit_no_wrap (c : ShardConfig) (parentGasLimit parentGasUsed floor : Nat)
    (hfloor : c.GasLimitMinimum ≤ floor)
    (hema : c.GasLimitEmaDenominator ≠ 0)
    (hden : c.GasLimitUsageAdjustmentDenominator ≠ 0)
    (hmul : parentGasUsed * c.GasLimitUsageAdjustmentNumerator < 2 ^ 64)
    (hsum : parentGasLimit - parentGasLimit / c.GasLimitEmaDenominator
        + gasUsageIncrease c parentGasLimit parentGasUsed < 2 ^ 64) :
    computerGasLimit c parentGasLimit parentGasUsed floor =
      if gasLimitTarget c parentGasLimit parentGasUsed < floor then
        .ok ((parentGasLimit + parentGasLimit / c.GasLimitEmaDenominator) % 2 ^ 64)
      else .ok (gasLimitTarget c parentGasLimit parentGasUsed) := by
  have hdle : parentGasLimit / c.GasLimitEmaDenominator ≤ parentGasLimit := Nat.div_le_self _ _
  have hu : (if parentGasLimit ≠ 0 then
        (parentGasUsed * c.GasLimitUsageAdjustmentNumerator) % 2 ^ 64
          / c.GasLimitUsageAdjustmentDenominator / c.GasLimitEmaDenominator
      else 0) = gasUsageIncrease c parentGasLimit parentGasUsed := by
    unfold gasUsageIncrease
    rw [Nat.mod_eq_of_lt hmul]
    by_cases h0 : parentGasLimit = 0 <;> simp [h0]
  have ht : ((parentGasLimit + 2 ^ 64 - parentGasLimit / c.GasLimitEmaDenominator) % 2 ^ 64
      + gasUsageIncrease c parentGasLimit parentGasUsed) % 2 ^ 64
      = parentGasLimit - parentGasLimit / c.GasLimitEmaDenominator
        + gasUsageIncrease c parentGasLimit parentGasUsed := by
    have h1 : (parentGasLimit + 2 ^ 64 - parentGasLimit / c.GasLimitEmaDenominator) % 2 ^ 64
        = parentGasLimit - parentGasLimit / c.GasLimitEmaDenominator := by
      omega
    rw [h1, Nat.mod_eq_of_lt hsum]
  unfold computerGasLimit
  simp only [hu, ht]
  have hnf : ¬ floor < c.GasLimitMinimum := by omega
  simp only [hnf, hema, hden, and_false, if_false]
  unfold gasLimitTarget
  by_cases hm : c.GasLimitMinimum < parentGasLimit - parentGasLimit / c.GasLimitEmaDenominator
      + gasUsageIncrease c parentGasLimit parentGasUsed
  · have hmax : max c.GasLimitMinimum (parentGasLimit - parentGasLimit / c.GasLimitEmaDenominator
      + gasUsageIncrease c parentGasLimit parentGasUsed) = parentGasLimit
        - parentGasLimit / c.GasLimitEmaDenominator
        + gasUsageIncrease c parentGasLimit parentGasUsed := max_eq_right (by omega)
    simp only [hm, if_true, hmax]
    have : ¬ (parentGasLimit - parentGasLimit / c.GasLimitEmaDenominator
      + gasUsageIncrease c parentGasLimit parentGasUsed < c.GasLimitMinimum) := by omega
    simp only [this, if_false]
  · have hmax : max c.GasLimitMinimum (parentGasLimit - parentGasLimit / c.GasLimitEmaDenominator
      + gasUsageIncrease c parentGasLimit parentGasUsed) = c.GasLimitMinimum :=
      max_eq_left (by omega)
    simp only [hm, if_false, hmax, lt_irrefl]

theorem iterateGasLimit_succ_of_ok (c : ShardConfig) (floor n g g1 : Nat)
    (h : computerGasLimit c g (g / 2) floor = .ok g1) :
    iterateGasLimit c floor (n + 1) g = iterateGasLimit c floor n g1 := by
  simp [iterateGasLimit, h]

/-- Around a floor of 10,000,000 the scenario configuration never rests: a gas limit
in the band from the floor to 10,030,000 is sent to a different gas limit of the band. -/
theorem scenario_step_moves (g : Nat) (h1 : 10000000 ≤ g) (h2 : g ≤ 10030000) :
    ∃ g1, computerGasLimit scenarioShardConfig g (g / 2) 10000000 = .ok g1 ∧
      g1 ≠ g ∧ 10000000 ≤ g1 ∧ g1 ≤ 10030000 := by
  have hu : gasUsageIncrease scenarioShardConfig g (g / 2) = g / 2 * 3 / 2 / 1024 := by
    have : g ≠ 0 := by omega
    simp [gasUsageIncrease, scenarioShardConfig, this]
  have ht : gasLimitTarget scenarioShardConfig g (g / 2)
      = max 5000 (g - g / 1024 + g / 2 * 3 / 2 / 1024) := by
    simp only [gasLimitTarget, hu]
    rfl
  have hd1 : 9765 ≤ g / 1024 := by omega
  have hd2 : g / 1024 ≤ 9795 := by omega
  have hu1 : 7323 ≤ g / 2 * 3 / 2 / 1024 := by omega
  have hu2 : g / 2 * 3 / 2 / 1024 ≤ 7347 := by omega
  rw [computerGasLimit_no_wrap scenarioShardConfig g (g / 2) 10000000 (by decide) (by decide)
    (by decide) (by simp only [scenarioShardConfig]; omega)
    (by rw [hu]; simp only [scenarioShardConfig]; omega)]
  rw [ht]
  simp only [scenarioShardConfig]
  generalize g / 2 * 3 / 2 / 1024 = u at hu1 hu2 ⊢
  generalize g / 1024 = d at hd1 hd2 ⊢
  have hmax : max 5000 (g - d + u) = g - d + u := max_eq_right (by omega)
  rw [hmax]
  by_cases hlt : g - d + u < 10000000
  · simp only [hlt, if_true]
    have hfit : g + d < 2 ^ 64 := by omega
    rw [Nat.mod_eq_of_lt hfit]
    exact ⟨_, rfl, by omega, by omega, by omega⟩
  · simp only [hlt, if_false]
    exact ⟨_, rfl, by omega, by omega, by omega⟩

theorem scenario_orbit_in_band (n : Nat) : ∀ g, 10000000 ≤ g → g ≤ 10030000 →
    ∃ g1, iterateGasLimit scenarioShardConfig 10000000 n g = .ok g1 ∧
      10000000 ≤ g1 ∧ g1 ≤ 10030000 := by
  induction n with
  | zero => intro g h1 h2; exact ⟨g, rfl, h1, h2⟩
  | succ n ih =>
    intro g h1 h2
    obtain ⟨g1, hs, _, h3, h4⟩ := scenario_step_moves g h1 h2
    rw [iterateGasLimit_succ_of_ok _ _ _ _ _ hs]
    exact ih g1 h3 h4

theorem scenario_orbit_low (n : Nat) :
    iterateGasLimit scenarioShardConfig 10000 n 100 = .ok 100 := by
  induction n with
  | zero => rfl
  | succ n ih =>
    rw [iterateGasLimit_succ_of_ok scenarioShardConfig 10000 n 100 100 (by decide)]
    exact ih

/-- With the floor at the minimum and a usage adjustment of at most 2, one steady-state
step returns the target, which lies between the minimum and `max minimum g`. -/
theorem steady_step_floor_eq_min (c : ShardConfig) (g : Nat)
    (hema : c.GasLimitEmaDenominator ≠ 0)
    (hden : c.GasLimitUsageAdjustmentDenominator ≠ 0)
    (hnum : c.GasLimitUsageAdjustmentNumerator ≤ 2 * c.GasLimitUsageAdjustmentDenominator)
    (hg : g < 2 ^ 64)
    (hmul : g / 2 * c.GasLimitUsageAdjustmentNumerator < 2 ^ 64) :
    computerGasLimit c g (g / 2) c.GasLimitMinimum = .ok (gasLimitTarget c g (g / 2)) ∧
      c.GasLimitMinimum ≤ gasLimitTarget c g (g / 2) ∧
      gasLimitTarget c g (g / 2) ≤ max c.GasLimitMinimum g := by
  have hu : gasUsageIncrease c g (g / 2) ≤ g / c.GasLimitEmaDenominator := by
    unfold gasUsageIncrease
    split_ifs with h0
    · exact Nat.zero_le _
    · apply Nat.div_le_div_right
      calc g / 2 * c.GasLimitUsageAdjustmentNumerator / c.GasLimitUsageAdjustmentDenominator
          ≤ g / 2 * (2 * c.GasLimitUsageAdjustmentDenominator)
              / c.GasLimitUsageAdjustmentDenominator :=
            Nat.div_le_div_right (Nat.mul_le_mul_left _ hnum)
        _ = g / 2 * 2 := by
            rw [← Nat.mul_assoc]
            exact Nat.mul_div_cancel _ (Nat.pos_of_ne_zero hden)
        _ ≤ g := Nat.div_mul_le_self g 2
  have hd : g / c.GasLimitEmaDenominator ≤ g := Nat.div_le_self _ _
  have hsum : g - g / c.GasLimitEmaDenominator + gasUsageIncrease c g (g / 2) ≤ g := by omega
  have hmin : c.GasLimitMinimum ≤ gasLimitTarget c g (g / 2) := by
    unfold gasLimitTarget; exact le_max_left _ _
  refine ⟨?_, hmin, ?_⟩
  · rw [computerGasLimit_no_wrap c g (g / 2) c.GasLimitMinimum (le_refl _) hema hden hmul
      (by omega)]
    have : ¬ gasLimitTarget c g (g / 2) < c.GasLimitMinimum := by omega
    simp only [this, if_false]
  · unfold gasLimitTarget
    exact max_le_max (le_refl _) hsum

theorem steady_orbit_converges (c : ShardConfig)
    (hema : c.GasLimitEmaDenominator ≠ 0)
    (hden : c.GasLimitUsageAdjustmentDenominator ≠ 0)
    (hnum : c.GasLimitUsageAdjustmentNumerator ≤ 2 * c.GasLimitUsageAdjustmentDenominator)
    (g : Nat) : c.GasLimitMinimum ≤ g → g < 2 ^ 64 →
      g / 2 * c.GasLimitUsageAdjustmentNumerator < 2 ^ 64 →
      ∃ n gs, iterateGasLimit c c.GasLimitMinimum n g = .ok gs ∧
        computerGasLimit c gs (gs / 2) c.GasLimitMinimum = .ok gs ∧
        c.GasLimitMinimum ≤ gs := by
  induction g using Nat.strong_induction_on with
  | _ g ih =>
    intro hmin hg hmul
    obtain ⟨hstep, hlo, hhi⟩ := steady_step_floor_eq_min c g hema hden hnum hg hmul
    rw [max_eq_right hmin] at hhi
    by_cases hfix : gasLimitTarget c g (g / 2) = g
    · refine ⟨0, g, rfl, ?_, hmin⟩
      rw [hstep, hfix]
    · have hlt : gasLimitTarget c g (g / 2) < g := lt_of_le_of_ne hhi hfix
      have hmul1 : gasLimitTarget c g (g / 2) / 2 * c.GasLimitUsageAdjustmentNumerator
          < 2 ^ 64 :=
        lt_of_le_of_lt (Nat.mul_le_mul_right _ (Nat.div_le_div_right hhi)) hmul
      obtain ⟨n, gs, h1, h2, h3⟩ := ih _ hlt hlo (by omega) hmul1
      exact ⟨n + 1, gs, by rw [iterateGasLimit_succ_of_ok _ _ _ _ _ hstep]; exact h1, h2, h3⟩

/-- C4, as stated, fails: in the scenario (parent gas limit 10,000,000, gas used 0,
EMA denominator 1024, minimum 5000, floor 5000) the decay is 9765, not 9766, and the
result is 9,990,235, not 9,990,234; with a zero parent gas limit the usage increase
is 0 whatever the gas used (result 5000 where the formula of the claim gives
1,464,843); and a product `parentGasUsed × usageNumerator` of `2 ^ 64` or more wraps
(result `2 ^ 63 − 2 ^ 52` where the formula of the claim gives `2 ^ 63 + 2 ^ 52`). -/
theorem computerGasLimit_claim_counterexample :
    (10000000 / scenarioShardConfig.GasLimitEmaDenominator = 9765 ∧
      computerGasLimit scenarioShardConfig 10000000 0 5000 = .ok 9990235 ∧
      computerGasLimit scenarioShardConfig 10000000 0 5000 ≠ .ok 9990234) ∧
    (computerGasLimit scenarioShardConfig 0 1000000000 5000 = .ok 5000 ∧
      max scenarioShardConfig.GasLimitMinimum
        (0 - 0 / scenarioShardConfig.GasLimitEmaDenominator
          + 1000000000 * scenarioShardConfig.GasLimitUsageAdjustmentNumerator
            / scenarioShardConfig.GasLimitUsageAdjustmentDenominator
            / scenarioShardConfig.GasLimitEmaDenominator) = 1464843) ∧
    (computerGasLimit scenarioShardConfig (2 ^ 63) (2 ^ 63) 5000 = .ok (2 ^ 63 - 2 ^ 52) ∧
      max scenarioShardConfig.GasLimitMinimum
        (2 ^ 63 - 2 ^ 63 / scenarioShardConfig.GasLimitEmaDenominator
          + 2 ^ 63 * scenarioShardConfig.GasLimitUsageAdjustmentNumerator
            / scenarioShardConfig.GasLimitUsageAdjustmentDenominator
            / scenarioShardConfig.GasLimitEmaDenominator) = 2 ^ 63 + 2 ^ 52) := by
  refine ⟨⟨by decide, by decide, by decide⟩, ⟨by decide, by decide⟩, ⟨by decide, by decide⟩⟩

/-- C4, amended: for a floor at least the minimum, non-zero denominators and inputs
on which no 64-bit operation wraps, `computerGasLimit` returns
`target = max(GasLimitMinimum, parentGasLimit − decay + usageIncrease)` when
`target ≥ floor` and `parentGasLimit + decay` when `target < floor`, with
`decay = parentGasLimit / emaDenominator` and
`usageIncrease = parentGasUsed × usageNumerator / usageDenominator / emaDenominator`
(`0` for a zero parent gas limit); in the scenario, for every floor from the minimum
up to the target, the decay is 9765 and the result 9,990,235. -/
theorem computerGasLimit_formula (c : ShardConfig) (parentGasLimit parentGasUsed floor : Nat)
    (hfloor : c.GasLimitMinimum ≤ floor)
    (hema : c.GasLimitEmaDenominator ≠ 0)
    (hden : c.GasLimitUsageAdjustmentDenominator ≠ 0)
    (hmul : parentGasUsed * c.GasLimitUsageAdjustmentNumerator < 2 ^ 64)
    (hsum : parentGasLimit - parentGasLimit / c.GasLimitEmaDenominator
        + gasUsageIncrease c parentGasLimit parentGasUsed < 2 ^ 64)
    (hfall : gasLimitTarget c parentGasLimit parentGasUsed < floor →
        parentGasLimit + parentGasLimit / c.GasLimitEmaDenominator < 2 ^ 64) :
    (computerGasLimit c parentGasLimit parentGasUsed floor =
      if gasLimitTarget c parentGasLimit parentGasUsed < floor then
        .ok (parentGasLimit + parentGasLimit / c.GasLimitEmaDenominator)
      else .ok (gasLimitTarget c parentGasLimit parentGasUsed)) ∧
    (10000000 / scenarioShardConfig.GasLimitEmaDenominator = 9765 ∧
      ∀ fl, scenarioShardConfig.GasLimitMinimum ≤ fl → fl ≤ 9990235 →
        computerGasLimit scenarioShardConfig 10000000 0 fl = .ok 9990235) := by
  refine ⟨?_, by decide, ?_⟩
  · rw [computerGasLimit_no_wrap c parentGasLimit parentGasUsed floor hfloor hema hden hmul hsum]
    by_cases h : gasLimitTarget c parentGasLimit parentGasUsed < floor
    · simp only [h, if_true]
      rw [Nat.mod_eq_of_lt (hfall h)]
    · simp only [h, if_false]
  · intro fl h1 h2
    rw [computerGasLimit_no_wrap scenarioShardConfig 10000000 0 fl h1 (by decide) (by decide)
      (by decide) (by decide)]
    have ht : gasLimitTarget scenarioShardConfig 10000000 0 = 9990235 := by decide
    rw [ht]
    have : ¬ (9990235 < fl) := by omega
    simp only [this, if_false]

/-- Witness of C4 (amended): parent gas limit 8,000,000, gas used 4,000,000, floor
6,000,000 in the scenario configuration. -/
theorem computerGasLimit_formula_witness :
    (computerGasLimit scenarioShardConfig 8000000 4000000 6000000 =
      if gasLimitTarget scenarioShardConfig 8000000 4000000 < 6000000 then
        .ok (8000000 + 8000000 / scenarioShardConfig.GasLimitEmaDenominator)
      else .ok (gasLimitTarget scenarioShardConfig 8000000 4000000)) ∧
    (10000000 / scenarioShardConfig.GasLimitEmaDenominator = 9765 ∧
      ∀ fl, scenarioShardConfig.GasLimitMinimum ≤ fl → fl ≤ 9990235 →
        computerGasLimit scenarioShardConfig 10000000 0 fl = .ok 9990235) :=
  computerGasLimit_formula scenarioShardConfig 8000000 4000000 6000000
    (by decide) (by decide) (by decide) (by decide) (by decide) (by decide)

/-- C5, as stated, fails: with minimum 5000 and floor 10000 a parent gas limit of
1000 gives target 5000, below the floor, and the fallback returns
`parentGasLimit + decay = 1000`, below the minimum. -/
theorem computerGasLimit_below_minimum_counterexample :
    computerGasLimit scenarioShardConfig 1000 0 10000 = .ok 1000 ∧
    1000 < scenarioShardConfig.GasLimitMinimum := by
  refine ⟨by decide, by decide⟩

/-- C5, amended: for a floor at least the minimum, non-zero denominators and a
parent gas limit that is at least `GasLimitMinimum` and whose sum with its decay
fits in 64 bits, `computerGasLimit` succeeds and the returned gas limit is at least
`GasLimitMinimum`, whatever the parent gas used. -/
theorem computerGasLimit_ge_minimum (c : ShardConfig) (parentGasLimit parentGasUsed floor : Nat)
    (hfloor : c.GasLimitMinimum ≤ floor)
    (hema : c.GasLimitEmaDenominator ≠ 0)
    (hden : c.GasLimitUsageAdjustmentDenominator ≠ 0)
    (hmin : c.GasLimitMinimum ≤ parentGasLimit)
    (hfit : parentGasLimit + parentGasLimit / c.GasLimitEmaDenominator < 2 ^ 64) :
    ∃ v, computerGasLimit c parentGasLimit parentGasUsed floor = .ok v ∧
      c.GasLimitMinimum ≤ v := by
  unfold computerGasLimit
  have hnf : ¬ floor < c.GasLimitMinimum := by omega
  simp only [hnf, hema, hden, and_false, if_false]
  have key : ∀ t : Nat, ∃ v,
      (if (if c.GasLimitMinimum < t then t else c.GasLimitMinimum) < c.GasLimitMinimum then
          Outcome.ok c.GasLimitMinimum
        else if (if c.GasLimitMinimum < t then t else c.GasLimitMinimum) < floor then
          Outcome.ok ((parentGasLimit + parentGasLimit / c.GasLimitEmaDenominator) % 2 ^ 64)
        else Outcome.ok (if c.GasLimitMinimum < t then t else c.GasLimitMinimum)) = .ok v ∧
      c.GasLimitMinimum ≤ v := by
    intro t
    rw [Nat.mod_eq_of_lt hfit]
    generalize parentGasLimit / c.GasLimitEmaDenominator = decay at hfit ⊢
    split_ifs <;> exact ⟨_, rfl, by omega⟩
  exact key _

/-- Witness of C5 (amended): the scenario of the spec. -/
theorem computerGasLimit_ge_minimum_witness :
    ∃ v, computerGasLimit scenarioShardConfig 10000000 0 5000 = .ok v ∧
      scenarioShardConfig.GasLimitMinimum ≤ v :=
  computerGasLimit_ge_minimum scenarioShardConfig 10000000 0 5000
    (by decide) (by decide) (by decide) (by decide) (by decide)

/-- C6: with non-zero denominators `computerGasLimit` returns an error exactly when
`gasLimitFloor < GasLimitMinimum`, and in every other case it returns a gas limit
and no error. -/
theorem computerGasLimit_error_iff (c : ShardConfig) (parentGasLimit parentGasUsed floor : Nat)
    (hema : c.GasLimitEmaDenominator ≠ 0)
    (hden : c.GasLimitUsageAdjustmentDenominator ≠ 0) :
    ((∃ msg, computerGasLimit c parentGasLimit parentGasUsed floor = .error msg) ↔
      floor < c.GasLimitMinimum) ∧
    (¬ floor < c.GasLimitMinimum →
      ∃ v, computerGasLimit c parentGasLimit parentGasUsed floor = .ok v) := by
  unfold computerGasLimit
  by_cases hf : floor < c.GasLimitMinimum
  · simp [hf]
  · simp only [hf, hema, hden, and_false, if_false, iff_false, not_exists, not_false_eq_true,
      true_implies]
    split_ifs <;> simp

/-- Witness of C6: the scenario configuration with floor 4000, below the minimum 5000. -/
theorem computerGasLimit_error_iff_witness :
    ((∃ msg, computerGasLimit scenarioShardConfig 10000000 0 4000 = .error msg) ↔
      4000 < scenarioShardConfig.GasLimitMinimum) ∧
    (¬ 4000 < scenarioShardConfig.GasLimitMinimum →
      ∃ v, computerGasLimit scenarioShardConfig 10000000 0 4000 = .ok v) :=
  computerGasLimit_error_iff scenarioShardConfig 10000000 0 4000 (by decide) (by decide)

/-- C7, as stated, fails: in the scenario configuration with floor 10,000,000 the
iteration from 10,000,000 never reaches a gas limit that a further step leaves
unchanged; and with floor 10,000 the iteration from 100 rests at 100 at once, a
gas limit below the minimum 5000, so no iterate is a fixed point of at least the
minimum. -/
theorem steady_state_convergence_counterexample :
    (¬ ∃ n g, iterateGasLimit scenarioShardConfig 10000000 n 10000000 = .ok g ∧
        computerGasLimit scenarioShardConfig g (g / 2) 10000000 = .ok g ∧
        scenarioShardConfig.GasLimitMinimum ≤ g) ∧
    (¬ ∃ n g, iterateGasLimit scenarioShardConfig 10000 n 100 = .ok g ∧
        computerGasLimit scenarioShardConfig g (g / 2) 10000 = .ok g ∧
        scenarioShardConfig.GasLimitMinimum ≤ g) := by
  constructor
  · rintro ⟨n, g, hit, hfix, _⟩
    obtain ⟨g1, h1, h2, h3⟩ := scenario_orbit_in_band n 10000000 (le_refl _) (by omega)
    rw [hit] at h1
    cases h1
    obtain ⟨g2, h4, h5, _, _⟩ := scenario_step_moves g h2 h3
    rw [hfix] at h4
    cases h4
    exact h5 rfl
  · rintro ⟨n, g, hit, _, hmin⟩
    rw [scenario_orbit_low n] at hit
    cases hit
    revert hmin
    decide

/-- C7, amended: for every configuration with the floor equal to `GasLimitMinimum`,
non-zero denominators and a usage adjustment of at most 2 (numerator at most twice
the denominator), and every 64-bit starting gas limit `g0` on which the product with
the usage numerator does not wrap, iterating `g ↦ computerGasLimit(g, g/2, floor)`
reaches after finitely many steps a value that a further application leaves
unchanged, and that value is at least `GasLimitMinimum`. -/
theorem steady_state_convergence (c : ShardConfig) (g0 : Nat)
    (hema : c.GasLimitEmaDenominator ≠ 0)
    (hden : c.GasLimitUsageAdjustmentDenominator ≠ 0)
    (hnum : c.GasLimitUsageAdjustmentNumerator ≤ 2 * c.GasLimitUsageAdjustmentDenominator)
    (hmin : c.GasLimitMinimum < 2 ^ 64)
    (hg0 : g0 < 2 ^ 64)
    (hmul : max c.GasLimitMinimum g0 / 2 * c.GasLimitUsageAdjustmentNumerator < 2 ^ 64) :
    ∃ n gs, iterateGasLimit c c.GasLimitMinimum n g0 = .ok gs ∧
      computerGasLimit c gs (gs / 2) c.GasLimitMinimum = .ok gs ∧
      c.GasLimitMinimum ≤ gs := by
  have hmul0 : g0 / 2 * c.GasLimitUsageAdjustmentNumerator < 2 ^ 64 :=
    lt_of_le_of_lt
      (Nat.mul_le_mul_right _ (Nat.div_le_div_right (le_max_right _ _))) hmul
  obtain ⟨hstep, hlo, hhi⟩ := steady_step_floor_eq_min c g0 hema hden hnum hg0 hmul0
  have hlt1 : gasLimitTarget c g0 (g0 / 2) < 2 ^ 64 :=
    lt_of_le_of_lt hhi (max_lt hmin hg0)
  have hmul1 : gasLimitTarget c g0 (g0 / 2) / 2 * c.GasLimitUsageAdjustmentNumerator
      < 2 ^ 64 :=
    lt_of_le_of_lt (Nat.mul_le_mul_right _ (Nat.div_le_div_right hhi)) hmul
  obtain ⟨n, gs, h1, h2, h3⟩ :=
    steady_orbit_converges c hema hden hnum _ hlo hlt1 hmul1
  exact ⟨n + 1, gs, by rw [iterateGasLimit_succ_of_ok _ _ _ _ _ hstep]; exact h1, h2, h3⟩

/-- Witness of C7 (amended): the scenario configuration from 10,000,000. -/
theorem steady_state_convergence_witness :
    ∃ n gs, iterateGasLimit scenarioShardConfig scenarioShardConfig.GasLimitMinimum n 10000000
        = .ok gs ∧
      computerGasLimit scenarioShardConfig gs (gs / 2) scenarioShardConfig.GasLimitMinimum
        = .ok gs ∧
      scenarioShardConfig.GasLimitMinimum ≤ gs :=
  steady_state_convergence scenarioShardConfig 10000000
    (by decide) (by decide) (by decide) (by decide) (by decide) (by decide)

/-! ## Theorems: settling cross-shard deposits -/

theorem runOne_of_list_and_rate (d : Deps) (m : MinorBlockChain) (hash : CommonHash)
    (st : EvmState) (txList : List CrossShardTransactionDeposit) (rate : Rat)
    (hlist : getCrossShardTxListByRootBlockHash d m hash = .ok txList)
    (hrate : getLocalFeeRate st.quarkChainConfig = .ok rate) :
    runOneCrossShardTxListByRootBlockHash d m hash st =
      .ok (txList, (txList.foldl (applyDeposit d rate) st).SetXShardReceiveGasUsed
        (txList.foldl (applyDeposit d rate) st).gasUsed) := by
  simp [runOneCrossShardTxListByRootBlockHash, hlist, hrate]

theorem exampleState_rate : getLocalFeeRate exampleState.quarkChainConfig = .ok (1 / 2) := by
  simp [getLocalFeeRate, exampleState, bigInt64, wrapInt64, bigUint64]

theorem half_num : ((1 : Rat) / 2).num = 1 := by norm_num

theorem half_den : ((1 : Rat) / 2).den = 2 := by norm_num

/-- A deposit of gas price 0 settled on a state with gas used at most the gas limit
only credits the value to the recipient. -/
theorem applyDeposit_zero_price (d : Deps) (rate : Rat) (st : EvmState)
    (tx : CrossShardTransactionDeposit)
    (hmul0 : ∀ r, d.BigIntMulBigRat 0 r = 0)
    (hprice : tx.GasPrice = 0) (hgas : st.gasUsed ≤ st.gasLimit) :
    (applyDeposit d rate st tx).balances
        = (fun a => if a = tx.To.Recipient then st.balances a + tx.Value else st.balances a) ∧
      (applyDeposit d rate st tx).gasUsed = st.gasUsed ∧
      (applyDeposit d rate st tx).gasLimit = st.gasLimit ∧
      (applyDeposit d rate st tx).blockFee = st.blockFee ∧
      (applyDeposit d rate st tx).blockCoinBase = st.blockCoinBase := by
  have hz : bigUint64 0 = 0 := by decide
  refine ⟨?_, ?_, ?_, ?_, ?_⟩
  · funext a
    simp [applyDeposit, EvmState.AddBalance, EvmState.SetGasUsed, EvmState.AddBlockFee,
      hprice, hmul0, hz]
  · simp only [applyDeposit, EvmState.AddBalance, EvmState.SetGasUsed, EvmState.AddBlockFee,
      hprice, hz, ne_eq, not_true_eq_false, if_false, add_zero]
    split_ifs with h
    · rfl
    · omega
  · simp [applyDeposit, EvmState.AddBalance, EvmState.SetGasUsed, EvmState.AddBlockFee]
  · simp [applyDeposit, EvmState.AddBalance, EvmState.SetGasUsed, EvmState.AddBlockFee,
      hprice, hmul0]
  · simp [applyDeposit, EvmState.AddBalance, EvmState.SetGasUsed, EvmState.AddBlockFee]

theorem foldl_applyDeposit_zero_price (d : Deps) (rate : Rat)
    (hmul0 : ∀ r, d.BigIntMulBigRat 0 r = 0)
    (txList : List CrossShardTransactionDeposit) :
    ∀ st : EvmState, (∀ tx ∈ txList, tx.GasPrice = 0) → st.gasUsed ≤ st.gasLimit →
      (txList.foldl (applyDeposit d rate) st).balances = creditValues st.balances txList ∧
      (txList.foldl (applyDeposit d rate) st).gasUsed = st.gasUsed ∧
      (txList.foldl (applyDeposit d rate) st).gasLimit = st.gasLimit ∧
      (txList.foldl (applyDeposit d rate) st).blockFee = st.blockFee ∧
      (txList.foldl (applyDeposit d rate) st).blockCoinBase = st.blockCoinBase := by
  induction txList with
  | nil => intro st _ _; exact ⟨rfl, rfl, rfl, rfl, rfl⟩
  | cons tx rest ih =>
    intro st hprice hgas
    obtain ⟨hb, hu, hl, hf, hc⟩ :=
      applyDeposit_zero_price d rate st tx hmul0 (hprice tx (List.mem_cons_self _ _)) hgas
    obtain ⟨ib, iu, il, ifee, ic⟩ := ih (applyDeposit d rate st tx)
      (fun t ht => hprice t (List.mem_cons_of_mem _ ht)) (by rw [hu, hl]; exact hgas)
    simp only [List.foldl_cons]
    refine ⟨?_, by rw [iu, hu], by rw [il, hl], by rw [ifee, hf], by rw [ic, hc]⟩
    rw [ib, hb]
    rfl

/-- C8 on the code at gas price `2 ^ 64`: the deposit has a non-zero gas price, the
claim gives gas used `min(1,000,000, 0 + 9000) = 9000`, and the code, which tests
only the low 64 bits of the gas price, leaves gas used (and the recorded cross-shard
gas used) at 0. -/
theorem xshard_gas_skipped_at_price_two_pow_64 :
    (exampleDeposit 100 (2 ^ 64)).GasPrice ≠ 0 ∧
    min exampleState.gasLimit (exampleState.gasUsed + stdDeps.GtxxShardCost) = 9000 ∧
    ∃ s, runOneCrossShardTxListByRootBlockHash stdDeps
        (exampleChain [exampleDeposit 100 (2 ^ 64)]) 10 exampleState
          = .ok ([exampleDeposit 100 (2 ^ 64)], s) ∧
      s.gasUsed = 0 ∧ s.xShardReceiveGasUsed = 0 := by
  refine ⟨by decide, by decide, ?_⟩
  rw [runOne_of_list_and_rate stdDeps (exampleChain [exampleDeposit 100 (2 ^ 64)]) 10
    exampleState [exampleDeposit 100 (2 ^ 64)] (1 / 2) rfl exampleState_rate]
  refine ⟨_, rfl, ?_, ?_⟩ <;>
    simp [applyDeposit, EvmState.AddBalance, EvmState.SetGasUsed, EvmState.AddBlockFee,
      EvmState.SetXShardReceiveGasUsed, exampleState, exampleDeposit, bigUint64]

/-- C9 on the code at gas price `2 ^ 64 + 1` (tax rate 1/2, gas cost 9000): the fee
is `9000 × (2 ^ 64 + 1) / 2 = 4500 × 2 ^ 64 + 4500`; the block fee grows by the fee,
the coinbase balance only by its low 64 bits, 4500. -/
theorem xshard_fee_truncated_at_price_above_two_pow_64 :
    stdDeps.BigIntMulBigRat (stdDeps.GtxxShardCost * (2 ^ 64 + 1)) (1 / 2)
      = 4500 * 2 ^ 64 + 4500 ∧
    ∃ s, runOneCrossShardTxListByRootBlockHash stdDeps
        (exampleChain [exampleDeposit 100 (2 ^ 64 + 1)]) 10 exampleState
          = .ok ([exampleDeposit 100 (2 ^ 64 + 1)], s) ∧
      s.blockFee = exampleState.blockFee + (4500 * 2 ^ 64 + 4500) ∧
      s.balances exampleState.blockCoinBase
        = exampleState.balances exampleState.blockCoinBase + 4500 ∧
      s.balances 7 = exampleState.balances 7 + 100 := by
  have hfee : bigIntMulBigRat (9000 * (2 ^ 64 + 1)) (1 / 2) = 4500 * 2 ^ 64 + 4500 := by
    simp only [bigIntMulBigRat, half_num, half_den]
    norm_num
  refine ⟨hfee, ?_⟩
  rw [runOne_of_list_and_rate stdDeps (exampleChain [exampleDeposit 100 (2 ^ 64 + 1)]) 10
    exampleState [exampleDeposit 100 (2 ^ 64 + 1)] (1 / 2) rfl exampleState_rate]
  refine ⟨_, rfl, ?_, ?_, ?_⟩
  · simp only [List.foldl, applyDeposit, EvmState.AddBalance, EvmState.SetGasUsed,
      EvmState.AddBlockFee, EvmState.SetXShardReceiveGasUsed, exampleState, exampleDeposit,
      stdDeps, hfee]
  · simp only [List.foldl, applyDeposit, EvmState.AddBalance, EvmState.SetGasUsed,
      EvmState.AddBlockFee, EvmState.SetXShardReceiveGasUsed, exampleState, exampleDeposit,
      stdDeps, hfee]
    decide
  · simp only [List.foldl, applyDeposit, EvmState.AddBalance, EvmState.SetGasUsed,
      EvmState.AddBlockFee, EvmState.SetXShardReceiveGasUsed, exampleState, exampleDeposit,
      stdDeps, hfee]
    decide

/-- For a state with gas used at most the gas limit on which the local fee rate is
computed, and a deposit list whose entries all have gas price 0,
`runOneCrossShardTxListByRootBlockHash` succeeds, adds each deposit's value to its
recipient's balance and adds nothing else to any balance (no fee credit to the
coinbase), and leaves gas used and the block fee unchanged; with one entry of value
100 on gas limit 1,000,000 and gas used 0 the recipient gains 100 and gas used stays
0. The product of the outside function `BigIntMulBigRat` with 0 is taken to be 0. -/
theorem settle_zero_price_deposits (d : Deps) (m : MinorBlockChain) (hash : CommonHash)
    (st : EvmState) (txList : List CrossShardTransactionDeposit) (rate : Rat)
    (hmul0 : ∀ r, d.BigIntMulBigRat 0 r = 0)
    (hlist : getCrossShardTxListByRootBlockHash d m hash = .ok txList)
    (hrate : getLocalFeeRate st.quarkChainConfig = .ok rate)
    (hprice : ∀ tx ∈ txList, tx.GasPrice = 0)
    (hgas : st.gasUsed ≤ st.gasLimit) :
    ∃ s, runOneCrossShardTxListByRootBlockHash d m hash st = .ok (txList, s) ∧
      s.balances = creditValues st.balances txList ∧
      s.gasUsed = st.gasUsed ∧
      s.blockFee = st.blockFee ∧
      s.xShardReceiveGasUsed = st.gasUsed ∧
      (∀ tx, txList = [tx] → tx.Value = 100 → st.gasLimit = 1000000 → st.gasUsed = 0 →
        s.balances tx.To.Recipient = st.balances tx.To.Recipient + 100 ∧ s.gasUsed = 0) := by
  obtain ⟨hb, hu, _, hf, _⟩ := foldl_applyDeposit_zero_price d rate hmul0 txList st hprice hgas
  rw [runOne_of_list_and_rate d m hash st txList rate hlist hrate]
  refine ⟨_, rfl, ?_, ?_, ?_, ?_, ?_⟩
  · simpa [EvmState.SetXShardReceiveGasUsed] using hb
  · simpa [EvmState.SetXShardReceiveGasUsed] using hu
  · simpa [EvmState.SetXShardReceiveGasUsed] using hf
  · simpa [EvmState.SetXShardReceiveGasUsed] using hu
  · intro tx htx hv _ hz
    subst htx
    constructor
    · have : (([tx].foldl (applyDeposit d rate) st).SetXShardReceiveGasUsed
          ([tx].foldl (applyDeposit d rate) st).gasUsed).balances
          = creditValues st.balances [tx] := by
        simpa [EvmState.SetXShardReceiveGasUsed] using hb
      rw [this]
      simp [creditValues, hv]
    · have : (([tx].foldl (applyDeposit d rate) st).SetXShardReceiveGasUsed
          ([tx].foldl (applyDeposit d rate) st).gasUsed).gasUsed = st.gasUsed := by
        simpa [EvmState.SetXShardReceiveGasUsed] using hu
      rw [this, hz]

/-- The scenario of the spec, one deposit of value 100 and gas price 0 on gas limit
1,000,000 and gas used 0, at the reward tax rate 1/2. -/
theorem settle_zero_price_deposits_witness :
    ∃ s, runOneCrossShardTxListByRootBlockHash stdDeps (exampleChain [exampleDeposit 100 0]) 10
        exampleState = .ok ([exampleDeposit 100 0], s) ∧
      s.balances = creditValues exampleState.balances [exampleDeposit 100 0] ∧
      s.gasUsed = exampleState.gasUsed ∧
      s.blockFee = exampleState.blockFee ∧
      s.xShardReceiveGasUsed = exampleState.gasUsed ∧
      (∀ tx, [exampleDeposit 100 0] = [tx] → tx.Value = 100 →
        exampleState.gasLimit = 1000000 → exampleState.gasUsed = 0 →
        s.balances tx.To.Recipient = exampleState.balances tx.To.Recipient + 100 ∧
          s.gasUsed = 0) :=
  settle_zero_price_deposits stdDeps (exampleChain [exampleDeposit 100 0]) 10 exampleState
    [exampleDeposit 100 0] (1 / 2)
    (fun r => by simp [stdDeps, bigIntMulBigRat])
    rfl exampleState_rate
    (fun tx htx => by
      rw [List.mem_singleton] at htx
      rw [htx]
      rfl)
    (by decide)

/-- C10 on the code: the local fee rate is computed before the first deposit is
settled (line 1102), so on a state whose reward tax rate has a denominator with the low
64 bits 0 (converted with `Int64()`, it is the zero denominator of `big.NewRat`)
`runOneCrossShardTxListByRootBlockHash` panics, whatever deposit list the root block
yields. -/
theorem settle_faults_on_truncated_tax_rate (d : Deps) (m : MinorBlockChain)
    (hash : CommonHash) (st : EvmState) (txList : List CrossShardTransactionDeposit)
    (c : QuarkChainConfig)
    (hlist : getCrossShardTxListByRootBlockHash d m hash = .ok txList)
    (hcfg : st.quarkChainConfig = some c)
    (hden : bigInt64 (c.RewardTaxRate.den : Int) = 0) :
    runOneCrossShardTxListByRootBlockHash d m hash st = .fault := by
  have hrate : getLocalFeeRate st.quarkChainConfig = .fault := by
    rw [hcfg]
    unfold getLocalFeeRate
    dsimp only
    rw [if_pos hden]
  unfold runOneCrossShardTxListByRootBlockHash
  rw [hlist]
  dsimp only
  rw [hrate]

/-- C10, the failing input: one deposit of value 100 and gas price 0 on the state with
gas limit 1,000,000, gas used 0 and the reward tax rate `1 / 2 ^ 64`; the settlement
panics. -/
theorem settle_faults_on_truncated_tax_rate_witness :
    exampleStateTinyTax.gasUsed ≤ exampleStateTinyTax.gasLimit ∧
      (∀ tx ∈ [exampleDeposit 100 0], tx.GasPrice = 0) ∧
      runOneCrossShardTxListByRootBlockHash stdDeps (exampleChain [exampleDeposit 100 0]) 10
        exampleStateTinyTax = .fault := by
  have d64 : ((1 : Rat) / 2 ^ 64).den = 2 ^ 64 := by norm_num
  have b64 : bigInt64 (((2 ^ 64 : Nat) : Int)) = 0 := by decide
  have hden : bigInt64 (((⟨1 / 2 ^ 64⟩ : QuarkChainConfig).RewardTaxRate.den : Nat) : Int)
      = 0 := by
    dsimp only
    rw [d64]
    exact b64
  refine ⟨by decide, ?_, ?_⟩
  · intro tx htx
    rw [List.mem_singleton] at htx
    rw [htx]
    rfl
  · exact settle_faults_on_truncated_tax_rate stdDeps (exampleChain [exampleDeposit 100 0]) 10
      exampleStateTinyTax [exampleDeposit 100 0] ⟨1 / 2 ^ 64⟩ rfl rfl hden

/-! ## Theorems: the local fee rate -/

theorem bigInt64_of_small (x : Int) (h1 : -(2 ^ 63) < x) (h2 : x < 2 ^ 63) : bigInt64 x = x := by
  unfold bigInt64 bigUint64 wrapInt64
  by_cases hx : x < 0
  · simp only [hx, if_true]
    have : |x| = -x := abs_of_neg hx
    push_cast
    rw [this]
    omega
  · simp only [hx, if_false]
    have : |x| = x := abs_of_nonneg (by omega)
    push_cast
    rw [this]
    omega

theorem wrapInt64_of_small (x : Int) (h1 : -(2 ^ 63) ≤ x) (h2 : x < 2 ^ 63) :
    wrapInt64 x = x := by
  unfold wrapInt64
  omega

theorem one_sub_rat (q : Rat) : ((q.den : Int) - q.num : Rat) / (q.den : Rat) = 1 - q := by
  have h : (q.den : Rat) ≠ 0 := by exact_mod_cast q.den_nz
  field_simp
  rw [sub_mul]
  congr 1
  · ring
  · rw [← Rat.mul_den_eq_num]

/-- For a tax rate whose numerator and denominator are below `2 ^ 62` in magnitude the
local fee rate is exactly `1 − RewardTaxRate`. -/
theorem getLocalFeeRate_of_small (c : QuarkChainConfig)
    (hden : (c.RewardTaxRate.den : Int) < 2 ^ 62)
    (hnum1 : -(2 ^ 62) < c.RewardTaxRate.num) (hnum2 : c.RewardTaxRate.num < 2 ^ 62) :
    getLocalFeeRate (some c) = .ok (1 - c.RewardTaxRate) := by
  have hpos : (0 : Int) < (c.RewardTaxRate.den : Int) := by exact_mod_cast c.RewardTaxRate.den_pos
  have h1 : bigInt64 c.RewardTaxRate.num = c.RewardTaxRate.num :=
    bigInt64_of_small _ (by omega) (by omega)
  have h2 : bigInt64 (c.RewardTaxRate.den : Int) = (c.RewardTaxRate.den : Int) :=
    bigInt64_of_small _ (by omega) (by omega)
  have h3 : wrapInt64 ((c.RewardTaxRate.den : Int) - c.RewardTaxRate.num)
      = (c.RewardTaxRate.den : Int) - c.RewardTaxRate.num :=
    wrapInt64_of_small _ (by omega) (by omega)
  have hne : ¬ ((c.RewardTaxRate.den : Int) = 0) := by omega
  simp only [getLocalFeeRate, h1, h2, h3, hne, if_false]
  refine congrArg Outcome.ok ?_
  rw [← one_sub_rat c.RewardTaxRate]
  push_cast
  rfl

/-- C11 on the code: without a configuration the rate is 1, and a small tax rate
such as 1/2 gives exactly 1/2; but numerator and denominator go through `Int64()`:
for the tax rate `1 / 2 ^ 64` the denominator truncates to 0 and `big.NewRat`
panics, and for `1 / 2 ^ 63` the denominator wraps to `−2 ^ 63` and the result is
`−(1 − 1 / 2 ^ 63)`, not `1 − 1 / 2 ^ 63`. -/
theorem getLocalFeeRate_truncates_large_rates :
    getLocalFeeRate none = .ok 1 ∧
    getLocalFeeRate (some ⟨1 / 2⟩) = .ok (1 - 1 / 2) ∧
    getLocalFeeRate (some ⟨1 / 2 ^ 64⟩) = .fault ∧
    getLocalFeeRate (some ⟨1 / 2 ^ 63⟩) = .ok (-(1 - 1 / 2 ^ 63)) ∧
    getLocalFeeRate (some ⟨1 / 2 ^ 63⟩) ≠ .ok (1 - 1 / 2 ^ 63) := by
  have n64 : ((1 : Rat) / 2 ^ 64).num = 1 := by norm_num
  have d64 : ((1 : Rat) / 2 ^ 64).den = 2 ^ 64 := by norm_num
  have n63 : ((1 : Rat) / 2 ^ 63).num = 1 := by norm_num
  have d63 : ((1 : Rat) / 2 ^ 63).den = 2 ^ 63 := by norm_num
  have b1 : bigInt64 1 = 1 := by decide
  have b64 : bigInt64 (((2 ^ 64 : Nat) : Int)) = 0 := by decide
  have b63 : bigInt64 (((2 ^ 63 : Nat) : Int)) = -(2 ^ 63) := by decide
  have w63 : wrapInt64 (-(2 ^ 63) - 1) = 2 ^ 63 - 1 := by decide
  have h63 : getLocalFeeRate (some ⟨1 / 2 ^ 63⟩) = .ok (-(1 - 1 / 2 ^ 63)) := by
    simp only [getLocalFeeRate, n63, d63, b1, b63, w63]
    norm_num
  refine ⟨rfl, ?_, ?_, h63, ?_⟩
  · exact getLocalFeeRate_of_small ⟨1 / 2⟩ (by rw [half_den]; decide) (by rw [half_num]; decide)
      (by rw [half_num]; decide)
  · simp only [getLocalFeeRate, n64, d64, b1, b64, if_true]
  · rw [h63]
    intro h
    injection h with h
    norm_num at h

/-! ## Theorems: collecting the deposits of a root block -/

theorem getCrossShardTxListLoop_eq (d : Deps) (m : MinorBlockChain)
    (headers : List MinorBlockHeader) :
    (∀ h ∈ headers, DepositsStored d m h) →
    ∀ txList, getCrossShardTxListLoop d m headers txList
      = .ok (txList ++ neighborDeposits d m headers) := by
  induction headers with
  | nil => intro _ txList; simp [getCrossShardTxListLoop, neighborDeposits]
  | cons h rest ih =>
    intro hst txList
    have ih' := ih (fun x hx => hst x (List.mem_cons_of_mem _ hx))
    have hh := hst h (List.mem_cons_self _ _)
    by_cases hb : h.Branch = m.branch
    · simp only [getCrossShardTxListLoop, hb, if_true, ih']
      simp [neighborDeposits, List.filter_cons, hb]
    · obtain ⟨p, hp, hiff⟩ := hh hb
      by_cases hn : m.isNeighbor d h.Branch (some p.Number) = true
      · have hiff' := hiff hn
        by_cases hg : p.Number ≤ m.GetGenesisRootHeight m.branch.Value % 2 ^ 32
        · have hnone : m.ReadCrossShardTxList h.Hash = none := by
            cases hx : m.ReadCrossShardTxList h.Hash with
            | none => rfl
            | some l =>
              rw [hx] at hiff'
              have := hiff'.mp rfl
              omega
          simp only [getCrossShardTxListLoop, hb, if_false, hp, hn, hg, if_true, hnone,
            Bool.not_true, Bool.false_eq_true, ih']
          simp [neighborDeposits, List.filter_cons, hb, neighborAtPrevRoot, hp, hn, hnone]
        · obtain ⟨l, hl⟩ : ∃ l, m.ReadCrossShardTxList h.Hash = some l := by
            cases hx : m.ReadCrossShardTxList h.Hash with
            | none =>
              rw [hx] at hiff'
              have := hiff'.mpr (by omega)
              simp at this
            | some l => exact ⟨l, rfl⟩
          simp only [getCrossShardTxListLoop, hb, if_false, hp, hn, hg, hl,
            Bool.not_true, Bool.false_eq_true, ih']
          simp [neighborDeposits, List.filter_cons, hb, neighborAtPrevRoot, hp, hn, hl]
      · simp only [getCrossShardTxListLoop, hb, if_false, hp, hn, Bool.not_false, if_true, ih']
        simp [neighborDeposits, List.filter_cons, hb, neighborAtPrevRoot, hp, hn]

/-- C12, as stated, fails: for the known root block 10 whose confirmed header 20 is of
a neighbor shard, the collection faults (nil dereference) when no deposit list is
stored for the header, and it returns an error instead of the stored list when the
header's previous root block (height 5) is not above the genesis root height (5). -/
theorem getCrossShardTxList_counterexample :
    (exampleChainNoList.GetRootBlockByHash 10).isSome = true ∧
    getCrossShardTxListByRootBlockHash stdDeps exampleChainNoList 10 = .fault ∧
    ((exampleChainAtGenesis [exampleDeposit 100 0]).GetRootBlockByHash 10).isSome = true ∧
    neighborDeposits stdDeps (exampleChainAtGenesis [exampleDeposit 100 0])
      [{ Hash := 20, Branch := ⟨2⟩, PrevRootBlockHash := 9 }] = [exampleDeposit 100 0] ∧
    getCrossShardTxListByRootBlockHash stdDeps (exampleChainAtGenesis [exampleDeposit 100 0]) 10
      = .error "get xShard tx list err" := by
  refine ⟨rfl, rfl, rfl, rfl, rfl⟩

/-- C12, amended: for every known root block in which every confirmed header of
another shard has a known previous root block and, when its shard is a neighbor, a
stored deposit list exactly when that previous root block is above the genesis root
height of this shard, `getCrossShardTxListByRootBlockHash` returns without fault or
error; the list it returns starts with the stored deposit lists, concatenated in
header order, of exactly those confirmed headers whose branch is not this shard's
branch and is a neighbor of this shard at the height of the header's previous root
block, and holds at most one more deposit (the root coinbase deposit); headers of
this shard and of non-neighbor shards contribute no deposit. -/
theorem getCrossShardTxList_collects_neighbors (d : Deps) (m : MinorBlockChain)
    (hash : CommonHash) (rBlock : RootBlock)
    (hblock : m.GetRootBlockByHash hash = some rBlock)
    (hstored : ∀ h ∈ rBlock.MinorBlockHeaders, DepositsStored d m h) :
    getCrossShardTxListLoop d m rBlock.MinorBlockHeaders []
      = .ok (neighborDeposits d m rBlock.MinorBlockHeaders) ∧
    ∃ extra, getCrossShardTxListByRootBlockHash d m hash
        = .ok (neighborDeposits d m rBlock.MinorBlockHeaders ++ extra) ∧
      extra.length ≤ 1 := by
  have hloop := getCrossShardTxListLoop_eq d m rBlock.MinorBlockHeaders hstored []
  rw [List.nil_append] at hloop
  refine ⟨hloop, ?_⟩
  simp only [getCrossShardTxListByRootBlockHash, hblock, hloop]
  by_cases hc : d.IsInBranch m.branch rBlock.Header.Coinbase.FullShardKey = true
  · simp only [hc, if_true]
    exact ⟨_, rfl, by simp⟩
  · simp only [hc, if_false]
    exact ⟨[], by simp, by simp⟩

/-- Witness of C12 (amended): the example chain with one stored deposit. -/
theorem getCrossShardTxList_collects_neighbors_witness :
    getCrossShardTxListLoop stdDeps (exampleChain [exampleDeposit 100 0])
        [{ Hash := 20, Branch := ⟨2⟩, PrevRootBlockHash := 9 }] []
      = .ok (neighborDeposits stdDeps (exampleChain [exampleDeposit 100 0])
          [{ Hash := 20, Branch := ⟨2⟩, PrevRootBlockHash := 9 }]) ∧
    ∃ extra, getCrossShardTxListByRootBlockHash stdDeps (exampleChain [exampleDeposit 100 0]) 10
        = .ok (neighborDeposits stdDeps (exampleChain [exampleDeposit 100 0])
            [{ Hash := 20, Branch := ⟨2⟩, PrevRootBlockHash := 9 }] ++ extra) ∧
      extra.length ≤ 1 :=
  getCrossShardTxList_collects_neighbors stdDeps (exampleChain [exampleDeposit 100 0]) 10
    ⟨⟨10, 9, 6, ⟨99, 2⟩, 0⟩, [{ Hash := 20, Branch := ⟨2⟩, PrevRootBlockHash := 9 }]⟩ rfl
    (fun h hh => by
      rw [List.mem_singleton] at hh
      subst hh
      intro _
      exact ⟨⟨9, 8, 5, ⟨99, 2⟩, 0⟩, rfl, fun _ => by decide⟩)

/-- C13: for every known root block on which the collection of the stored lists
succeeds, the returned list is the stored deposits followed by exactly one synthetic
deposit (recipient the root block's coinbase address, value its coinbase amount, gas
price 0) if the root coinbase's full shard key lies in this shard's branch, and is the
stored deposits alone otherwise; settling the synthetic deposit on a state with gas
used at most the gas limit charges no gas and no fee (the product of the outside
function `BigIntMulBigRat` with 0 being 0). -/
theorem getCrossShardTxList_coinbase_deposit (d : Deps) (m : MinorBlockChain)
    (hash : CommonHash) (rBlock : RootBlock) (stored : List CrossShardTransactionDeposit)
    (hblock : m.GetRootBlockByHash hash = some rBlock)
    (hloop : getCrossShardTxListLoop d m rBlock.MinorBlockHeaders [] = .ok stored)
    (hmul0 : ∀ r, d.BigIntMulBigRat 0 r = 0) :
    (d.IsInBranch m.branch rBlock.Header.Coinbase.FullShardKey = true →
      getCrossShardTxListByRootBlockHash d m hash
        = .ok (stored ++ [rootCoinbaseDeposit rBlock.Header])) ∧
    (d.IsInBranch m.branch rBlock.Header.Coinbase.FullShardKey = false →
      getCrossShardTxListByRootBlockHash d m hash = .ok stored) ∧
    ((rootCoinbaseDeposit rBlock.Header).To = rBlock.Header.Coinbase ∧
      (rootCoinbaseDeposit rBlock.Header).Value = rBlock.Header.CoinbaseAmount ∧
      (rootCoinbaseDeposit rBlock.Header).GasPrice = 0) ∧
    (∀ (rate : Rat) (st : EvmState), st.gasUsed ≤ st.gasLimit →
      (applyDeposit d rate st (rootCoinbaseDeposit rBlock.Header)).gasUsed = st.gasUsed ∧
      (applyDeposit d rate st (rootCoinbaseDeposit rBlock.Header)).blockFee = st.blockFee ∧
      (applyDeposit d rate st (rootCoinbaseDeposit rBlock.Header)).balances
        = fun a => if a = rBlock.Header.Coinbase.Recipient
            then st.balances a + rBlock.Header.CoinbaseAmount else st.balances a) := by
  refine ⟨?_, ?_, ⟨rfl, rfl, rfl⟩, ?_⟩
  · intro hc
    simp only [getCrossShardTxListByRootBlockHash, hblock, hloop, hc, if_true]
    rfl
  · intro hc
    simp [getCrossShardTxListByRootBlockHash, hblock, hloop, hc]
  · intro rate st hgas
    obtain ⟨hb, hu, _, hf, _⟩ := applyDeposit_zero_price d rate st
      (rootCoinbaseDeposit rBlock.Header) hmul0 rfl hgas
    exact ⟨hu, hf, hb⟩

/-- Witness of C13: the example chain whose root block 10 pays 500 to recipient 99 in
this shard's branch; the list ends with that deposit. -/
theorem getCrossShardTxList_coinbase_deposit_witness :
    stdDeps.IsInBranch (exampleChainOwnCoinbase [exampleDeposit 100 0]).branch 1 = true ∧
    getCrossShardTxListByRootBlockHash stdDeps (exampleChainOwnCoinbase [exampleDeposit 100 0]) 10
      = .ok ([exampleDeposit 100 0] ++ [rootCoinbaseDeposit ⟨10, 9, 6, ⟨99, 1⟩, 500⟩]) :=
  ⟨rfl, (getCrossShardTxList_coinbase_deposit stdDeps
    (exampleChainOwnCoinbase [exampleDeposit 100 0]) 10
    ⟨⟨10, 9, 6, ⟨99, 1⟩, 500⟩, [{ Hash := 20, Branch := ⟨2⟩, PrevRootBlockHash := 9 }]⟩
    [exampleDeposit 100 0] rfl rfl (fun r => by simp [stdDeps, bigIntMulBigRat])).1 rfl⟩

/-! ## Theorems: settling the root blocks between two root headers -/

theorem runOne_ok_inv (d : Deps) (m : MinorBlockChain) (hash : CommonHash) (st s : EvmState)
    (l : List CrossShardTransactionDeposit)
    (h : runOneCrossShardTxListByRootBlockHash d m hash st = .ok (l, s)) :
    ∃ rate, getCrossShardTxListByRootBlockHash d m hash = .ok l ∧
      getLocalFeeRate st.quarkChainConfig = .ok rate ∧
      s = (l.foldl (applyDeposit d rate) st).SetXShardReceiveGasUsed
        (l.foldl (applyDeposit d rate) st).gasUsed := by
  unfold runOneCrossShardTxListByRootBlockHash at h
  cases hl : getCrossShardTxListByRootBlockHash d m hash with
  | error e => rw [hl] at h; cases h
  | fault => rw [hl] at h; cases h
  | ok txList =>
    rw [hl] at h
    cases hr : getLocalFeeRate st.quarkChainConfig with
    | error e => rw [hr] at h; cases h
    | fault => rw [hr] at h; cases h
    | ok rate =>
      rw [hr] at h
      simp only [Outcome.ok.injEq, Prod.mk.injEq] at h
      obtain ⟨h1, h2⟩ := h
      subst h1
      exact ⟨rate, rfl, rfl, h2.symm⟩

theorem applyDeposit_gas (d : Deps) (rate : Rat) (st : EvmState)
    (tx : CrossShardTransactionDeposit) :
    (applyDeposit d rate st tx).gasLimit = st.gasLimit ∧
      (applyDeposit d rate st tx).gasUsed ≤ st.gasLimit ∧
      (applyDeposit d rate st tx).quarkChainConfig = st.quarkChainConfig := by
  refine ⟨by simp [applyDeposit, EvmState.AddBalance, EvmState.SetGasUsed, EvmState.AddBlockFee],
    ?_, by simp [applyDeposit, EvmState.AddBalance, EvmState.SetGasUsed, EvmState.AddBlockFee]⟩
  simp only [applyDeposit, EvmState.AddBalance, EvmState.SetGasUsed, EvmState.AddBlockFee]
  split_ifs <;> omega

theorem foldl_applyDeposit_gas (d : Deps) (rate : Rat)
    (l : List CrossShardTransactionDeposit) :
    ∀ st : EvmState, (l.foldl (applyDeposit d rate) st).gasLimit = st.gasLimit ∧
      (st.gasUsed ≤ st.gasLimit → (l.foldl (applyDeposit d rate) st).gasUsed ≤ st.gasLimit) ∧
      (l ≠ [] → (l.foldl (applyDeposit d rate) st).gasUsed ≤ st.gasLimit) ∧
      (l.foldl (applyDeposit d rate) st).quarkChainConfig = st.quarkChainConfig := by
  induction l with
  | nil => intro st; exact ⟨rfl, fun h => h, fun h => absurd rfl h, rfl⟩
  | cons tx rest ih =>
    intro st
    obtain ⟨h1, h2, h3⟩ := applyDeposit_gas d rate st tx
    obtain ⟨i1, i2, _, i4⟩ := ih (applyDeposit d rate st tx)
    simp only [List.foldl_cons]
    have hle : (rest.foldl (applyDeposit d rate) (applyDeposit d rate st tx)).gasUsed
        ≤ st.gasLimit := by
      have := i2 (by rw [h1]; exact h2)
      rw [h1] at this
      exact this
    exact ⟨by rw [i1, h1], fun _ => hle, fun _ => hle, by rw [i4, h3]⟩

/-- One settlement step keeps the gas limit and the configuration, keeps gas used at
most the gas limit, and leaves gas used alone when the root block has no deposit. -/
theorem runOne_gas (d : Deps) (m : MinorBlockChain) (hash : CommonHash) (st s : EvmState)
    (l : List CrossShardTransactionDeposit)
    (h : runOneCrossShardTxListByRootBlockHash d m hash st = .ok (l, s)) :
    s.gasLimit = st.gasLimit ∧
      (st.gasUsed ≤ st.gasLimit → s.gasUsed ≤ s.gasLimit) ∧
      (l = [] → s.gasUsed = st.gasUsed) ∧
      s.quarkChainConfig = st.quarkChainConfig := by
  obtain ⟨rate, _, _, hs⟩ := runOne_ok_inv d m hash st s l h
  obtain ⟨f1, f2, _, f4⟩ := foldl_applyDeposit_gas d rate l st
  subst hs
  refine ⟨by simpa [EvmState.SetXShardReceiveGasUsed] using f1, ?_, ?_,
    by simpa [EvmState.SetXShardReceiveGasUsed] using f4⟩
  · intro hle
    have := f2 hle
    simp only [EvmState.SetXShardReceiveGasUsed]
    rw [f1]
    exact this
  · intro hnil
    subst hnil
    rfl

theorem rootPath_succ_eq_some (m : MinorBlockChain) (k : Nat) (h a : RootBlockHeader)
    (path : List RootBlockHeader) :
    rootPath m (k + 1) h = some (path, a) ↔
      ∃ p l, m.getRootBlockHeaderByHash h.ParentHash = some p ∧
        rootPath m k p = some (l, a) ∧ path = h :: l := by
  simp only [rootPath]
  cases hl : m.getRootBlockHeaderByHash h.ParentHash with
  | none => simp
  | some p =>
    cases hr : rootPath m k p with
    | none => simp [hr]
    | some pr =>
      obtain ⟨l, a1⟩ := pr
      simp only [Option.some.injEq, Prod.mk.injEq, hr, exists_and_left, exists_eq_left']
      constructor
      · rintro ⟨h1, h2⟩
        exact ⟨l, ⟨rfl, h2⟩, h1.symm⟩
      · rintro ⟨l1, ⟨h1, h2⟩, h3⟩
        subst h1 h2 h3
        exact ⟨rfl, rfl⟩

theorem settleRoots_cons_eq_ok (d : Deps) (m : MinorBlockChain) (h : RootBlockHeader)
    (rest : List RootBlockHeader) (st st1 : EvmState) (txs : List CrossShardTransactionDeposit) :
    settleRoots d m (h :: rest) st = .ok (txs, st1) ↔
      ∃ l1 s1 l2, runOneCrossShardTxListByRootBlockHash d m h.Hash st = .ok (l1, s1) ∧
        settleRoots d m rest s1 = .ok (l2, st1) ∧ txs = l1 ++ l2 := by
  simp only [settleRoots]
  cases hone : runOneCrossShardTxListByRootBlockHash d m h.Hash st with
  | error e => simp
  | fault => simp
  | ok r1 =>
    obtain ⟨l1, s1⟩ := r1
    cases hrest : settleRoots d m rest s1 with
    | error e => simp [hrest]
    | fault => simp [hrest]
    | ok r2 =>
      obtain ⟨l2, s2⟩ := r2
      dsimp only
      rw [hrest]
      constructor
      · intro h
        simp only [Outcome.ok.injEq, Prod.mk.injEq] at h
        exact ⟨l1, s1, l2, rfl, by rw [hrest, h.2], h.1.symm⟩
      · rintro ⟨a1, b1, c1, h1, h2, h3⟩
        simp only [Outcome.ok.injEq, Prod.mk.injEq] at h1
        obtain ⟨h11, h12⟩ := h1
        subst h11 h12
        rw [hrest] at h2
        simp only [Outcome.ok.injEq, Prod.mk.injEq] at h2
        obtain ⟨h21, h22⟩ := h2
        subst h21 h22 h3
        rfl

theorem runCrossShardTxListLoop_along_path (d : Deps) (m : MinorBlockChain)
    (anc : RootBlockHeader) (k : Nat) :
    ∀ (desc : RootBlockHeader) (st : EvmState) (txs0 : List CrossShardTransactionDeposit)
      (path : List RootBlockHeader) (a : RootBlockHeader)
      (txs : List CrossShardTransactionDeposit) (st1 : EvmState),
      rootPath m k desc = some (path, a) → a.Hash = anc.Hash →
      (∀ h ∈ path, h.Hash ≠ anc.Hash ∧ h.Number ≠ anc.Number) →
      st.gasUsed ≤ st.gasLimit →
      settleRoots d m path st = .ok (txs, st1) →
      ∀ fuel, k < fuel →
        runCrossShardTxListLoop d m anc fuel st desc txs0 = some (.ok (txs0 ++ txs, st1)) := by
  induction k with
  | zero =>
    intro desc st txs0 path a txs st1 hp ha _ hgas hs fuel hf
    simp only [rootPath, Option.some.injEq, Prod.mk.injEq] at hp
    obtain ⟨hp1, hp2⟩ := hp
    subst hp1 hp2
    simp only [settleRoots, Outcome.ok.injEq, Prod.mk.injEq] at hs
    obtain ⟨hs1, hs2⟩ := hs
    subst hs1 hs2
    obtain ⟨f, rfl⟩ : ∃ f, fuel = f + 1 := ⟨fuel - 1, by omega⟩
    have hng : ¬ st.gasUsed > st.gasLimit := by omega
    simp [runCrossShardTxListLoop, ha, hng]
  | succ k ih =>
    intro desc st txs0 path a txs st1 hp ha hne hgas hs fuel hf
    obtain ⟨f, rfl⟩ : ∃ f, fuel = f + 1 := ⟨fuel - 1, by omega⟩
    obtain ⟨p, l, hl, hr, hpath⟩ := (rootPath_succ_eq_some m k desc a path).mp hp
    subst hpath
    obtain ⟨hd1, hd2⟩ := hne desc (List.mem_cons_self _ _)
    obtain ⟨l1, s1, l2, hone, hrest, htxs⟩ := (settleRoots_cons_eq_ok d m desc l st st1 txs).mp hs
    subst htxs
    obtain ⟨g1, g2, _, _⟩ := runOne_gas d m desc.Hash st s1 l1 hone
    have hng : ¬ st.gasUsed > st.gasLimit := by omega
    have := ih p s1 (txs0 ++ l1) l a l2 st1 hr ha
      (fun h hh => hne h (List.mem_cons_of_mem _ hh)) (g2 hgas) hrest f (by omega)
    simp only [runCrossShardTxListLoop, hd1, hd2, hng, if_false, hone, hl, this,
      List.append_assoc]

theorem runCrossShardTxListLoop_never_ok (d : Deps) (m : MinorBlockChain)
    (anc : RootBlockHeader) (fuel : Nat) :
    ∀ (desc : RootBlockHeader) (st : EvmState) (txs0 : List CrossShardTransactionDeposit),
      (∀ k l h, rootPath m k desc = some (l, h) → h.Hash ≠ anc.Hash) →
      ∀ r, runCrossShardTxListLoop d m anc fuel st desc txs0 = some r → ∀ v, r ≠ .ok v := by
  induction fuel with
  | zero => intro desc st txs0 _ r hr; simp [runCrossShardTxListLoop] at hr
  | succ f ih =>
    intro desc st txs0 hna r hr v
    have h0 : desc.Hash ≠ anc.Hash := hna 0 [] desc rfl
    simp only [runCrossShardTxListLoop, h0, if_false] at hr
    split_ifs at hr with h1 h2
    · cases hr; intro h; cases h
    · cases hr; intro h; cases h
    · cases hone : runOneCrossShardTxListByRootBlockHash d m desc.Hash st with
      | error e => rw [hone] at hr; cases hr; intro h; cases h
      | fault => rw [hone] at hr; cases hr; intro h; cases h
      | ok r1 =>
        obtain ⟨l1, s1⟩ := r1
        rw [hone] at hr
        cases hl : m.getRootBlockHeaderByHash desc.ParentHash with
        | none => rw [hl] at hr; cases hr; intro h; cases h
        | some p =>
          rw [hl] at hr
          refine ih p s1 (txs0 ++ l1) ?_ r hr v
          intro k l h hk
          exact hna (k + 1) (desc :: l) h (by simp [rootPath, hl, hk])

theorem runCrossShardTxListLoop_returns (d : Deps) (m : MinorBlockChain)
    (anc : RootBlockHeader) (n : Nat) :
    ∀ (desc : RootBlockHeader) (st : EvmState) (txs0 : List CrossShardTransactionDeposit),
      desc.Number ≤ n →
      (∀ k l h, rootPath m k desc = some (l, h) →
        ∀ p, m.getRootBlockHeaderByHash h.ParentHash = some p → p.Number + 1 = h.Number) →
      ∃ r, runCrossShardTxListLoop d m anc (n + 1) st desc txs0 = some r := by
  induction n with
  | zero =>
    intro desc st txs0 hn hl
    simp only [runCrossShardTxListLoop]
    split_ifs
    · exact ⟨_, rfl⟩
    · exact ⟨_, rfl⟩
    · exact ⟨_, rfl⟩
    · exact ⟨_, rfl⟩
    · cases hone : runOneCrossShardTxListByRootBlockHash d m desc.Hash st with
      | error e => exact ⟨_, rfl⟩
      | fault => exact ⟨_, rfl⟩
      | ok r1 =>
        obtain ⟨l1, s1⟩ := r1
        cases hp : m.getRootBlockHeaderByHash desc.ParentHash with
        | none => exact ⟨_, rfl⟩
        | some p =>
          have := hl 0 [] desc rfl p hp
          omega
  | succ n ih =>
    intro desc st txs0 hn hl
    rw [runCrossShardTxListLoop]
    split_ifs
    · exact ⟨_, rfl⟩
    · exact ⟨_, rfl⟩
    · exact ⟨_, rfl⟩
    · exact ⟨_, rfl⟩
    · cases hone : runOneCrossShardTxListByRootBlockHash d m desc.Hash st with
      | error e => exact ⟨_, rfl⟩
      | fault => exact ⟨_, rfl⟩
      | ok r1 =>
        obtain ⟨l1, s1⟩ := r1
        cases hp : m.getRootBlockHeaderByHash desc.ParentHash with
        | none => exact ⟨_, rfl⟩
        | some p =>
          have hpn := hl 0 [] desc rfl p hp
          exact ih p s1 (txs0 ++ l1) (by omega)
            (fun k l h hk => hl (k + 1) (desc :: l) h (by simp [rootPath, hp, hk]))

/-- C14, as stated, fails: when descendant and ancestor are the same root header
(here the root header of hash 10), `runCrossShardTxList` returns no error: it returns
the empty deposit list and leaves the state as it was. -/
theorem runCrossShardTxList_same_header_counterexample :
    runCrossShardTxList stdDeps (exampleChain []) 1 exampleState
        ⟨10, 9, 6, ⟨99, 2⟩, 0⟩ ⟨10, 9, 6, ⟨99, 2⟩, 0⟩
      = some (.ok ([], exampleState)) := by
  rfl

/-- C14, amended: when descendant and ancestor are the same header (and gas used is at
most the gas limit) `runCrossShardTxList` returns no error and settles nothing; when
the ancestor is not reached from the descendant along parent links in any number of
steps, it never returns success, and it does return (with at most height + 1 loop
tests) when heights decrease by one along parent links; when the ancestor is reached
after `k ≥ 1` parent links through headers whose hash and height differ from the
ancestor's, gas used is at most the gas limit and no settlement step fails, it
returns the deposits and the state of settling exactly the root blocks after the
ancestor up to and including the descendant, newest first. -/
theorem runCrossShardTxList_ancestry (d : Deps) (m : MinorBlockChain) (st : EvmState)
    (desc anc : RootBlockHeader) :
    (desc.Hash = anc.Hash → st.gasUsed ≤ st.gasLimit →
      ∀ fuel, runCrossShardTxList d m (fuel + 1) st desc anc = some (.ok ([], st))) ∧
    ((∀ k l h, rootPath m k desc = some (l, h) → h.Hash ≠ anc.Hash) →
      ∀ fuel r, runCrossShardTxList d m fuel st desc anc = some r → ∀ v, r ≠ .ok v) ∧
    ((∀ k l h, rootPath m k desc = some (l, h) →
        ∀ p, m.getRootBlockHeaderByHash h.ParentHash = some p → p.Number + 1 = h.Number) →
      ∃ r, runCrossShardTxList d m (desc.Number + 1) st desc anc = some r) ∧
    (∀ k path a txs st1, 0 < k → rootPath m k desc = some (path, a) → a.Hash = anc.Hash →
      (∀ h ∈ path, h.Hash ≠ anc.Hash ∧ h.Number ≠ anc.Number) →
      st.gasUsed ≤ st.gasLimit →
      settleRoots d m path st = .ok (txs, st1) →
      ∀ fuel, k < fuel → runCrossShardTxList d m fuel st desc anc = some (.ok (txs, st1))) := by
  refine ⟨?_, ?_, ?_, ?_⟩
  · intro hh hgas fuel
    have := runCrossShardTxListLoop_along_path d m anc 0 desc st [] [] desc [] st rfl hh
      (fun h hm => by simp at hm) hgas rfl (fuel + 1) (by omega)
    simpa [runCrossShardTxList] using this
  · intro hna fuel r hr
    exact runCrossShardTxListLoop_never_ok d m anc fuel desc st [] hna r hr
  · intro hl
    exact runCrossShardTxListLoop_returns d m anc desc.Number desc st [] (le_refl _) hl
  · intro k path a txs st1 _ hp ha hne hgas hs fuel hf
    have := runCrossShardTxListLoop_along_path d m anc k desc st [] path a txs st1 hp ha hne
      hgas hs fuel hf
    simpa [runCrossShardTxList] using this

/-- Witness of C14 (amended): in the example chain the root header 9 is the parent of
the root header 10; settling from 10 back to 9 settles root block 10 alone. -/
theorem runCrossShardTxList_ancestry_witness :
    ∃ txs st1,
      settleRoots stdDeps (exampleChain [exampleDeposit 100 0]) [⟨10, 9, 6, ⟨99, 2⟩, 0⟩]
        exampleState = .ok (txs, st1) ∧
      runCrossShardTxList stdDeps (exampleChain [exampleDeposit 100 0]) 2 exampleState
        ⟨10, 9, 6, ⟨99, 2⟩, 0⟩ ⟨9, 8, 5, ⟨99, 2⟩, 0⟩ = some (.ok (txs, st1)) := by
  have h1 := runOne_of_list_and_rate stdDeps (exampleChain [exampleDeposit 100 0]) 10
    exampleState [exampleDeposit 100 0] (1 / 2) rfl exampleState_rate
  have h2 : settleRoots stdDeps (exampleChain [exampleDeposit 100 0])
      [⟨10, 9, 6, ⟨99, 2⟩, 0⟩] exampleState
      = .ok ([exampleDeposit 100 0] ++ [],
          ([exampleDeposit 100 0].foldl (applyDeposit stdDeps (1 / 2))
            exampleState).SetXShardReceiveGasUsed
          ([exampleDeposit 100 0].foldl (applyDeposit stdDeps (1 / 2)) exampleState).gasUsed) := by
    simp only [settleRoots, h1]
  refine ⟨_, _, h2, ?_⟩
  exact (runCrossShardTxList_ancestry stdDeps (exampleChain [exampleDeposit 100 0]) exampleState
    ⟨10, 9, 6, ⟨99, 2⟩, 0⟩ ⟨9, 8, 5, ⟨99, 2⟩, 0⟩).2.2.2 1 [⟨10, 9, 6, ⟨99, 2⟩, 0⟩]
    ⟨9, 8, 5, ⟨99, 2⟩, 0⟩ _ _ (by decide) rfl rfl
    (fun h hm => by
      rw [List.mem_singleton] at hm
      subst hm
      exact ⟨by decide, by decide⟩)
    (by decide) h2 2 (by decide)

/-! ## Theorems: including root blocks in a new block -/

theorem xShardTxLimitOf_eq (d : Deps) (m : MinorBlockChain) (h : MinorBlockHeader)
    (hcost1 : 0 < d.GtxxShardCost) (hcost2 : d.GtxxShardCost < 2 ^ 32)
    (hn : 0 < m.MaxNeighbors)
    (hb1 : 0 < m.MaxBlocksPerShardInOneRootBlock)
    (hb2 : m.MaxBlocksPerShardInOneRootBlock < 2 ^ 32)
    (hg1 : 0 ≤ h.GasLimit) (hg2 : h.GasLimit < 2 ^ 32) :
    xShardTxLimitOf d m h = .ok (xShardQuota d m h.GasLimit).toNat := by
  obtain ⟨c, hc⟩ := Int.eq_ofNat_of_zero_le (le_of_lt hcost1)
  obtain ⟨g, hg⟩ := Int.eq_ofNat_of_zero_le hg1
  have hc1 : 0 < c := by omega
  have hc2 : c < 2 ^ 32 := by omega
  have hg3 : g < 2 ^ 32 := by omega
  have e1 : bigUint64 d.GtxxShardCost % 2 ^ 32 = c := by
    rw [hc]; simp only [bigUint64, Int.natAbs_ofNat]; omega
  have e2 : bigUint64 h.GasLimit % 2 ^ 32 = g := by
    rw [hg]; simp only [bigUint64, Int.natAbs_ofNat]; omega
  have e3 : m.getMaxBlocksInOneRootBlock % 2 ^ 32 = m.MaxBlocksPerShardInOneRootBlock := by
    simp only [MinorBlockChain.getMaxBlocksInOneRootBlock]; omega
  have hne : ¬ (c = 0 ∨ m.MaxNeighbors = 0 ∨ m.MaxBlocksPerShardInOneRootBlock = 0) := by omega
  have hq : ((g : Int) / (c : Int) / (m.MaxNeighbors : Int)
      / (m.MaxBlocksPerShardInOneRootBlock : Int))
      = ((g / c / m.MaxNeighbors / m.MaxBlocksPerShardInOneRootBlock : Nat) : Int) := by
    norm_cast
  simp only [xShardTxLimitOf, e1, e2, e3, hne, if_false, xShardQuota]
  rw [hc, hg, hq, Int.toNat_natCast]

theorem getXShardTxLimitsLoop_eq (d : Deps) (m : MinorBlockChain)
    (hcost1 : 0 < d.GtxxShardCost) (hcost2 : d.GtxxShardCost < 2 ^ 32)
    (hn : 0 < m.MaxNeighbors)
    (hb1 : 0 < m.MaxBlocksPerShardInOneRootBlock)
    (hb2 : m.MaxBlocksPerShardInOneRootBlock < 2 ^ 32)
    (hs : List MinorBlockHeader) :
    (∀ h ∈ hs, 0 ≤ h.GasLimit ∧ h.GasLimit < 2 ^ 32) →
    ∀ results : Nat → Option Nat, ∃ limits, getXShardTxLimitsLoop d m hs results = .ok limits ∧
      ∀ id, limits id = match lastHeaderOf id hs with
        | some h => some (xShardQuota d m h.GasLimit).toNat
        | none => results id := by
  induction hs with
  | nil => intro _ results; exact ⟨results, rfl, fun id => rfl⟩
  | cons h rest ih =>
    intro hgas results
    obtain ⟨hg1, hg2⟩ := hgas h (List.mem_cons_self _ _)
    have hq := xShardTxLimitOf_eq d m h hcost1 hcost2 hn hb1 hb2 hg1 hg2
    obtain ⟨limits, hl, hlim⟩ := ih (fun x hx => hgas x (List.mem_cons_of_mem _ hx))
      (fun k => if k = h.Branch.GetFullShardID then some (xShardQuota d m h.GasLimit).toNat
        else results k)
    refine ⟨limits, by simp only [getXShardTxLimitsLoop, hq, hl], ?_⟩
    intro id
    rw [hlim id]
    simp only [lastHeaderOf]
    cases hlast : lastHeaderOf id rest with
    | some x => rfl
    | none =>
      by_cases hid : h.Branch.GetFullShardID = id
      · simp [hid]
      · have hid2 : ¬ id = h.Branch.GetFullShardID := fun e => hid e.symm
        simp [hid, hid2]

theorem lastHeaderOf_none (id : Nat) (hs : List MinorBlockHeader) :
    (∀ h ∈ hs, h.Branch.GetFullShardID ≠ id) → lastHeaderOf id hs = none := by
  induction hs with
  | nil => intro _; rfl
  | cons h rest ih =>
    intro hne
    simp [lastHeaderOf, ih (fun x hx => hne x (List.mem_cons_of_mem _ hx)),
      hne h (List.mem_cons_self _ _)]

/-- C18, as stated, fails: for a root block with two headers of shard 2, of gas limits
900,000 and 1,800,000 (cost 9000, 2 neighbors, 5 blocks per root block), the map holds
the single entry 20 for the shard, the quota of the second header, while the quota of
the first header is 10; and for a header that declares the gas limit `2 ^ 32` the
entry is 0 (the gas limit is cut to 32 bits) while the quota is 47,721. -/
theorem getXShardTxLimits_counterexample :
    (∃ limits, getXShardTxLimits stdDeps (exampleChain []) exampleRootBlockTwoHeaders
        = .ok limits ∧ limits 2 = some 20) ∧
    xShardQuota stdDeps (exampleChain []) 900000 = 10 ∧
    (∃ limits, getXShardTxLimits stdDeps (exampleChain []) exampleRootBlockLargeGasLimit
        = .ok limits ∧ limits 2 = some 0) ∧
    xShardQuota stdDeps (exampleChain []) (2 ^ 32) = 47721 := by
  refine ⟨⟨_, rfl, by decide⟩, by decide, ⟨_, rfl, by decide⟩, by decide⟩

/-- C18, amended: for a cost and a number of blocks per root block that are positive
and below `2 ^ 32`, a positive number of neighbors, and every root block whose headers
declare gas limits below `2 ^ 32`, `getXShardTxLimits` returns a map that has, for each
full shard id, the entry (gas limit of the last confirmed header of that shard in the
root block) / crossShardTxCost / maxNeighbors / maxBlocksPerRootBlock in integer
division, and no entry for a shard with no header in the root block. -/
theorem getXShardTxLimits_last_header (d : Deps) (m : MinorBlockChain) (rBlock : RootBlock)
    (hcost1 : 0 < d.GtxxShardCost) (hcost2 : d.GtxxShardCost < 2 ^ 32)
    (hn : 0 < m.MaxNeighbors)
    (hb1 : 0 < m.MaxBlocksPerShardInOneRootBlock)
    (hb2 : m.MaxBlocksPerShardInOneRootBlock < 2 ^ 32)
    (hgas : ∀ h ∈ rBlock.MinorBlockHeaders, 0 ≤ h.GasLimit ∧ h.GasLimit < 2 ^ 32) :
    ∃ limits, getXShardTxLimits d m rBlock = .ok limits ∧
      (∀ id, limits id = (lastHeaderOf id rBlock.MinorBlockHeaders).map
        (fun h => (xShardQuota d m h.GasLimit).toNat)) ∧
      (∀ id, (∀ h ∈ rBlock.MinorBlockHeaders, h.Branch.GetFullShardID ≠ id) →
        limits id = none) := by
  obtain ⟨limits, hl, hlim⟩ := getXShardTxLimitsLoop_eq d m hcost1 hcost2 hn hb1 hb2
    rBlock.MinorBlockHeaders hgas (fun _ => none)
  have h1 : ∀ id, limits id = (lastHeaderOf id rBlock.MinorBlockHeaders).map
      (fun h => (xShardQuota d m h.GasLimit).toNat) := by
    intro id
    rw [hlim id]
    cases lastHeaderOf id rBlock.MinorBlockHeaders <;> rfl
  refine ⟨limits, hl, h1, ?_⟩
  intro id hne
  rw [h1 id, lastHeaderOf_none id _ hne]
  rfl

/-- Witness of C18 (amended): the root block with two headers of shard 2. -/
theorem getXShardTxLimits_last_header_witness :
    ∃ limits, getXShardTxLimits stdDeps (exampleChain []) exampleRootBlockTwoHeaders
        = .ok limits ∧
      (∀ id, limits id = (lastHeaderOf id exampleRootBlockTwoHeaders.MinorBlockHeaders).map
        (fun h => (xShardQuota stdDeps (exampleChain []) h.GasLimit).toNat)) ∧
      (∀ id, (∀ h ∈ exampleRootBlockTwoHeaders.MinorBlockHeaders,
          h.Branch.GetFullShardID ≠ id) → limits id = none) :=
  getXShardTxLimits_last_header stdDeps (exampleChain []) exampleRootBlockTwoHeaders
    (by decide) (by decide) (by decide) (by decide) (by decide)
    (fun h hh => by
      simp only [exampleRootBlockTwoHeaders, List.mem_cons, List.mem_singleton,
        List.not_mem_nil, or_false] at hh
      rcases hh with rfl | rfl
      · exact ⟨by decide, by decide⟩
      · exact ⟨by decide, by decide⟩)

/-! ## Theorems: filling a block with pool transactions -/

theorem setShardSizes_gas (td : TxDeps) (tx tx1 tx2 : Transaction) (n1 n2 : Nat)
    (h1 : tx.SetToShardSize td n1 = .ok tx1) (h2 : tx1.SetFromShardSize td n2 = .ok tx2) :
    tx2.Gas = tx.Gas := by
  unfold Transaction.SetToShardSize at h1
  unfold Transaction.SetFromShardSize at h2
  cases he1 : td.ShardSizeError n1 with
  | some e => rw [he1] at h1; cases h1
  | none =>
    rw [he1] at h1
    cases he2 : td.ShardSizeError n2 with
    | some e => rw [he2] at h2; cases h2
    | none =>
      rw [he2] at h2
      simp only [Outcome.ok.injEq] at h1 h2
      subst h1 h2
      rfl

theorem bigUint64_le_of_pos (x : Int) (hx : 0 < x) : ((bigUint64 x : Nat) : Int) ≤ x := by
  unfold bigUint64
  have h1 : x.natAbs % 2 ^ 64 ≤ x.natAbs := Nat.mod_le _ _
  have h2 : ((x.natAbs : Nat) : Int) = x := by omega
  omega

theorem addTransactionLoop_invariant (d : Deps) (td : TxDeps) (m : MinorBlockChain)
    (limits : Nat → Option Nat) (N : Nat) (hN : N < 2 ^ 32) (queue : List Transaction) :
    ∀ b b1 : BuildState, b.txsInBlock.length + queue.length ≤ N →
      BuildInvariant d td m limits b.txsInBlock b.xShardTxCounters b.remainingAtSelection →
      addTransactionLoop d td m limits queue b = .ok b1 →
      BuildInvariant d td m limits b1.txsInBlock b1.xShardTxCounters
        b1.remainingAtSelection := by
  induction queue with
  | nil =>
    intro b b1 _ hinv h
    simp only [addTransactionLoop, Outcome.ok.injEq] at h
    subst h
    exact hinv
  | cons tx rest ih =>
    intro b b1 hlen hinv h
    have hlen1 : b.txsInBlock.length + rest.length ≤ N := by
      simp only [List.length_cons] at hlen; omega
    rw [addTransactionLoop] at h
    by_cases hgas : b.evmState.gasUsed < b.evmState.gasLimit
    swap
    · simp only [hgas, not_false_eq_true, if_true, Outcome.ok.injEq] at h
      subst h
      exact hinv
    simp only [hgas, not_true_eq_false, if_false] at h
    by_cases hbig : tx.Gas > bigUint64 (b.evmState.gasLimit - b.evmState.gasUsed)
    · simp only [hbig, if_true] at h
      exact ih b b1 hlen1 hinv h
    simp only [hbig, if_false] at h
    · cases hs1 : tx.SetToShardSize td (m.GetShardSizeByChainId tx.ToChainID) with
      | error e => rw [hs1] at h; cases h
      | fault => rw [hs1] at h; cases h
      | ok tx1 =>
        rw [hs1] at h
        dsimp only at h
        cases hs2 : tx1.SetFromShardSize td (m.GetShardSizeByChainId tx1.FromChainID) with
        | error e => rw [hs2] at h; cases h
        | fault => rw [hs2] at h; cases h
        | ok tx2 =>
          rw [hs2] at h
          dsimp only at h
          split_ifs at h with hskip
          · exact ih b b1 hlen1 hinv h
          · cases ha : td.ApplyTransaction b.gp b.usedGas b.evmState tx2 with
            | error e => rw [ha] at h; cases h
            | fault => rw [ha] at h; cases h
            | ok r =>
              obtain ⟨receipt, gp1, used1, s1⟩ := r
              rw [ha] at h
              dsimp only at h
              refine ih _ b1 ?_ ?_ h
              · simp only [List.length_append, List.length_cons, List.length_nil] at hlen ⊢
                omega
              · obtain ⟨i1, i2, i3, i4⟩ := hinv
                have hcnt : b.xShardTxCounters (td.ToFullShardId tx2) + 1 < 2 ^ 32 := by
                  have := i1 (td.ToFullShardId tx2)
                  have hle : b.txsInBlock.countP
                      (fun t => decide (td.ToFullShardId t = td.ToFullShardId tx2))
                      ≤ b.txsInBlock.length := List.countP_le_length _
                  simp only [List.length_cons] at hlen
                  omega
                have hmod : (b.xShardTxCounters (td.ToFullShardId tx2) + 1) % 2 ^ 32
                    = b.xShardTxCounters (td.ToFullShardId tx2) + 1 := Nat.mod_eq_of_lt hcnt
                rw [hmod] at hskip
                refine ⟨?_, ?_, ?_, ?_⟩
                · intro toId
                  simp only [List.countP_append, List.countP_singleton, hmod]
                  by_cases hk : toId = td.ToFullShardId tx2
                  · subst hk
                    simp [i1]
                  · have hk2 : ¬ td.ToFullShardId tx2 = toId := fun e => hk e.symm
                    simp [hk, hk2, i1]
                · intro toId hto
                  simp only [List.countP_append, List.countP_singleton]
                  by_cases hk : td.ToFullShardId tx2 = toId
                  · subst hk
                    have hq : ¬ (b.xShardTxCounters (td.ToFullShardId tx2) + 1
                        > (limits (td.ToFullShardId tx2)).getD 0) := by
                      intro hc
                      exact hskip ⟨hto, Or.inr hc⟩
                    have := i1 (td.ToFullShardId tx2)
                    simp only [decide_True, if_true]
                    omega
                  · simp only [hk, decide_False, Bool.false_eq_true, if_false, add_zero]
                    exact i2 toId hto
                · intro t ht hto
                  rw [List.mem_append, List.mem_singleton] at ht
                  rcases ht with ht | ht
                  · exact i3 t ht hto
                  · subst ht
                    by_contra hn
                    have hf : m.isNeighbor d ⟨td.ToFullShardId t⟩ none = false := by
                      cases hx : m.isNeighbor d ⟨td.ToFullShardId t⟩ none with
                      | true => exact absurd hx hn
                      | false => rfl
                    exact hskip ⟨hto, Or.inl hf⟩
                · refine List.rel_append i4 (List.Forall₂.cons ?_ List.Forall₂.nil)
                  have hg := setShardSizes_gas td tx tx1 tx2 _ _ hs1 hs2
                  have hpos : 0 < b.evmState.gasLimit - b.evmState.gasUsed := by
                    omega
                  have hle := bigUint64_le_of_pos _ hpos
                  have hb : tx.Gas ≤ bigUint64 (b.evmState.gasLimit - b.evmState.gasUsed) := by
                    omega
                  rw [hg]
                  have : ((tx.Gas : Nat) : Int)
                      ≤ ((bigUint64 (b.evmState.gasLimit - b.evmState.gasUsed) : Nat) : Int) := by
                    exact_mod_cast hb
                  omega

/-- C19: in every block returned by `addTransactionToBlock` (for a pending set of
fewer than `2 ^ 32` transactions, the range of the `uint32` counters), for each
destination shard other than this shard the number of included transactions sent to
it is at most that shard's quota from `getXShardTxLimits` on the chosen root block
(zero for a shard without an entry), every included transaction to another shard
targets a neighbor shard, and the gas of every included transaction was at most the
gas remaining (gas limit − gas used) when it was selected. -/
theorem addTransactionToBlock_respects_quotas (d : Deps) (td : TxDeps) (m : MinorBlockChain)
    (txs : List Transaction) (rootBlockHash : CommonHash) (blockGasLimit : Int)
    (evmState : EvmState) (block : BuiltBlock)
    (hlen : txs.length < 2 ^ 32)
    (hres : addTransactionToBlock d td m (.ok txs) rootBlockHash blockGasLimit evmState
      = .ok block) :
    ∃ rBlock limits, m.GetRootBlockByHash rootBlockHash = some rBlock ∧
      getXShardTxLimits d m rBlock = .ok limits ∧
      (∀ toId, toId ≠ m.branch.Value →
        block.Transactions.countP (fun t => decide (td.ToFullShardId t = toId))
          ≤ (limits toId).getD 0) ∧
      (∀ tx ∈ block.Transactions, td.ToFullShardId tx ≠ m.branch.Value →
        m.isNeighbor d ⟨td.ToFullShardId tx⟩ none = true) ∧
      List.Forall₂ (fun tx rem => (tx.Gas : Int) ≤ rem) block.Transactions
        block.remainingAtSelection := by
  simp only [addTransactionToBlock] at hres
  cases hb : m.GetRootBlockByHash rootBlockHash with
  | none => rw [hb] at hres; cases hres
  | some rBlock =>
    rw [hb] at hres
    dsimp only at hres
    cases hl : getXShardTxLimits d m rBlock with
    | error e => rw [hl] at hres; cases hres
    | fault => rw [hl] at hres; cases hres
    | ok limits =>
      rw [hl] at hres
      dsimp only at hres
      cases hloop : addTransactionLoop d td m limits txs
          (initialBuildState evmState blockGasLimit) with
      | error e => rw [hloop] at hres; cases hres
      | fault => rw [hloop] at hres; cases hres
      | ok b =>
        rw [hloop] at hres
        simp only [Outcome.ok.injEq] at hres
        subst hres
        have hinv0 : BuildInvariant d td m limits
            (initialBuildState evmState blockGasLimit).txsInBlock
            (initialBuildState evmState blockGasLimit).xShardTxCounters
            (initialBuildState evmState blockGasLimit).remainingAtSelection := by
          refine ⟨fun _ => rfl, fun _ _ => Nat.zero_le _, ?_, List.Forall₂.nil⟩
          intro tx htx
          simp [initialBuildState] at htx
        obtain ⟨_, i2, i3, i4⟩ := addTransactionLoop_invariant d td m limits txs.length hlen txs
          (initialBuildState evmState blockGasLimit) b
          (by simp [initialBuildState]) hinv0 hloop
        exact ⟨rBlock, limits, rfl, hl, i2, i3, i4⟩

/-- Witness of C19: two transactions of this shard on the example chain; both are
included. -/
theorem addTransactionToBlock_respects_quotas_witness :
    ∃ block, addTransactionToBlock stdDeps exampleTxDeps (exampleChain [])
        (.ok [exampleTx 1, exampleTx 2]) 10 1000000 exampleState = .ok block ∧
      block.Transactions.length = 2 ∧
      ∃ rBlock limits, (exampleChain []).GetRootBlockByHash 10 = some rBlock ∧
        getXShardTxLimits stdDeps (exampleChain []) rBlock = .ok limits ∧
        (∀ toId, toId ≠ (exampleChain []).branch.Value →
          block.Transactions.countP (fun t => decide (exampleTxDeps.ToFullShardId t = toId))
            ≤ (limits toId).getD 0) ∧
        (∀ tx ∈ block.Transactions, exampleTxDeps.ToFullShardId tx ≠ (exampleChain []).branch.Value →
          (exampleChain []).isNeighbor stdDeps ⟨exampleTxDeps.ToFullShardId tx⟩ none = true) ∧
        List.Forall₂ (fun tx rem => (tx.Gas : Int) ≤ rem) block.Transactions
          block.remainingAtSelection :=
  ⟨_, rfl, rfl, addTransactionToBlock_respects_quotas stdDeps exampleTxDeps (exampleChain [])
    [exampleTx 1, exampleTx 2] 10 1000000 exampleState _ (by decide) rfl⟩

theorem addTransactionLoop_append (d : Deps) (td : TxDeps) (m : MinorBlockChain)
    (limits : Nat → Option Nat) (pre rest : List Transaction) :
    ∀ b b1 : BuildState, addTransactionLoop d td m limits pre b = .ok b1 →
      addTransactionLoop d td m limits (pre ++ rest) b
        = addTransactionLoop d td m limits rest b1 := by
  induction pre with
  | nil =>
    intro b b1 h
    simp only [addTransactionLoop, Outcome.ok.injEq] at h
    subst h
    rfl
  | cons tx pre1 ih =>
    intro b b1 h
    rw [addTransactionLoop] at h
    rw [List.cons_append, addTransactionLoop]
    by_cases hgas : b.evmState.gasUsed < b.evmState.gasLimit
    swap
    · simp only [hgas, not_false_eq_true, if_true, Outcome.ok.injEq] at h ⊢
      subst h
      cases rest with
      | nil => rfl
      | cons r rs => simp [addTransactionLoop, hgas]
    simp only [hgas, not_true_eq_false, if_false] at h ⊢
    by_cases hbig : tx.Gas > bigUint64 (b.evmState.gasLimit - b.evmState.gasUsed)
    · simp only [hbig, if_true] at h ⊢
      exact ih b b1 h
    simp only [hbig, if_false] at h ⊢
    cases hs1 : tx.SetToShardSize td (m.GetShardSizeByChainId tx.ToChainID) with
    | error e => rw [hs1] at h; cases h
    | fault => rw [hs1] at h; cases h
    | ok tx1 =>
      rw [hs1] at h
      dsimp only at h ⊢
      cases hs2 : tx1.SetFromShardSize td (m.GetShardSizeByChainId tx1.FromChainID) with
      | error e => rw [hs2] at h; cases h
      | fault => rw [hs2] at h; cases h
      | ok tx2 =>
        rw [hs2] at h
        dsimp only at h ⊢
        split_ifs at h ⊢ with hskip
        · exact ih b b1 h
        · cases ha : td.ApplyTransaction b.gp b.usedGas b.evmState tx2 with
          | error e => rw [ha] at h; cases h
          | fault => rw [ha] at h; cases h
          | ok r =>
            obtain ⟨receipt, gp1, used1, s1⟩ := r
            rw [ha] at h
            dsimp only at h ⊢
            exact ih _ b1 h

/-- C20, as stated, fails: with a pending set of two transactions whose first one
fails in `ApplyTransaction` (nonce error), `addTransactionToBlock` returns that error
and no block; the second transaction is not considered. -/
theorem addTransactionToBlock_apply_error_counterexample :
    addTransactionToBlock stdDeps exampleTxDeps (exampleChain [])
        (.ok [exampleTx 7, exampleTx 1]) 10 1000000 exampleState
      = .error "nonce too low" := by
  rfl

/-- C20, amended: for every pending set in which the execution of a selected
transaction fails in `ApplyTransaction` (the transactions `pre` before it having been
handled without error, gas remaining, its gas fitting, its shard sizes accepted, its
destination being this shard or a neighbor with quota left), `addTransactionToBlock`
returns the error of that execution and no block: the transactions after it are not
considered. A transaction that is only skipped is left out without error, the loop
going on with the remaining transactions from the same variables: a transaction whose
gas exceeds the gas remaining, a transaction to another shard that is not a neighbor,
and a transaction to another shard whose quota is exhausted. -/
theorem addTransactionToBlock_apply_error (d : Deps) (td : TxDeps) (m : MinorBlockChain)
    (pre post : List Transaction) (tx tx1 tx2 : Transaction) (rootBlockHash : CommonHash)
    (blockGasLimit : Int) (evmState : EvmState) (rBlock : RootBlock)
    (limits : Nat → Option Nat) (b1 : BuildState) (e : String)
    (hblock : m.GetRootBlockByHash rootBlockHash = some rBlock)
    (hlim : getXShardTxLimits d m rBlock = .ok limits)
    (hpre : addTransactionLoop d td m limits pre (initialBuildState evmState blockGasLimit)
      = .ok b1)
    (hgas : b1.evmState.gasUsed < b1.evmState.gasLimit)
    (hfit : ¬ tx.Gas > bigUint64 (b1.evmState.gasLimit - b1.evmState.gasUsed))
    (hs1 : tx.SetToShardSize td (m.GetShardSizeByChainId tx.ToChainID) = .ok tx1)
    (hs2 : tx1.SetFromShardSize td (m.GetShardSizeByChainId tx1.FromChainID) = .ok tx2)
    (hsel : ¬ (td.ToFullShardId tx2 ≠ m.branch.Value ∧
      (m.isNeighbor d ⟨td.ToFullShardId tx2⟩ none = false ∨
        (b1.xShardTxCounters (td.ToFullShardId tx2) + 1) % 2 ^ 32
          > (limits (td.ToFullShardId tx2)).getD 0)))
    (happly : td.ApplyTransaction b1.gp b1.usedGas b1.evmState tx2 = .error e) :
    addTransactionToBlock d td m (.ok (pre ++ tx :: post)) rootBlockHash blockGasLimit evmState
      = .error e ∧
    (∀ (b : BuildState) (t : Transaction) (rest : List Transaction),
      b.evmState.gasUsed < b.evmState.gasLimit →
      t.Gas > bigUint64 (b.evmState.gasLimit - b.evmState.gasUsed) →
      addTransactionLoop d td m limits (t :: rest) b
        = addTransactionLoop d td m limits rest b) ∧
    (∀ (b : BuildState) (t t1 t2 : Transaction) (rest : List Transaction),
      b.evmState.gasUsed < b.evmState.gasLimit →
      ¬ t.Gas > bigUint64 (b.evmState.gasLimit - b.evmState.gasUsed) →
      t.SetToShardSize td (m.GetShardSizeByChainId t.ToChainID) = .ok t1 →
      t1.SetFromShardSize td (m.GetShardSizeByChainId t1.FromChainID) = .ok t2 →
      td.ToFullShardId t2 ≠ m.branch.Value →
      m.isNeighbor d ⟨td.ToFullShardId t2⟩ none = false →
      addTransactionLoop d td m limits (t :: rest) b
        = addTransactionLoop d td m limits rest b) ∧
    (∀ (b : BuildState) (t t1 t2 : Transaction) (rest : List Transaction),
      b.evmState.gasUsed < b.evmState.gasLimit →
      ¬ t.Gas > bigUint64 (b.evmState.gasLimit - b.evmState.gasUsed) →
      t.SetToShardSize td (m.GetShardSizeByChainId t.ToChainID) = .ok t1 →
      t1.SetFromShardSize td (m.GetShardSizeByChainId t1.FromChainID) = .ok t2 →
      td.ToFullShardId t2 ≠ m.branch.Value →
      (b.xShardTxCounters (td.ToFullShardId t2) + 1) % 2 ^ 32
        > (limits (td.ToFullShardId t2)).getD 0 →
      addTransactionLoop d td m limits (t :: rest) b
        = addTransactionLoop d td m limits rest b) := by
  refine ⟨?_, ?_, ?_, ?_⟩
  · have happ := addTransactionLoop_append d td m limits pre (tx :: post)
      (initialBuildState evmState blockGasLimit) b1 hpre
    have hstep : addTransactionLoop d td m limits (tx :: post) b1 = .error e := by
      rw [addTransactionLoop]
      simp only [hgas, not_true_eq_false, if_false, hfit, hs1, hs2, hsel, happly]
    simp only [addTransactionToBlock, hblock, hlim, happ, hstep]
  · intro b t rest hg hbig
    rw [addTransactionLoop]
    simp only [hg, not_true_eq_false, if_false, hbig, if_true]
  · intro b t t1 t2 rest hg hfit1 h1 h2 hto hnb
    rw [addTransactionLoop]
    simp only [hg, not_true_eq_false, if_false, hfit1, h1, h2]
    rw [if_pos ⟨hto, Or.inl hnb⟩]
  · intro b t t1 t2 rest hg hfit1 h1 h2 hto hq
    rw [addTransactionLoop]
    simp only [hg, not_true_eq_false, if_false, hfit1, h1, h2]
    rw [if_pos ⟨hto, Or.inr hq⟩]

/-- Witness of C20 (amended): the transaction of nonce 1 is included, then the
transaction of nonce 7 fails and its error is returned. -/
theorem addTransactionToBlock_apply_error_witness :
    addTransactionToBlock stdDeps exampleTxDeps (exampleChain [])
        (.ok ([exampleTx 1] ++ exampleTx 7 :: [exampleTx 2])) 10 1000000 exampleState
      = .error "nonce too low" :=
  (addTransactionToBlock_apply_error stdDeps exampleTxDeps (exampleChain [])
    [exampleTx 1] [exampleTx 2] (exampleTx 7)
    { exampleTx 7 with ToShardSize := 2 }
    { exampleTx 7 with ToShardSize := 2, FromShardSize := 2 } 10 1000000 exampleState
    ⟨⟨10, 9, 6, ⟨99, 2⟩, 0⟩, [{ Hash := 20, Branch := ⟨2⟩, PrevRootBlockHash := 9 }]⟩
    _ _ "nonce too low" rfl rfl rfl (by decide) (by decide) rfl rfl (by decide) rfl).1

/-! ## Accepting a root block -/

/-- The binary search of `EstimateGas`, for an execution that fails below `g0` and
succeeds from `g0` up, started with `lo < g0 ≤ hi` below `2 ^ 63`: with a bound of at
least `hi - lo` loop tests it ends with `hi = g0`. -/
theorem estimateGasLoop_threshold (runTx : Nat → Bool) (g0 : Nat)
    (hthr : ∀ g, runTx g = true ↔ g0 ≤ g) :
    ∀ (fuel lo hi : Nat), lo < g0 → g0 ≤ hi → hi < 2 ^ 63 → hi - lo ≤ fuel →
      estimateGasLoop runTx fuel lo hi = some (g0 - 1, g0) := by
  intro fuel
  induction fuel with
  | zero => intro lo hi h1 h2 _ h4; omega
  | succ n ih =>
    intro lo hi h1 h2 h3 h4
    unfold estimateGasLoop
    have e1 : (lo + 1) % 2 ^ 64 = lo + 1 := Nat.mod_eq_of_lt (by omega)
    have e2 : (lo + hi) % 2 ^ 64 = lo + hi := Nat.mod_eq_of_lt (by omega)
    rw [e1, e2]
    by_cases hlt : lo + 1 < hi
    · rw [if_pos hlt]
      dsimp only
      by_cases hr : runTx ((lo + hi) / 2) = true
      · rw [if_pos hr]
        have := (hthr _).mp hr
        exact ih lo _ h1 this (by omega) (by omega)
      · rw [if_neg hr]
        have : ¬ g0 ≤ (lo + hi) / 2 := fun h => hr ((hthr _).mpr h)
        exact ih _ hi (by omega) h2 h3 (by omega)
    · rw [if_neg hlt]
      have : hi = g0 := by omega
      have : lo = g0 - 1 := by omega
      subst_vars
      rfl

/-- C28: for an execution that fails below `g0` and succeeds from `g0` up, with
`21000 ≤ g0 ≤ cap < 2 ^ 63`, `EstimateGas` ends within `cap` loop tests and returns
`g0` when `g0` is below `cap`, but returns 0 when `g0` is `cap`: the last test
returns 0 when the execution at `cap` succeeds. -/
theorem estimateGas_threshold (runTx : Nat → Bool) (st : EvmState) (tx : Transaction) (g0 : Nat)
    (hthr : ∀ g, runTx g = true ↔ g0 ≤ g)
    (hlo : 21000 ≤ g0) (hhi : g0 ≤ estimateGasCap st tx) (hcap : estimateGasCap st tx < 2 ^ 63) :
    EstimateGas runTx (.ok st) (estimateGasCap st tx) tx =
      some (.ok (if g0 = estimateGasCap st tx then 0 else g0)) := by
  unfold EstimateGas
  dsimp only
  rw [estimateGasLoop_threshold runTx g0 hthr _ _ _ (by omega) hhi hcap (by omega)]
  dsimp only
  have hr : runTx g0 = true := (hthr g0).mpr (le_refl _)
  by_cases h : g0 = estimateGasCap st tx
  · rw [if_pos ⟨h, hr⟩, if_pos h]
  · rw [if_neg (fun hh => h hh.1), if_neg h]

/-- C28, the failing input: a transaction with 30000 gas that executes exactly from
30000 gas up; `g0 = cap = 30000`, and `EstimateGas` returns 0. -/
theorem estimateGas_threshold_witness :
    EstimateGas (fun g => decide (30000 ≤ g)) (.ok exampleState) 30000 exampleTxGas30000 =
      some (.ok 0) :=
  estimateGas_threshold (fun g => decide (30000 ≤ g)) exampleState exampleTxGas30000 30000
    (fun g => by simp) (by decide) (by decide) (by decide)

/-! ## Storing a minor block -/

/-- C29: the total transaction count that `putMinorBlock` records under the hash of a
block is the count recorded under its parent's hash for a block above height 2, and 0
up to height 2; the transactions of the block itself are not counted. -/
theorem putMinorBlock_total_tx (db db' : MinorBlockDb) (mBlock : MinorBlock)
    (l : List CrossShardTransactionDeposit)
    (h : putMinorBlock db mBlock l = .ok db') :
    db'.totalTx mBlock.Header.Hash =
      if mBlock.Header.Number > 2 then
        (db.totalTx mBlock.Header.ParentHash).map (fun c => c % 2 ^ 32)
      else some 0 := by
  unfold putMinorBlock at h
  dsimp only at h
  unfold putTotalTxCount at h
  dsimp only at h
  by_cases hn : mBlock.Header.Number > 2
  · rw [if_pos hn] at h
    rw [if_pos hn]
    cases hc : db.totalTx mBlock.Header.ParentHash with
    | none => rw [hc] at h; simp at h
    | some c =>
      rw [hc] at h
      dsimp only at h
      unfold putConfirmedCrossShardTransactionDepositList at h
      split_ifs at h <;>
      · simp only [Outcome.ok.injEq] at h
        subst h
        simp
  · rw [if_neg hn] at h
    rw [if_neg hn]
    dsimp only at h
    unfold putConfirmedCrossShardTransactionDepositList at h
    split_ifs at h <;>
    · simp only [Outcome.ok.injEq] at h
      subst h
      simp

/-- C29, the failing input: a block at height 3 with two transactions on a parent with
the recorded count 5; the count recorded for the block is 5, not 7. -/
theorem putMinorBlock_total_tx_witness :
    ∃ db', putMinorBlock exampleMinorBlockDb exampleMinorBlockTwoTxs [] = .ok db' ∧
      exampleMinorBlockTwoTxs.Transactions.length = 2 ∧
      exampleMinorBlockDb.totalTx exampleMinorBlockTwoTxs.Header.ParentHash = some 5 ∧
      db'.totalTx exampleMinorBlockTwoTxs.Header.Hash = some 5 :=
  ⟨_, rfl, rfl, rfl,
    putMinorBlock_total_tx exampleMinorBlockDb _ exampleMinorBlockTwoTxs [] rfl⟩

/-! ## The unconfirmed headers -/

/-- C30: when there are fewer unconfirmed headers than `maxBlocks`,
`GetUnconfirmedHeaderList` does not return them: it faults, or (within the capacity
of the slice) returns `maxBlocks` entries, nil pointers after the headers. -/
theorem getUnconfirmedHeaderList_short (growCap : Nat → Nat) (s : ChainState)
    (headers : List MinorBlockHeader)
    (hall : getAllUnconfirmedHeaderList s = .ok (some headers))
    (hshort : headers.length < s.chain.getMaxBlocksInOneRootBlock) :
    GetUnconfirmedHeaderList growCap s = .fault ∨
      GetUnconfirmedHeaderList growCap s =
        .ok (headers.map some ++
          List.replicate (s.chain.getMaxBlocksInOneRootBlock - headers.length) none) := by
  unfold GetUnconfirmedHeaderList
  rw [hall]
  dsimp only
  simp only [Option.getD_some]
  rw [if_neg (by omega)]
  split_ifs <;> first | (left; rfl) | (right; rfl)

/-- C30, the failing input: in `exampleChainState` the head is the confirmed header
tip, there is no unconfirmed header, `maxBlocks` is 5, and `GetUnconfirmedHeaderList`
faults. -/
theorem getUnconfirmedHeaderList_short_witness :
    getAllUnconfirmedHeaderList exampleChainState = .ok (some []) ∧
      exampleChainState.chain.getMaxBlocksInOneRootBlock = 5 ∧
      GetUnconfirmedHeaderList exampleGrowCap exampleChainState = .fault := by
  refine ⟨rfl, rfl, ?_⟩
  rcases getUnconfirmedHeaderList_short exampleGrowCap exampleChainState [] rfl
    (by decide) with h | h
  · exact h
  · exact rfl

/-! ## The coinbase addresses of the POSW window -/

/-- C25, the failing input: on the line of blocks of `exampleLineStore`, a call for the
block at height 2 with length 3 (the whole window, as `updateTip` asks for) walks the
parent links and caches three recipients; the next call, for the block at height 3
with length 2 (the window less one, as `POSWDiffAdjust` asks for), takes that entry,
finds its length different from 2, keeps all of it and returns four recipients. The
walk, on an empty cache, returns the two recipients of the heights 2 and 3. -/
theorem getCoinBaseAddressUntilBlock_cache_ignores_length :
    (getCoinBaseAddressUntilBlock exampleLineStore [] 102 3).1 = .ok [100, 101, 102] ∧
      (getCoinBaseAddressUntilBlock exampleLineStore
        (getCoinBaseAddressUntilBlock exampleLineStore [] 102 3).2 103 2).1
        = .ok [100, 101, 102, 103] ∧
      (getCoinBaseAddressUntilBlock exampleLineStore [] 103 2).1 = .ok [102, 103] := by
  refine ⟨?_, ?_, ?_⟩ <;> rfl

/-- After `cacheStore` the cache has at most 128 entries, or only entries whose height
is above the (wrapping) difference `height - 16`. -/
theorem cacheStore_fresh (cache : CoinBaseAddrCache) (hash : CommonHash) (height : Nat)
    (l : List Recipient) :
    (cacheStore cache hash height l).length ≤ 128 ∨
      ∀ e ∈ cacheStore cache hash height l, (height + 2 ^ 64 - 16) % 2 ^ 64 < e.2.height := by
  unfold cacheStore
  dsimp only
  split_ifs with h
  · right
    intro e he
    have := (List.mem_filter.mp he).2
    exact of_decide_eq_true this
  · left
    omega

/-- Below height 16 the difference `height - 16` wraps, and `cacheStore` leaves at most
128 entries: a cache that would have more is emptied. -/
theorem cacheStore_low (cache : CoinBaseAddrCache) (hash : CommonHash) (height : Nat)
    (l : List Recipient) (hlow : height < 16)
    (hc : ∀ e ∈ cache, e.2.height + 16 ≤ 2 ^ 64) :
    (cacheStore cache hash height l).length ≤ 128 := by
  unfold cacheStore
  dsimp only
  split_ifs with h
  · have hnil : List.filter (fun e => decide (e.2.height > (height + 2 ^ 64 - 16) % 2 ^ 64))
        (cacheSet cache hash ⟨height, l⟩) = [] := by
      rw [List.eq_nil_iff_forall_not_mem]
      intro e he
      have h1 := List.mem_filter.mp he
      have h2 : e.2.height > (height + 2 ^ 64 - 16) % 2 ^ 64 := of_decide_eq_true h1.2
      have h3 : (height + 2 ^ 64 - 16) % 2 ^ 64 = height + 2 ^ 64 - 16 :=
        Nat.mod_eq_of_lt (by omega)
      rw [h3] at h2
      unfold cacheSet at h1
      rcases List.mem_cons.mp h1.1 with h4 | h4
      · rw [h4] at h2
        dsimp only at h2
        omega
      · have := hc e (List.mem_filter.mp h4).1
        omega
    rw [hnil]
    simp
  · omega

/-- The entries of `exampleFullCache` have keys from 1000 and heights from 900. -/
theorem exampleFullCache_mem (e : CommonHash × HeightAndAddrs) (he : e ∈ exampleFullCache) :
    1000 ≤ e.1 ∧ 900 ≤ e.2.height := by
  unfold exampleFullCache at he
  rw [List.mem_map] at he
  obtain ⟨i, _, rfl⟩ := he
  exact ⟨Nat.le_add_right _ _, Nat.le_add_right _ _⟩

/-- C26, counterexample: a cache with the 128 entries of the blocks at heights 900 to
1027, and a call for the block at height 20; the new entry makes 129, the deletion
spares every entry of a height above 4, and the cache is left with 129 entries. -/
theorem getCoinBaseAddressUntilBlock_cache_129_counterexample :
    exampleFullCache.length = 128 ∧
      (getCoinBaseAddressUntilBlock exampleLineStore exampleFullCache 120 1).1 = .ok [120] ∧
      (getCoinBaseAddressUntilBlock exampleLineStore exampleFullCache 120 1).2.length = 129 := by
  have hlen : exampleFullCache.length = 128 := by
    unfold exampleFullCache
    rw [List.length_map, List.length_range]
  have hget : cacheGet exampleFullCache 119 = none := by
    unfold cacheGet
    rw [List.find?_eq_none.mpr (fun e he h => by
      have h1 := (exampleFullCache_mem e he).1
      rw [of_decide_eq_true h] at h1
      exact absurd h1 (by decide))]
    rfl
  have hcall : getCoinBaseAddressUntilBlock exampleLineStore exampleFullCache 120 1
      = (.ok [120], cacheStore exampleFullCache 120 20 [120]) := by
    unfold getCoinBaseAddressUntilBlock
    rw [show exampleLineStore.GetBlockByHash 120 = some (exampleLineBlock 120) from rfl]
    dsimp only
    unfold coinBaseAddrLists
    rw [show (exampleLineBlock 120).Header.ParentHash = 119 from rfl, hget]
    rfl
  have hset : cacheSet exampleFullCache 120 ⟨20, [120]⟩
      = (120, ⟨20, [120]⟩) :: exampleFullCache := by
    unfold cacheSet
    rw [List.filter_eq_self.mpr (fun e he => by
      have h1 := (exampleFullCache_mem e he).1
      apply decide_eq_true
      intro h
      rw [h] at h1
      exact absurd h1 (by decide))]
  have hstore : cacheStore exampleFullCache 120 20 [120]
      = (120, ⟨20, [120]⟩) :: exampleFullCache := by
    unfold cacheStore
    dsimp only
    rw [hset, if_pos (by rw [List.length_cons, hlen]; decide)]
    rw [List.filter_eq_self.mpr (fun e he => by
      rcases List.mem_cons.mp he with h | h
      · rw [h]; decide
      · have h2 := (exampleFullCache_mem e h).2
        apply decide_eq_true
        have h3 : (20 + 2 ^ 64 - 16) % 2 ^ 64 = 4 := by norm_num
        rw [h3]
        exact Nat.lt_of_lt_of_le (by decide) h2)]
  refine ⟨hlen, ?_, ?_⟩
  · rw [hcall]
  · rw [hcall]
    dsimp only
    rw [hstore, List.length_cons, hlen]

/-- C26, amended: after a call of `getCoinBaseAddressUntilBlock` that returns a list
for a block at height `h`, the cache holds at most 128 entries or only entries of a
height above `h - 16` (a `uint64` difference); after a call for a block below height
16, cached heights being at most `2 ^ 64 - 16`, it holds at most 128 entries. -/
theorem getCoinBaseAddressUntilBlock_cache_size (st : MinorBlockStore)
    (cache cache' : CoinBaseAddrCache) (hash : CommonHash) (length : Nat) (l : List Recipient)
    (b : MinorBlock) (hb : st.GetBlockByHash hash = some b)
    (hres : getCoinBaseAddressUntilBlock st cache hash length = (.ok l, cache')) :
    (cache'.length ≤ 128 ∨
        ∀ e ∈ cache', (b.Header.Number + 2 ^ 64 - 16) % 2 ^ 64 < e.2.height) ∧
      (b.Header.Number < 16 → (∀ e ∈ cache, e.2.height + 16 ≤ 2 ^ 64) →
        cache'.length ≤ 128) := by
  unfold getCoinBaseAddressUntilBlock at hres
  rw [hb] at hres
  dsimp only at hres
  cases hl : coinBaseAddrLists st cache b.Header length with
  | error e => rw [hl] at hres; simp at hres
  | fault => rw [hl] at hres; simp at hres
  | ok l' =>
    rw [hl] at hres
    simp only [Prod.mk.injEq, Outcome.ok.injEq] at hres
    rw [← hres.2]
    exact ⟨cacheStore_fresh _ _ _ _, fun hlow hc => cacheStore_low _ _ _ _ hlow hc⟩

/-- C26, witness: a call for the block at height 5 of `exampleLineStore` on an empty
cache. -/
theorem getCoinBaseAddressUntilBlock_cache_size_witness :
    ((getCoinBaseAddressUntilBlock exampleLineStore [] 105 2).2.length ≤ 128 ∨
        ∀ e ∈ (getCoinBaseAddressUntilBlock exampleLineStore [] 105 2).2,
          (5 + 2 ^ 64 - 16) % 2 ^ 64 < e.2.height) ∧
      (5 < 16 → (∀ e ∈ ([] : CoinBaseAddrCache), e.2.height + 16 ≤ 2 ^ 64) →
        (getCoinBaseAddressUntilBlock exampleLineStore [] 105 2).2.length ≤ 128) :=
  getCoinBaseAddressUntilBlock_cache_size exampleLineStore [] _ 105 2 [104, 105]
    (exampleLineBlock 105) rfl rfl

/-! ## The gas price oracle -/

/-- The loop of `GasPrice` over heights that all have a canonical block collects the
prices of these blocks in order. -/
theorem gasPriceLoop_eq (st : MinorBlockStore) :
    ∀ (n index : Nat) (acc : List Nat),
      (∀ k, index ≤ k → k < index + n → st.GetBlockByNumber k ≠ none) →
      gasPriceLoop st n index acc = .ok (acc ++ pricesOfHeights st (List.range' index n)) := by
  intro n
  induction n with
  | zero => intro index acc _; simp [gasPriceLoop, pricesOfHeights]
  | succ m ih =>
    intro index acc hk
    unfold gasPriceLoop
    cases hb : st.GetBlockByNumber index with
    | none => exact absurd hb (hk index (le_refl _) (by omega))
    | some b =>
      dsimp only
      rw [ih (index + 1) _ (fun k h1 h2 => hk k (by omega) (by omega))]
      simp [pricesOfHeights, List.range'_succ, hb]

/-- C27, counterexample: the head of `exampleLargePriceStore` has one transaction, of
gas price `2 ^ 64 + 7`; `GasPrice` returns 7. -/
theorem gasPrice_truncated_counterexample :
    exampleLargePriceStore.CurrentBlock.Transactions.map (fun v => v.GasPrice) = [2 ^ 64 + 7] ∧
      (GasPrice exampleLargePriceStore exampleOracle).1 = .ok (some 7) := by
  refine ⟨rfl, ?_⟩
  rfl

/-- A `uint64` below `2 ^ 63` converts to `int64` exactly. -/
theorem int64OfUint64_of_small (u : Nat) (h : u < 2 ^ 63) : int64OfUint64 u = (u : Int) := by
  unfold int64OfUint64
  have e : u % 2 ^ 64 = u := Nat.mod_eq_of_lt (by omega)
  rw [e, if_pos h]

/-- The first height that `GasPrice` reads is `max(3, head − CheckBlocks + 1)` when
head height and number of blocks are below `2 ^ 63`. -/
theorem gasPriceStartHeight_eq (st : MinorBlockStore) (o : GasPriceSuggestionOracle)
    (hheight : st.CurrentBlock.Header.Number + 1 < 2 ^ 63) (hcheck : o.CheckBlocks < 2 ^ 63) :
    gasPriceStartHeight st o = (gasPriceWindowStart st o : Int) := by
  unfold gasPriceStartHeight gasPriceWindowStart
  dsimp only
  rw [int64OfUint64_of_small _ (by omega), int64OfUint64_of_small _ hcheck]
  have e3 : wrapInt64 ((st.CurrentBlock.Header.Number : Int) - o.CheckBlocks)
      = (st.CurrentBlock.Header.Number : Int) - o.CheckBlocks :=
    wrapInt64_of_small _ (by omega) (by omega)
  rw [e3]
  have e4 : wrapInt64 ((st.CurrentBlock.Header.Number : Int) - o.CheckBlocks + 1)
      = (st.CurrentBlock.Header.Number : Int) - o.CheckBlocks + 1 :=
    wrapInt64_of_small _ (by omega) (by omega)
  rw [e4]
  rw [Nat.max_def]
  split_ifs <;> omega

/-- The index of the percentile is inside the list of prices. -/
theorem percentile_index_lt (n p : Nat) (hn : 1 ≤ n) (hp : p ≤ 100) :
    (n - 1) * p / 100 < n := by
  have hb : (n - 1) * p ≤ (n - 1) * 100 := Nat.mul_le_mul_left _ hp
  generalize (n - 1) * p = k at hb
  omega

/-- C27, amended: when the head differs from the memoized head, the head height and
the number of blocks looked back are below `2 ^ 63`, the percentile is at most 100,
the canonical blocks at the heights `max(3, head − CheckBlocks + 1)` through the head
are stored, and their transactions are `n ≥ 1` (and fewer than `2 ^ 56`), `GasPrice`
returns the element at index `(n − 1) × Percentile / 100` of the low 64 bits of their
gas prices sorted ascending and memoizes it with the head hash; a later call with the
same head returns the same price whatever the stored blocks are. -/
theorem gasPrice_percentile (st : MinorBlockStore) (o : GasPriceSuggestionOracle)
    (hhead : st.CurrentBlock.Header.Hash ≠ o.LastHead)
    (hheight : st.CurrentBlock.Header.Number + 1 < 2 ^ 63) (hcheck : o.CheckBlocks < 2 ^ 63)
    (hperc : o.Percentile ≤ 100)
    (hblocks : ∀ k ∈ gasPriceWindowHeights st o, st.GetBlockByNumber k ≠ none)
    (hn : 1 ≤ (pricesOfHeights st (gasPriceWindowHeights st o)).length)
    (hsmall : (pricesOfHeights st (gasPriceWindowHeights st o)).length < 2 ^ 56) :
    ((pricesOfHeights st (gasPriceWindowHeights st o)).length - 1) * o.Percentile / 100
        < (pricesOfHeights st (gasPriceWindowHeights st o)).length ∧
      GasPrice st o =
        (.ok (some (percentilePrice (pricesOfHeights st (gasPriceWindowHeights st o))
            o.Percentile)),
          { o with
            LastPrice := percentilePrice (pricesOfHeights st (gasPriceWindowHeights st o))
              o.Percentile
            LastHead := st.CurrentBlock.Header.Hash }) ∧
      ∀ st' : MinorBlockStore, st'.CurrentBlock.Header.Hash = st.CurrentBlock.Header.Hash →
        GasPrice st'
            { o with
              LastPrice := percentilePrice (pricesOfHeights st (gasPriceWindowHeights st o))
                o.Percentile
              LastHead := st.CurrentBlock.Header.Hash } =
          (.ok (some (percentilePrice (pricesOfHeights st (gasPriceWindowHeights st o))
              o.Percentile)),
            { o with
              LastPrice := percentilePrice (pricesOfHeights st (gasPriceWindowHeights st o))
                o.Percentile
              LastHead := st.CurrentBlock.Header.Hash }) := by
  refine ⟨?_, ?_, ?_⟩
  · exact percentile_index_lt _ _ hn hperc
  · unfold gasPriceWindowHeights at hblocks hn hsmall ⊢
    unfold GasPrice
    dsimp only
    rw [if_neg hhead, gasPriceStartHeight_eq st o hheight hcheck]
    have hend : int64OfUint64 ((st.CurrentBlock.Header.Number + 1) % 2 ^ 64)
        = ((st.CurrentBlock.Header.Number + 1 : Nat) : Int) := by
      rw [Nat.mod_eq_of_lt (by omega)]
      exact int64OfUint64_of_small _ hheight
    rw [hend]
    have hcount : (((st.CurrentBlock.Header.Number + 1 : Nat) : Int)
        - (gasPriceWindowStart st o : Int)).toNat
        = st.CurrentBlock.Header.Number + 1 - gasPriceWindowStart st o := by omega
    rw [hcount, Int.toNat_ofNat]
    rw [gasPriceLoop_eq st _ _ [] (fun k h1 h2 =>
      hblocks k (by rw [List.mem_range'_1]; exact ⟨h1, h2⟩))]
    dsimp only
    rw [List.nil_append]
    generalize pricesOfHeights st (List.range' (gasPriceWindowStart st o)
      (st.CurrentBlock.Header.Number + 1 - gasPriceWindowStart st o)) = prices at hn hsmall ⊢
    rw [if_neg (by omega)]
    have hP : int64OfUint64 o.Percentile = o.Percentile :=
      int64OfUint64_of_small _ (by omega)
    have hprod : ((prices.length : Int) - 1) * (o.Percentile : Int)
        = (((prices.length - 1) * o.Percentile : Nat) : Int) := by
      push_cast [Nat.cast_sub hn]
      ring
    have hbound : (prices.length - 1) * o.Percentile ≤ (prices.length - 1) * 100 :=
      Nat.mul_le_mul_left _ hperc
    have hW : wrapInt64 ((((prices.length - 1) * o.Percentile : Nat) : Int))
        = (((prices.length - 1) * o.Percentile : Nat) : Int) :=
      wrapInt64_of_small _ (by omega) (by omega)
    have hdiv : ((((prices.length - 1) * o.Percentile : Nat) : Int)).tdiv 100
        = ((((prices.length - 1) * o.Percentile / 100 : Nat)) : Int) := by
      rw [Int.ofNat_tdiv]
      rfl
    rw [hP, hprod, hW, hdiv]
    have hidx : (prices.length - 1) * o.Percentile / 100 < prices.length :=
      percentile_index_lt _ _ hn hperc
    have hc : ¬ ((((prices.length - 1) * o.Percentile / 100 : Nat) : Int) < 0 ∨
        (prices.length : Int) ≤ (((prices.length - 1) * o.Percentile / 100 : Nat) : Int)) := by
      intro h
      rcases h with h | h
      · exact absurd h (not_lt.mpr (Int.ofNat_nonneg _))
      · exact absurd (Int.ofNat_le.mp h) (not_le.mpr hidx)
    rw [if_neg hc, Int.toNat_ofNat]
    rfl
  · intro st' hst'
    unfold GasPrice
    dsimp only
    rw [if_pos hst']

/-- C27, witness: the head of `examplePriceStore`, at height 3, has transactions of
gas prices 30, 10 and 20; with one block looked back and the 50th percentile the index
is `2 × 50 / 100 = 1`, and `GasPrice` returns and memoizes 20; with the same head and
no block stored the next call returns 20 again. -/
theorem gasPrice_percentile_witness :
    pricesOfHeights examplePriceStore (gasPriceWindowHeights examplePriceStore exampleOracle)
        = [30, 10, 20] ∧
      GasPrice examplePriceStore exampleOracle =
        (.ok (some 20), { exampleOracle with LastPrice := 20, LastHead := 203 }) ∧
      GasPrice examplePriceStoreNoBlocks { exampleOracle with LastPrice := 20, LastHead := 203 } =
        (.ok (some 20), { exampleOracle with LastPrice := 20, LastHead := 203 }) :=
  have h := gasPrice_percentile examplePriceStore exampleOracle (by decide) (by decide)
    (by decide) (by decide) (fun k _ => by simp [examplePriceStore]) (by decide) (by decide)
  ⟨rfl, h.2.1, h.2.2 examplePriceStoreNoBlocks rfl⟩

/-! ## The POSW difficulty -/

/-- C23, the failing input: the block at height 3 of `exampleLineStore` has the
coinbase recipient 103, who produced none of the two blocks of the window before it,
and whose stake 10 gives the threshold `min(3, 10 / 10) = 1`; the count 0 is below the
threshold, and `POSWDiffAdjust` returns the difficulty 1000 and not `1000 / 2`. -/
theorem poswDiffAdjust_ignores_block_count :
    (getCoinBaseAddressUntilBlock exampleLineStore [] 102 2).1 = .ok [101, 102] ∧
      poswWindowCount exampleLineStore examplePoswShardConfig (exampleLineBlock 103) = 0 ∧
      poswBlockThreshold examplePoswShardConfig.PoswConfig
        (examplePoswState.balances (exampleLineBlock 103).Header.Coinbase.Recipient) = .ok 1 ∧
      (exampleLineBlock 103).Header.Difficulty = 1000 ∧
      (POSWDiffAdjust exampleLineStore examplePoswShardConfig ⟨1 / 2⟩ []
        (exampleLineBlock 103)).1 = .ok 1000 := by
  refine ⟨?_, ?_, ?_, ?_, ?_⟩ <;> rfl

/-- C24: for a block whose coinbase recipient has balance 0 in the state derived for
the block, the stake per block having non-zero low 64 bits, `POSWDiffAdjust` applies
no reduction and returns the low 32 bits of the difficulty of the block. -/
theorem poswDiffAdjust_zero_stake (st : MinorBlockStore) (shardConfig : ShardConfig)
    (qkcConfig : QuarkChainConfig) (cache cache1 : CoinBaseAddrCache) (block : MinorBlock)
    (evmState : EvmState)
    (hstate : getEvmStateForNewBlock st shardConfig qkcConfig cache block = (.ok evmState, cache1))
    (hbal : evmState.balances block.Header.Coinbase.Recipient = 0)
    (hstake : bigUint64 shardConfig.PoswConfig.TotalStakePerBlock ≠ 0) :
    poswBlockThreshold shardConfig.PoswConfig
        (evmState.balances block.Header.Coinbase.Recipient) = .ok 0 ∧
      (POSWDiffAdjust st shardConfig qkcConfig cache block).1
        = .ok (bigUint64 block.Header.Difficulty % 2 ^ 32) := by
  have hthr : poswBlockThreshold shardConfig.PoswConfig
      (evmState.balances block.Header.Coinbase.Recipient) = .ok 0 := by
    unfold poswBlockThreshold
    rw [if_neg hstake, hbal]
    have h0 : bigUint64 0 = 0 := rfl
    rw [h0]
    dsimp only
    rw [Nat.zero_div, Nat.zero_mod, if_neg (Nat.not_lt_zero _)]
  refine ⟨hthr, ?_⟩
  unfold POSWDiffAdjust
  dsimp only
  rw [hstate]
  dsimp only
  rw [hthr]
  dsimp only
  rw [if_neg (Nat.not_lt_zero _)]

/-- C24, the failing input: a block with the difficulty `2 ^ 32 + 5` whose coinbase
recipient has balance 0; `POSWDiffAdjust` returns 5. -/
theorem poswDiffAdjust_zero_stake_witness :
    exampleLargeDifficultyBlock.Header.Difficulty = 2 ^ 32 + 5 ∧
      examplePoswState.balances exampleLargeDifficultyBlock.Header.Coinbase.Recipient = 0 ∧
      (POSWDiffAdjust exampleLineStore examplePoswShardConfig ⟨1 / 2⟩ []
        exampleLargeDifficultyBlock).1 = .ok 5 :=
  ⟨rfl, rfl,
    (poswDiffAdjust_zero_stake exampleLineStore examplePoswShardConfig ⟨1 / 2⟩ [] []
      exampleLargeDifficultyBlock
      { examplePoswState with
        blockCoinBase := 50, gasLimit := 0, quarkChainConfig := some ⟨1 / 2⟩ }
      rfl rfl (by decide)).2⟩

/-! ## Creating a block to mine -/

theorem mineFinalize_header (md : MineDeps) (block : MinorBlock) (built : BuiltBlock)
    (coinBase : Outcome Int) (b : MinedBlock)
    (h : mineFinalize md block built coinBase = .ok b) :
    b.Header = { block.Header with PrevRootBlockHash := built.PrevRootBlockHash } := by
  unfold mineFinalize at h
  cases coinBase with
  | error e => exact absurd h (by simp)
  | fault => exact absurd h (by simp)
  | ok amount =>
    dsimp only at h
    generalize md.Commit _ = c at h
    cases c with
    | error e => exact absurd h (by simp)
    | fault => exact absurd h (by simp)
    | ok root =>
      dsimp only at h
      cases h
      rfl

theorem mineBuild_header (d : Deps) (td : TxDeps) (md : MineDeps) (m : MinorBlockChain)
    (fuel : Nat) (pending : Outcome (List Transaction)) (prevHeader block : MinorBlock)
    (evmState : EvmState) (b : MinedBlock)
    (h : mineBuild d td md m fuel pending prevHeader block evmState = some (.ok b)) :
    ∃ r, b.Header = { block.Header with PrevRootBlockHash := r } := by
  unfold mineBuild at h
  split at h
  · exact absurd h (by simp)
  · dsimp only at h
    split at h
    · exact absurd h (by simp)
    · exact absurd h (by simp)
    · exact absurd h (by simp)
    · split at h
      · exact absurd h (by simp)
      · exact absurd h (by simp)
      · exact absurd h (by simp)
      · split at h
        · exact absurd h (by simp)
        · exact absurd h (by simp)
        · exact ⟨_, mineFinalize_header md block _ _ b (Option.some.inj h)⟩

theorem mineBuildNoState_not_ok (d : Deps) (m : MinorBlockChain) (fuel : Nat)
    (pending : Outcome (List Transaction)) (prevHeader : MinorBlock) (b : MinedBlock) :
    mineBuildNoState d m fuel pending prevHeader ≠ some (.ok b) := by
  intro h
  unfold mineBuildNoState at h
  split at h
  · exact absurd h (by simp)
  · dsimp only at h
    split at h
    · exact absurd h (by simp)
    · exact absurd h (by simp)
    · exact absurd h (by simp)
    · split at h
      · exact absurd h (by simp)
      · exact absurd h (by simp)
      · exact absurd h (by simp)
      · split at h
        · split at h <;> exact absurd h (by simp)
        · split at h <;> exact absurd h (by simp)

/-- The header of a block that `CreateBlockToMine` returns: the candidate on the head
with the creation time of `mineCreateTime` and the gas limit of `mineNewGasLimit`. -/
theorem createBlockToMine_header (d : Deps) (td : TxDeps) (md : MineDeps) (m : MinorBlockChain)
    (st : MinorBlockStore) (cache : CoinBaseAddrCache) (fuel now : Nat)
    (pending : Outcome (List Transaction)) (createTime : Option Nat)
    (address : Option Address) (gasLimit : Option Int) (b : MinedBlock)
    (h : CreateBlockToMine d td md m st cache fuel now pending createTime address gasLimit
      = some (.ok b)) :
    b.Header.Time = mineCreateTime now st.CurrentBlock.Header.Time createTime ∧
      b.Header.ParentHash = st.CurrentBlock.Header.Hash ∧
      b.Header.Number = st.CurrentBlock.Header.Number + 1 ∧
      ∃ n, mineNewGasLimit m st.CurrentBlock = .ok n ∧ b.Header.GasLimit = (n : Int) := by
  unfold CreateBlockToMine at h
  dsimp only at h
  split at h
  · exact absurd h (by simp)
  · exact absurd h (by simp)
  · split at h
    · exact absurd h (by simp)
    · exact absurd h (by simp)
    · rename_i newGasLimit hgas
      split at h
      · exact absurd h (by simp)
      · exact absurd h (by simp)
      · exact absurd h (mineBuildNoState_not_ok _ _ _ _ _ _)
      · obtain ⟨r, hr⟩ := mineBuild_header _ _ _ _ _ _ _ _ _ _ h
        rw [hr]
        exact ⟨rfl, rfl, rfl, newGasLimit, hgas, rfl⟩

theorem exampleMineDeps_amount (m : MinorBlockChain) :
    getCoinBaseAmount stdDeps exampleMineDeps m
      = .ok (stdDeps.BigIntMulBigRat m.shardConfig.CoinbaseAmount (1 / 2)) := by
  have hrate : getLocalFeeRate (some exampleMineDeps.Quarkchain) = .ok (1 / 2) :=
    exampleState_rate
  unfold getCoinBaseAmount
  rw [hrate]

/-- C21, the failing input: in `exampleChain` the gas-limit floor of the shard is 0, below
the minimum 5000, and `computerGasLimit` fails for the head of `exampleMineStore`;
`CreateBlockToMine` returns a block all the same, the empty block of height 4 with
the gas limit 0. -/
theorem createBlockToMine_drops_gas_limit_error :
    (exampleChain []).shardConfig.GenesisGasLimit < (exampleChain []).shardConfig.GasLimitMinimum ∧
      computerGasLimit (exampleChain []).shardConfig
        (bigUint64 exampleMineStore.CurrentBlock.Header.GasLimit)
        (bigUint64 exampleMineStore.CurrentBlock.GasUsed)
        (exampleChain []).shardConfig.GenesisGasLimit = .error "gas limit floor is too low" ∧
      ∃ b, CreateBlockToMine stdDeps exampleTxDeps exampleMineDeps (exampleChain [])
          exampleMineStore [] 5 200 (.ok []) none none none = some (.ok b) ∧
        b.Header.Number = 4 ∧ b.Header.GasLimit = 0 ∧ b.Transactions = [] := by
  refine ⟨by decide, rfl, ?_⟩
  have hfee := exampleMineDeps_amount (exampleChain [])
  have hrun : ∃ block built,
      CreateBlockToMine stdDeps exampleTxDeps exampleMineDeps (exampleChain [])
          exampleMineStore [] 5 200 (.ok []) none none none
        = some (mineFinalize exampleMineDeps block built
            (getCoinBaseAmount stdDeps exampleMineDeps (exampleChain []))) ∧
      block.Header.Number = 4 ∧ block.Header.GasLimit = 0 ∧ built.Transactions = [] :=
    ⟨_, _, rfl, rfl, rfl, rfl⟩
  obtain ⟨block, built, hrun, h1, h2, h3⟩ := hrun
  rw [hfee] at hrun
  exact ⟨_, hrun, h1, h2, h3⟩

/-- With the example engine, which refuses only the times below the timestamp of the
head: the head of `exampleMineStore` has the timestamp 100, and with the creation time
100 supplied by the caller `CreateBlockToMine` returns a block with the timestamp 100,
which is below 101. -/
theorem createBlockToMine_supplied_time_example :
    exampleMineStore.CurrentBlock.Header.Time = 100 ∧
      ∃ b, CreateBlockToMine stdDeps exampleTxDeps exampleMineDeps exampleMineChain
          exampleMineStore [] 5 200 (.ok []) (some 100) none none = some (.ok b) ∧
        b.Header.Time = 100 ∧
        ¬ (exampleMineStore.CurrentBlock.Header.Time + 1 ≤ b.Header.Time) := by
  refine ⟨rfl, ?_⟩
  have hfee := exampleMineDeps_amount exampleMineChain
  have hrun : ∃ block built,
      CreateBlockToMine stdDeps exampleTxDeps exampleMineDeps exampleMineChain
          exampleMineStore [] 5 200 (.ok []) (some 100) none none
        = some (mineFinalize exampleMineDeps block built
            (getCoinBaseAmount stdDeps exampleMineDeps exampleMineChain)) ∧
      block.Header.Time = 100 :=
    ⟨_, _, rfl, rfl⟩
  obtain ⟨block, built, hrun, h1⟩ := hrun
  rw [hfee] at hrun
  refine ⟨_, hrun, h1, ?_⟩
  show ¬ (100 + 1 ≤ block.Header.Time)
  rw [h1]
  decide

/-- The timestamp of a block that `CreateBlockToMine` returns, whatever the difficulty
engine is: the supplied creation time when one is supplied, and otherwise the larger
of the clock and the timestamp of the head plus one (a `uint64` sum), which is at least
the timestamp of the head plus one when that sum does not wrap. -/
theorem createBlockToMine_time (d : Deps) (td : TxDeps) (md : MineDeps) (m : MinorBlockChain)
    (st : MinorBlockStore) (cache : CoinBaseAddrCache) (fuel now : Nat)
    (pending : Outcome (List Transaction)) (createTime : Option Nat)
    (address : Option Address) (gasLimit : Option Int) (b : MinedBlock)
    (h : CreateBlockToMine d td md m st cache fuel now pending createTime address gasLimit
      = some (.ok b)) :
    (∀ t, createTime = some t → b.Header.Time = t) ∧
      (createTime = none →
        b.Header.Time = max now ((st.CurrentBlock.Header.Time + 1) % 2 ^ 64)) ∧
      (createTime = none → st.CurrentBlock.Header.Time + 1 < 2 ^ 64 →
        st.CurrentBlock.Header.Time + 1 ≤ b.Header.Time) := by
  obtain ⟨ht, -, -, -⟩ :=
    createBlockToMine_header d td md m st cache fuel now pending createTime address gasLimit b h
  have hclock : createTime = none →
      b.Header.Time = max now ((st.CurrentBlock.Header.Time + 1) % 2 ^ 64) := by
    intro hc
    rw [ht, hc]
    unfold mineCreateTime
    dsimp only
    generalize (st.CurrentBlock.Header.Time + 1) % 2 ^ 64 = x
    split_ifs with hlt
    · exact (max_eq_right (Nat.le_of_lt hlt)).symm
    · exact (max_eq_left (Nat.le_of_not_lt hlt)).symm
  refine ⟨?_, hclock, ?_⟩
  · intro t hc
    rw [ht, hc]
    rfl
  · intro hc hsmall
    rw [hclock hc, Nat.mod_eq_of_lt hsmall]
    exact le_max_right _ _

/-- With the example engine, no creation time supplied and the clock at 50, behind the
timestamp 100 of the head, `CreateBlockToMine` returns a block with the timestamp
101. -/
theorem createBlockToMine_time_example :
    ∃ b, CreateBlockToMine stdDeps exampleTxDeps exampleMineDeps exampleMineChain
        exampleMineStore [] 5 50 (.ok []) none none none = some (.ok b) ∧
      b.Header.Time = 101 ∧
      exampleMineStore.CurrentBlock.Header.Time + 1 ≤ b.Header.Time := by
  have hfee := exampleMineDeps_amount exampleMineChain
  have hrun : ∃ block built,
      CreateBlockToMine stdDeps exampleTxDeps exampleMineDeps exampleMineChain
          exampleMineStore [] 5 50 (.ok []) none none none
        = some (mineFinalize exampleMineDeps block built
            (getCoinBaseAmount stdDeps exampleMineDeps exampleMineChain)) :=
    ⟨_, _, rfl⟩
  obtain ⟨block, built, hrun⟩ := hrun
  rw [hfee] at hrun
  obtain ⟨-, h2, h3⟩ := createBlockToMine_time stdDeps exampleTxDeps exampleMineDeps
    exampleMineChain exampleMineStore [] 5 50 (.ok []) none none none _ hrun
  exact ⟨_, hrun, h2 rfl, h3 rfl (by decide)⟩

/-! ## Theorems: the gas checks of `runCrossShardTxList` -/

theorem getCrossShardTxListLoop_error (d : Deps) (m : MinorBlockChain)
    (hs : List MinorBlockHeader) :
    ∀ (txList : List CrossShardTransactionDeposit) (e : String),
      getCrossShardTxListLoop d m hs txList = .error e →
      e = "not get pre root header" ∨ e = "get xShard tx list err" := by
  induction hs with
  | nil => intro txList e h; simp [getCrossShardTxListLoop] at h
  | cons mHeader rest ih =>
    intro txList e h
    rw [getCrossShardTxListLoop] at h
    split_ifs at h with h1
    · exact ih _ _ h
    · split at h
      · left
        cases h
        rfl
      · split_ifs at h with h2 h3
        · exact ih _ _ h
        · dsimp only at h
          split at h
          · right
            cases h
            rfl
          · exact ih _ _ h
        · dsimp only at h
          split at h
          · cases h
          · exact ih _ _ h

theorem some_error_ne {α : Type} (a b : String) (h : a ≠ b) :
    (some (Outcome.error a) : Option (Outcome α)) ≠ some (.error b) := by
  intro he
  injection he with h1
  injection h1 with h2
  exact h h2

theorem getLocalFeeRate_ne_error (c : Option QuarkChainConfig) (e : String) :
    getLocalFeeRate c ≠ .error e := by
  cases c with
  | none => intro h; cases h
  | some c =>
    intro h
    unfold getLocalFeeRate at h
    dsimp only at h
    split_ifs at h

theorem runOne_error (d : Deps) (m : MinorBlockChain) (hash : CommonHash) (st : EvmState)
    (e : String) (h : runOneCrossShardTxListByRootBlockHash d m hash st = .error e) :
    e = "root block is nil" ∨ e = "not get pre root header" ∨ e = "get xShard tx list err" := by
  unfold runOneCrossShardTxListByRootBlockHash at h
  cases hl : getCrossShardTxListByRootBlockHash d m hash with
  | fault => rw [hl] at h; cases h
  | ok txList =>
    rw [hl] at h
    cases hr : getLocalFeeRate st.quarkChainConfig with
    | error e1 => exact absurd hr (getLocalFeeRate_ne_error _ _)
    | fault => rw [hr] at h; cases h
    | ok rate => rw [hr] at h; cases h
  | error e1 =>
    rw [hl] at h
    cases h
    unfold getCrossShardTxListByRootBlockHash at hl
    split at hl
    · left
      cases hl
      rfl
    · cases hloop : getCrossShardTxListLoop d m _ [] with
      | error e2 =>
        rw [hloop] at hl
        cases hl
        exact Or.inr (getCrossShardTxListLoop_error d m _ _ _ hloop)
      | fault => rw [hloop] at hl; cases hl
      | ok l =>
        rw [hloop] at hl
        dsimp only at hl
        split_ifs at hl

theorem runCrossShardTxListLoop_gas_errors (d : Deps) (m : MinorBlockChain)
    (anc : RootBlockHeader) (fuel : Nat) :
    ∀ (st : EvmState) (rHeader : RootBlockHeader) (txList : List CrossShardTransactionDeposit),
      st.gasUsed ≤ st.gasLimit →
      runCrossShardTxListLoop d m anc fuel st rHeader txList
          ≠ some (.error "gas consumed by cross-shard tx exceeding limit") ∧
        runCrossShardTxListLoop d m anc fuel st rHeader txList
          ≠ some (.error "runCrossShardTxList err:gasUsed > GasLimit") := by
  induction fuel with
  | zero =>
    intro st rHeader txList _
    simp [runCrossShardTxListLoop]
  | succ f ih =>
    intro st rHeader txList hgas
    have hng : ¬ st.gasUsed > st.gasLimit := not_lt.mpr hgas
    rw [runCrossShardTxListLoop]
    split_ifs with h1 h2
    · exact ⟨by simp, by simp⟩
    · exact ⟨some_error_ne _ _ (by decide), some_error_ne _ _ (by decide)⟩
    · cases hone : runOneCrossShardTxListByRootBlockHash d m rHeader.Hash st with
      | error e =>
        dsimp only
        rcases runOne_error d m rHeader.Hash st e hone with he | he | he <;> subst he <;>
          exact ⟨some_error_ne _ _ (by decide), some_error_ne _ _ (by decide)⟩
      | fault => exact ⟨by simp, by simp⟩
      | ok r =>
        obtain ⟨l, s⟩ := r
        dsimp only
        cases hp : m.getRootBlockHeaderByHash rHeader.ParentHash with
        | none => exact ⟨some_error_ne _ _ (by decide), some_error_ne _ _ (by decide)⟩
        | some parent =>
          dsimp only
          obtain ⟨_, g2, _, _⟩ := runOne_gas d m rHeader.Hash st s l hone
          exact ih s parent (txList ++ l) (g2 hgas)

/-- C33: on a state whose gas used is at most the gas limit `runCrossShardTxList`
returns neither of its two errors on gas used above the gas limit, whatever the root
headers, the deposits and the bound on the loop tests are. -/
theorem runCrossShardTxList_gas_checks_unreachable (d : Deps) (m : MinorBlockChain)
    (fuel : Nat) (st : EvmState) (desc anc : RootBlockHeader)
    (hgas : st.gasUsed ≤ st.gasLimit) :
    runCrossShardTxList d m fuel st desc anc
        ≠ some (.error "gas consumed by cross-shard tx exceeding limit") ∧
      runCrossShardTxList d m fuel st desc anc
        ≠ some (.error "runCrossShardTxList err:gasUsed > GasLimit") :=
  runCrossShardTxListLoop_gas_errors d m anc fuel st desc [] hgas

/-- C33, witness: settling the root block 10 of the example chain, which holds a
deposit of gas price 1, on the example state (gas used 0, gas limit 1,000,000). -/
theorem runCrossShardTxList_gas_checks_unreachable_witness :
    exampleState.gasUsed ≤ exampleState.gasLimit ∧
      runCrossShardTxList stdDeps (exampleChain [exampleDeposit 100 1]) 2 exampleState
          ⟨10, 9, 6, ⟨99, 2⟩, 0⟩ ⟨9, 8, 5, ⟨99, 2⟩, 0⟩
        ≠ some (.error "gas consumed by cross-shard tx exceeding limit") ∧
      runCrossShardTxList stdDeps (exampleChain [exampleDeposit 100 1]) 2 exampleState
          ⟨10, 9, 6, ⟨99, 2⟩, 0⟩ ⟨9, 8, 5, ⟨99, 2⟩, 0⟩
        ≠ some (.error "runCrossShardTxList err:gasUsed > GasLimit") :=
  ⟨by decide,
    runCrossShardTxList_gas_checks_unreachable stdDeps (exampleChain [exampleDeposit 100 1]) 2
      exampleState ⟨10, 9, 6, ⟨99, 2⟩, 0⟩ ⟨9, 8, 5, ⟨99, 2⟩, 0⟩ (by decide)⟩

/-! ## Theorems: queries at a height -/

/-- C34, on the code: without a height `GetBalance`, `GetCode` and `GetStorageAt`
panic (they read through the nil pointer before testing it), for every store and
account, while `GetTransactionCount` answers for the height of the head; on the
example store it returns the nonce 10 of the account 103 at the head, whose balance
`GetBalance` returns when the height 3 of the head is given. -/
theorem query_nil_height_faults :
    (∀ (st : MinorBlockStore) (q : StateQueries) (recipient : Recipient) (key : CommonHash),
      GetBalance st recipient none = .fault ∧
        GetCode st q recipient none = .fault ∧
        GetStorageAt st q recipient key none = .fault ∧
        GetTransactionCount st q recipient none
          = GetTransactionCount st q recipient (some st.CurrentBlock.Header.Number)) ∧
      exampleLineStore.CurrentBlock.Header.Number = 3 ∧
      GetTransactionCount exampleLineStore exampleQueries 103 none = .ok 10 ∧
      GetBalance exampleLineStore 103 (some 3) = .ok 10 ∧
      GetBalance exampleLineStore 103 none = .fault :=
  ⟨fun _ _ _ _ => ⟨rfl, rfl, rfl, rfl⟩, rfl, rfl, rfl, rfl⟩

/-! ## Theorems: the two settlement routines -/

theorem applyDepositRu_agrees (d : Deps) (rate : Rat) (s s' : EvmState)
    (tx : CrossShardTransactionDeposit)
    (h1 : s'.gasUsed = s.gasUsed) (h2 : s'.gasLimit = s.gasLimit)
    (h3 : s'.blockFee = s.blockFee) (h4 : s'.blockCoinBase = s.blockCoinBase)
    (h5 : s'.quarkChainConfig = s.quarkChainConfig)
    (h6 : s'.xShardReceiveGasUsed = s.xShardReceiveGasUsed)
    (h7 : ∀ a, a ≠ s.blockCoinBase → s'.balances a = s.balances a) :
    (applyDepositRu d rate s' tx).gasUsed = (applyDeposit d rate s tx).gasUsed ∧
      (applyDepositRu d rate s' tx).gasLimit = (applyDeposit d rate s tx).gasLimit ∧
      (applyDepositRu d rate s' tx).blockFee = (applyDeposit d rate s tx).blockFee ∧
      (applyDepositRu d rate s' tx).blockCoinBase = (applyDeposit d rate s tx).blockCoinBase ∧
      (applyDepositRu d rate s' tx).quarkChainConfig
        = (applyDeposit d rate s tx).quarkChainConfig ∧
      (applyDepositRu d rate s' tx).xShardReceiveGasUsed
        = (applyDeposit d rate s tx).xShardReceiveGasUsed ∧
      (applyDeposit d rate s tx).blockCoinBase = s.blockCoinBase ∧
      (∀ a, a ≠ s.blockCoinBase →
        (applyDepositRu d rate s' tx).balances a = (applyDeposit d rate s tx).balances a) := by
  refine ⟨?_, ?_, ?_, ?_, ?_, ?_, ?_, ?_⟩
  · simp only [applyDepositRu, applyDeposit, minBigInt, EvmState.AddBalance,
      EvmState.SetGasUsed, EvmState.AddBlockFee, h1, h2]
    split_ifs <;> omega
  · simp only [applyDepositRu, applyDeposit, EvmState.AddBalance, EvmState.SetGasUsed,
      EvmState.AddBlockFee, h2]
  · simp only [applyDepositRu, applyDeposit, EvmState.AddBalance, EvmState.SetGasUsed,
      EvmState.AddBlockFee, h3]
  · simp only [applyDepositRu, applyDeposit, EvmState.AddBalance, EvmState.SetGasUsed,
      EvmState.AddBlockFee, h4]
  · simp only [applyDepositRu, applyDeposit, EvmState.AddBalance, EvmState.SetGasUsed,
      EvmState.AddBlockFee, h5]
  · simp only [applyDepositRu, applyDeposit, EvmState.AddBalance, EvmState.SetGasUsed,
      EvmState.AddBlockFee, h6]
  · simp only [applyDeposit, EvmState.AddBalance, EvmState.SetGasUsed, EvmState.AddBlockFee]
  · intro a ha
    have ha' : a ≠ s'.blockCoinBase := by rw [h4]; exact ha
    simp only [applyDepositRu, applyDeposit, EvmState.AddBalance, EvmState.SetGasUsed,
      EvmState.AddBlockFee, if_neg ha, if_neg ha', h7 a ha]

theorem foldl_applyDepositRu_agrees (d : Deps) (rate : Rat)
    (l : List CrossShardTransactionDeposit) :
    ∀ (s s' : EvmState), s'.gasUsed = s.gasUsed → s'.gasLimit = s.gasLimit →
      s'.blockFee = s.blockFee → s'.blockCoinBase = s.blockCoinBase →
      s'.quarkChainConfig = s.quarkChainConfig →
      s'.xShardReceiveGasUsed = s.xShardReceiveGasUsed →
      (∀ a, a ≠ s.blockCoinBase → s'.balances a = s.balances a) →
      (l.foldl (applyDepositRu d rate) s').gasUsed = (l.foldl (applyDeposit d rate) s).gasUsed ∧
        (l.foldl (applyDepositRu d rate) s').gasLimit
          = (l.foldl (applyDeposit d rate) s).gasLimit ∧
        (l.foldl (applyDepositRu d rate) s').blockFee
          = (l.foldl (applyDeposit d rate) s).blockFee ∧
        (l.foldl (applyDepositRu d rate) s').blockCoinBase
          = (l.foldl (applyDeposit d rate) s).blockCoinBase ∧
        (l.foldl (applyDepositRu d rate) s').quarkChainConfig
          = (l.foldl (applyDeposit d rate) s).quarkChainConfig ∧
        (∀ a, a ≠ s.blockCoinBase →
          (l.foldl (applyDepositRu d rate) s').balances a
            = (l.foldl (applyDeposit d rate) s).balances a) := by
  induction l with
  | nil =>
    intro s s' h1 h2 h3 h4 h5 _ h7
    exact ⟨h1, h2, h3, h4, h5, h7⟩
  | cons tx rest ih =>
    intro s s' h1 h2 h3 h4 h5 h6 h7
    obtain ⟨g1, g2, g3, g4, g5, g6, g7, g8⟩ :=
      applyDepositRu_agrees d rate s s' tx h1 h2 h3 h4 h5 h6 h7
    simp only [List.foldl_cons]
    have := ih (applyDeposit d rate s tx) (applyDepositRu d rate s' tx) g1 g2 g3 g4 g5 g6
      (fun a ha => g8 a (by rw [← g7]; exact ha))
    rw [g7] at this
    exact this

theorem bigUint64_of_range (x : Int) (h0 : 0 ≤ x) (h1 : x < 2 ^ 64) :
    ((bigUint64 x : Nat) : Int) = x := by
  unfold bigUint64
  omega

theorem applyDepositRu_eq (d : Deps) (rate : Rat) (s : EvmState)
    (tx : CrossShardTransactionDeposit)
    (h0 : 0 ≤ depositFee d rate tx) (h1 : depositFee d rate tx < 2 ^ 64) :
    applyDepositRu d rate s tx = applyDeposit d rate s tx := by
  have hfee := bigUint64_of_range _ h0 h1
  unfold depositFee at hfee
  simp only [applyDepositRu, applyDeposit, minBigInt, EvmState.AddBalance, EvmState.SetGasUsed,
    EvmState.AddBlockFee, hfee]
  congr 1
  split_ifs <;> omega

theorem foldl_applyDepositRu_eq (d : Deps) (rate : Rat)
    (l : List CrossShardTransactionDeposit)
    (h : ∀ tx ∈ l, 0 ≤ depositFee d rate tx ∧ depositFee d rate tx < 2 ^ 64) :
    ∀ s : EvmState, l.foldl (applyDepositRu d rate) s = l.foldl (applyDeposit d rate) s := by
  induction l with
  | nil => intro s; rfl
  | cons tx rest ih =>
    intro s
    obtain ⟨h0, h1⟩ := h tx (List.mem_cons_self _ _)
    simp only [List.foldl_cons, applyDepositRu_eq d rate s tx h0 h1]
    exact ih (fun t ht => h t (List.mem_cons_of_mem _ ht)) _

theorem ruOne_of_list_and_rate (d : Deps) (m : MinorBlockChain) (hash : CommonHash)
    (st : EvmState) (txList : List CrossShardTransactionDeposit) (rate : Rat)
    (hlist : getCrossShardTxListByRootBlockHash d m hash = .ok txList)
    (hrate : getLocalFeeRate st.quarkChainConfig = .ok rate) :
    ruOneCrossShardTxListByRootBlockHash d m hash st =
      .ok (txList, (txList.foldl (applyDepositRu d rate) st).SetXShardReceiveGasUsed
        (txList.foldl (applyDepositRu d rate) st).gasUsed) := by
  simp [ruOneCrossShardTxListByRootBlockHash, hlist, hrate]

theorem exampleStateHighTax_rate :
    getLocalFeeRate exampleStateHighTax.quarkChainConfig = .ok (-1 / 2) := by
  have h := getLocalFeeRate_of_small ⟨3 / 2⟩ (by norm_num) (by norm_num) (by norm_num)
  have h2 : (1 : Rat) - 3 / 2 = -1 / 2 := by norm_num
  rw [h2] at h
  exact h

theorem neg_half_num : ((-1 : Rat) / 2).num = -1 := by norm_num

theorem neg_half_den : ((-1 : Rat) / 2).den = 2 := by norm_num

/-- C32, counterexample: with the reward tax rate 3/2 the local fee rate is −1/2 and the
fee of a deposit of gas price 2 is −9000, below `2 ^ 64`; `runOneCrossShardTxListByRootBlockHash`
credits the coinbase 50 with the low 64 bits of the magnitude, 9000, and
`ruOneCrossShardTxListByRootBlockHash` with the fee −9000. -/
theorem ruOne_runOne_negative_fee_counterexample :
    getLocalFeeRate exampleStateHighTax.quarkChainConfig = .ok (-1 / 2) ∧
      depositFee stdDeps (-1 / 2) (exampleDeposit 100 2) = -9000 ∧
      ∃ s s', runOneCrossShardTxListByRootBlockHash stdDeps
            (exampleChain [exampleDeposit 100 2]) 10 exampleStateHighTax
          = .ok ([exampleDeposit 100 2], s) ∧
        ruOneCrossShardTxListByRootBlockHash stdDeps
            (exampleChain [exampleDeposit 100 2]) 10 exampleStateHighTax
          = .ok ([exampleDeposit 100 2], s') ∧
        s.balances exampleStateHighTax.blockCoinBase = 9000 ∧
        s'.balances exampleStateHighTax.blockCoinBase = -9000 := by
  have hfee : bigIntMulBigRat (9000 * 2) (-1 / 2) = -9000 := by
    simp only [bigIntMulBigRat, neg_half_num, neg_half_den]
    norm_num
  refine ⟨exampleStateHighTax_rate, hfee, ?_⟩
  rw [runOne_of_list_and_rate stdDeps (exampleChain [exampleDeposit 100 2]) 10
      exampleStateHighTax [exampleDeposit 100 2] (-1 / 2) rfl exampleStateHighTax_rate,
    ruOne_of_list_and_rate stdDeps (exampleChain [exampleDeposit 100 2]) 10
      exampleStateHighTax [exampleDeposit 100 2] (-1 / 2) rfl exampleStateHighTax_rate]
  refine ⟨_, _, rfl, rfl, ?_, ?_⟩
  · simp only [List.foldl, applyDeposit, EvmState.AddBalance, EvmState.SetGasUsed,
      EvmState.AddBlockFee, EvmState.SetXShardReceiveGasUsed, exampleStateHighTax, exampleState,
      exampleDeposit, stdDeps, hfee]
    decide
  · simp only [List.foldl, applyDepositRu, EvmState.AddBalance, EvmState.SetGasUsed,
      EvmState.AddBlockFee, EvmState.SetXShardReceiveGasUsed, exampleStateHighTax, exampleState,
      exampleDeposit, stdDeps, hfee]
    decide

/-- C32 (amended): the two settlement routines fail alike, and when they succeed they
return the same list and leave the same gas used, cross-shard gas used, block fee and
balance of every account other than the coinbase of the block; when the fee of every
deposit of the list is at least 0 and below `2 ^ 64` they leave the same state. For the
deposit of gas price `2 ^ 64 + 1` at the fee rate 1/2, whose fee is
`4500 × 2 ^ 64 + 4500`, the coinbase balances differ: 4500 after
`runOneCrossShardTxListByRootBlockHash`, the fee after `ruOneCrossShardTxListByRootBlockHash`. -/
theorem ruOne_agrees_with_runOne (d : Deps) (m : MinorBlockChain) (hash : CommonHash)
    (st : EvmState) :
    (∀ e, runOneCrossShardTxListByRootBlockHash d m hash st = .error e →
      ruOneCrossShardTxListByRootBlockHash d m hash st = .error e) ∧
    (runOneCrossShardTxListByRootBlockHash d m hash st = .fault →
      ruOneCrossShardTxListByRootBlockHash d m hash st = .fault) ∧
    (∀ l s, runOneCrossShardTxListByRootBlockHash d m hash st = .ok (l, s) →
      ∃ s', ruOneCrossShardTxListByRootBlockHash d m hash st = .ok (l, s') ∧
        s'.gasUsed = s.gasUsed ∧ s'.xShardReceiveGasUsed = s.xShardReceiveGasUsed ∧
        s'.blockFee = s.blockFee ∧
        (∀ a, a ≠ st.blockCoinBase → s'.balances a = s.balances a) ∧
        ((∀ rate, getLocalFeeRate st.quarkChainConfig = .ok rate →
            ∀ tx ∈ l, 0 ≤ depositFee d rate tx ∧ depositFee d rate tx < 2 ^ 64) →
          s' = s)) ∧
    (2 ^ 64 ≤ depositFee stdDeps (1 / 2) (exampleDeposit 100 (2 ^ 64 + 1)) ∧
      ∃ s s', runOneCrossShardTxListByRootBlockHash stdDeps
            (exampleChain [exampleDeposit 100 (2 ^ 64 + 1)]) 10 exampleState
          = .ok ([exampleDeposit 100 (2 ^ 64 + 1)], s) ∧
        ruOneCrossShardTxListByRootBlockHash stdDeps
            (exampleChain [exampleDeposit 100 (2 ^ 64 + 1)]) 10 exampleState
          = .ok ([exampleDeposit 100 (2 ^ 64 + 1)], s') ∧
        s.balances exampleState.blockCoinBase = 4500 ∧
        s'.balances exampleState.blockCoinBase = 4500 * 2 ^ 64 + 4500) := by
  refine ⟨?_, ?_, ?_, ?_⟩
  · intro e h
    unfold runOneCrossShardTxListByRootBlockHash at h
    unfold ruOneCrossShardTxListByRootBlockHash
    cases hl : getCrossShardTxListByRootBlockHash d m hash with
    | error e1 => rw [hl] at h; exact h
    | fault => rw [hl] at h; cases h
    | ok txList =>
      rw [hl] at h
      cases hr : getLocalFeeRate st.quarkChainConfig with
      | error e1 => rw [hr] at h; exact h
      | fault => rw [hr] at h; cases h
      | ok rate => rw [hr] at h; cases h
  · intro h
    unfold runOneCrossShardTxListByRootBlockHash at h
    unfold ruOneCrossShardTxListByRootBlockHash
    cases hl : getCrossShardTxListByRootBlockHash d m hash with
    | error e1 => rw [hl] at h; cases h
    | fault => rfl
    | ok txList =>
      rw [hl] at h
      cases hr : getLocalFeeRate st.quarkChainConfig with
      | error e1 => rw [hr] at h; cases h
      | fault => rfl
      | ok rate => rw [hr] at h; cases h
  · intro l s h
    obtain ⟨rate, hl, hr, hs⟩ := runOne_ok_inv d m hash st s l h
    obtain ⟨g1, _, g3, _, _, g6⟩ :=
      foldl_applyDepositRu_agrees d rate l st st rfl rfl rfl rfl rfl rfl (fun _ _ => rfl)
    refine ⟨_, ruOne_of_list_and_rate d m hash st l rate hl hr, ?_, ?_, ?_, ?_, ?_⟩
    · rw [hs]
      exact g1
    · rw [hs]
      exact g1
    · rw [hs]
      exact g3
    · intro a ha
      rw [hs]
      exact g6 a ha
    · intro hfee
      rw [hs, foldl_applyDepositRu_eq d rate l (hfee rate hr) st]
  · have hfee : bigIntMulBigRat (9000 * (2 ^ 64 + 1)) (1 / 2) = 4500 * 2 ^ 64 + 4500 := by
      simp only [bigIntMulBigRat, half_num, half_den]
      norm_num
    refine ⟨?_, ?_⟩
    · show (2 : Int) ^ 64 ≤ bigIntMulBigRat (9000 * (2 ^ 64 + 1)) (1 / 2)
      rw [hfee]
      norm_num
    · rw [runOne_of_list_and_rate stdDeps (exampleChain [exampleDeposit 100 (2 ^ 64 + 1)]) 10
          exampleState [exampleDeposit 100 (2 ^ 64 + 1)] (1 / 2) rfl exampleState_rate,
        ruOne_of_list_and_rate stdDeps (exampleChain [exampleDeposit 100 (2 ^ 64 + 1)]) 10
          exampleState [exampleDeposit 100 (2 ^ 64 + 1)] (1 / 2) rfl exampleState_rate]
      refine ⟨_, _, rfl, rfl, ?_, ?_⟩
      · simp only [List.foldl, applyDeposit, EvmState.AddBalance, EvmState.SetGasUsed,
          EvmState.AddBlockFee, EvmState.SetXShardReceiveGasUsed, exampleState, exampleDeposit,
          stdDeps, hfee]
        decide
      · simp only [List.foldl, applyDepositRu, EvmState.AddBalance, EvmState.SetGasUsed,
          EvmState.AddBlockFee, EvmState.SetXShardReceiveGasUsed, exampleState, exampleDeposit,
          stdDeps, hfee]
        decide

/-- C32, witness: for the deposit of gas price 2 at the fee rate 1/2 the fee is 9000, and
the two routines return the same list and leave the same state. -/
theorem ruOne_agrees_with_runOne_witness :
    ∃ s, runOneCrossShardTxListByRootBlockHash stdDeps
          (exampleChain [exampleDeposit 100 2]) 10 exampleState
        = .ok ([exampleDeposit 100 2], s) ∧
      ruOneCrossShardTxListByRootBlockHash stdDeps
          (exampleChain [exampleDeposit 100 2]) 10 exampleState
        = .ok ([exampleDeposit 100 2], s) := by
  have h1 := runOne_of_list_and_rate stdDeps (exampleChain [exampleDeposit 100 2]) 10
    exampleState [exampleDeposit 100 2] (1 / 2) rfl exampleState_rate
  obtain ⟨s', h2, -, -, -, -, h3⟩ :=
    (ruOne_agrees_with_runOne stdDeps (exampleChain [exampleDeposit 100 2]) 10
      exampleState).2.2.1 _ _ h1
  have hfee : bigIntMulBigRat (9000 * 2) (1 / 2) = 9000 := by
    simp only [bigIntMulBigRat, half_num, half_den]
    norm_num
  have hs : s' = _ := h3 (fun rate hr tx htx => by
    rw [List.mem_singleton] at htx
    subst htx
    rw [exampleState_rate] at hr
    cases hr
    show 0 ≤ bigIntMulBigRat (9000 * 2) (1 / 2) ∧ bigIntMulBigRat (9000 * 2) (1 / 2) < 2 ^ 64
    rw [hfee]
    exact ⟨by decide, by decide⟩)
  rw [hs] at h2
  exact ⟨_, h1, h2⟩

/-! ## Theorems: the order of settlement -/

theorem applyDeposit_obs (d : Deps) (rate : Rat) (st : EvmState)
    (tx : CrossShardTransactionDeposit) :
    (applyDeposit d rate st tx).blockCoinBase = st.blockCoinBase ∧
      (applyDeposit d rate st tx).xShardReceiveGasUsed = st.xShardReceiveGasUsed ∧
      (applyDeposit d rate st tx).blockFee = st.blockFee + depositFee d rate tx ∧
      (∀ a, (applyDeposit d rate st tx).balances a
        = st.balances a + depositCredit d rate st.blockCoinBase a tx) ∧
      (applyDeposit d rate st tx).gasUsed
        = min st.gasLimit (st.gasUsed + depositGas d tx) := by
  refine ⟨rfl, rfl, rfl, ?_, ?_⟩
  · intro a
    simp only [applyDeposit, depositCredit, depositFee, EvmState.AddBalance,
      EvmState.SetGasUsed, EvmState.AddBlockFee]
    split_ifs <;> omega
  · simp only [applyDeposit, depositGas, EvmState.AddBalance, EvmState.SetGasUsed,
      EvmState.AddBlockFee]
    split_ifs <;> omega

theorem depositGas_sum_sign (d : Deps) (l : List CrossShardTransactionDeposit) :
    (0 ≤ d.GtxxShardCost → 0 ≤ (l.map (depositGas d)).sum) ∧
      (d.GtxxShardCost ≤ 0 → (l.map (depositGas d)).sum ≤ 0) := by
  induction l with
  | nil => exact ⟨fun _ => le_refl _, fun _ => le_refl _⟩
  | cons tx rest ih =>
    simp only [List.map_cons, List.sum_cons]
    have h1 : (0 ≤ d.GtxxShardCost → 0 ≤ depositGas d tx) ∧
        (d.GtxxShardCost ≤ 0 → depositGas d tx ≤ 0) := by
      unfold depositGas
      split_ifs
      · exact ⟨fun h => h, fun h => h⟩
      · exact ⟨fun _ => le_refl _, fun _ => le_refl _⟩
    exact ⟨fun h => add_nonneg (h1.1 h) (ih.1 h), fun h => add_nonpos (h1.2 h) (ih.2 h)⟩

theorem foldl_applyDeposit_obs (d : Deps) (rate : Rat)
    (l : List CrossShardTransactionDeposit) :
    ∀ st : EvmState, st.gasUsed ≤ st.gasLimit →
      (l.foldl (applyDeposit d rate) st).blockCoinBase = st.blockCoinBase ∧
      (l.foldl (applyDeposit d rate) st).xShardReceiveGasUsed = st.xShardReceiveGasUsed ∧
      (l.foldl (applyDeposit d rate) st).blockFee
        = st.blockFee + (l.map (depositFee d rate)).sum ∧
      (∀ a, (l.foldl (applyDeposit d rate) st).balances a
        = st.balances a + (l.map (depositCredit d rate st.blockCoinBase a)).sum) ∧
      (l.foldl (applyDeposit d rate) st).gasUsed
        = min st.gasLimit (st.gasUsed + (l.map (depositGas d)).sum) := by
  induction l with
  | nil =>
    intro st hgas
    refine ⟨rfl, rfl, ?_, ?_, ?_⟩
    · simp
    · intro a
      simp
    · simp only [List.foldl_nil, List.map_nil, List.sum_nil, add_zero]
      exact (min_eq_right hgas).symm
  | cons tx rest ih =>
    intro st hgas
    obtain ⟨a1, a2, a3, a4, a5⟩ := applyDeposit_obs d rate st tx
    obtain ⟨g1, g2, _⟩ := applyDeposit_gas d rate st tx
    obtain ⟨i1, i2, i3, i4, i5⟩ := ih (applyDeposit d rate st tx) (by rw [g1]; exact g2)
    simp only [List.foldl_cons, List.map_cons, List.sum_cons]
    refine ⟨by rw [i1, a1], by rw [i2, a2], by rw [i3, a3]; ring, ?_, ?_⟩
    · intro a
      rw [i4 a, a4 a, a1]
      ring
    · rw [i5, a5, g1]
      obtain ⟨s1, s2⟩ := depositGas_sum_sign d rest
      obtain ⟨t1, t2⟩ := depositGas_sum_sign d [tx]
      simp only [List.map_cons, List.map_nil, List.sum_cons, List.sum_nil, add_zero] at t1 t2
      generalize (rest.map (depositGas d)).sum = r at s1 s2 ⊢
      generalize depositGas d tx = c at t1 t2 ⊢
      rcases le_total 0 d.GtxxShardCost with hc | hc
      · have := s1 hc
        have := t1 hc
        omega
      · have := s2 hc
        have := t2 hc
        omega

theorem sum_map_flatten_reverse {α : Type} (g : α → Int) (L : List (List α)) :
    ((L.reverse.flatten).map g).sum = ((L.flatten).map g).sum := by
  induction L with
  | nil => rfl
  | cons x rest ih =>
    simp only [List.reverse_cons, List.flatten_append, List.flatten_cons, List.flatten_nil,
      List.append_nil, List.map_append, List.sum_append, ih]
    ring

theorem foldl_applyDeposit_setX (d : Deps) (rate : Rat)
    (l : List CrossShardTransactionDeposit) :
    ∀ (s : EvmState) (v : Int),
      l.foldl (applyDeposit d rate) (s.SetXShardReceiveGasUsed v)
        = (l.foldl (applyDeposit d rate) s).SetXShardReceiveGasUsed v := by
  induction l with
  | nil => intro s v; rfl
  | cons tx rest ih =>
    intro s v
    simp only [List.foldl_cons]
    exact ih (applyDeposit d rate s tx) v

theorem depositsOf_eq (d : Deps) (m : MinorBlockChain) (h : RootBlockHeader)
    (l : List CrossShardTransactionDeposit)
    (hl : getCrossShardTxListByRootBlockHash d m h.Hash = .ok l) : depositsOf d m h = l := by
  unfold depositsOf
  rw [hl]

theorem settleRoots_foldl (d : Deps) (m : MinorBlockChain) (rate : Rat)
    (roots : List RootBlockHeader) :
    ∀ (st : EvmState) (txs : List CrossShardTransactionDeposit) (s1 : EvmState),
      settleRoots d m roots st = .ok (txs, s1) →
      getLocalFeeRate st.quarkChainConfig = .ok rate →
      txs = (roots.map (depositsOf d m)).flatten ∧
        (∀ h ∈ roots, getCrossShardTxListByRootBlockHash d m h.Hash = .ok (depositsOf d m h)) ∧
        s1 = (txs.foldl (applyDeposit d rate) st).SetXShardReceiveGasUsed
          (if roots.isEmpty then st.xShardReceiveGasUsed
            else (txs.foldl (applyDeposit d rate) st).gasUsed) := by
  induction roots with
  | nil =>
    intro st txs s1 hs _
    simp only [settleRoots, Outcome.ok.injEq, Prod.mk.injEq] at hs
    obtain ⟨h1, h2⟩ := hs
    subst h1 h2
    exact ⟨rfl, fun h hm => absurd hm (List.not_mem_nil _), rfl⟩
  | cons h rest ih =>
    intro st txs s1 hs hr
    obtain ⟨l1, s0, l2, hone, hrest, htxs⟩ := (settleRoots_cons_eq_ok d m h rest st s1 txs).mp hs
    obtain ⟨rate1, hl, hr1, hs0⟩ := runOne_ok_inv d m h.Hash st s0 l1 hone
    rw [hr] at hr1
    cases hr1
    obtain ⟨_, _, _, hqc⟩ := runOne_gas d m h.Hash st s0 l1 hone
    obtain ⟨i1, i2, i3⟩ := ih s0 l2 s1 hrest (by rw [hqc]; exact hr)
    have hd := depositsOf_eq d m h l1 hl
    refine ⟨?_, ?_, ?_⟩
    · rw [htxs, i1, List.map_cons, List.flatten_cons, hd]
    · intro x hx
      rcases List.mem_cons.mp hx with hx | hx
      · subst hx
        rw [hd]
        exact hl
      · exact i2 x hx
    · rw [i3, hs0, foldl_applyDeposit_setX, htxs, List.foldl_append]
      simp only [List.isEmpty_cons, Bool.false_eq_true, if_false]
      by_cases he : rest.isEmpty = true
      · have hnil : rest = [] := List.isEmpty_iff.mp he
        subst hnil
        simp only [List.map_nil, List.flatten_nil] at i1
        subst i1
        rfl
      · simp only [he, if_false]
        rfl

theorem settleRoots_of_deposits (d : Deps) (m : MinorBlockChain) (rate : Rat)
    (roots : List RootBlockHeader) :
    ∀ st : EvmState,
      (∀ h ∈ roots, getCrossShardTxListByRootBlockHash d m h.Hash = .ok (depositsOf d m h)) →
      getLocalFeeRate st.quarkChainConfig = .ok rate →
      ∃ txs s, settleRoots d m roots st = .ok (txs, s) := by
  induction roots with
  | nil => intro st _ _; exact ⟨[], st, rfl⟩
  | cons h rest ih =>
    intro st hall hr
    have hone := runOne_of_list_and_rate d m h.Hash st (depositsOf d m h) rate
      (hall h (List.mem_cons_self _ _)) hr
    obtain ⟨_, _, _, hqc⟩ := runOne_gas d m h.Hash st _ _ hone
    obtain ⟨l2, s, hrest⟩ := ih _ (fun x hx => hall x (List.mem_cons_of_mem _ hx))
      (by rw [hqc]; exact hr)
    exact ⟨_, s, (settleRoots_cons_eq_ok d m h rest st s _).mpr ⟨_, _, l2, hone, hrest, rfl⟩⟩

/-- Settling a list of root blocks in the reverse order succeeds when settling them in
order does, and leaves the same balances, gas used, cross-shard gas used and block
fee. -/
theorem settleRoots_reverse (d : Deps) (m : MinorBlockChain) (roots : List RootBlockHeader)
    (st : EvmState) (txs : List CrossShardTransactionDeposit) (s1 : EvmState)
    (hgas : st.gasUsed ≤ st.gasLimit)
    (hs : settleRoots d m roots st = .ok (txs, s1)) :
    ∃ txs' s2, settleRoots d m roots.reverse st = .ok (txs', s2) ∧
      (∀ a, s2.balances a = s1.balances a) ∧ s2.gasUsed = s1.gasUsed ∧
      s2.xShardReceiveGasUsed = s1.xShardReceiveGasUsed ∧ s2.blockFee = s1.blockFee := by
  cases roots with
  | nil => exact ⟨txs, s1, hs, fun _ => rfl, rfl, rfl, rfl⟩
  | cons h rest =>
    obtain ⟨l1, s0, l2, hone, _, _⟩ := (settleRoots_cons_eq_ok d m h rest st s1 txs).mp hs
    obtain ⟨rate, _, hr, _⟩ := runOne_ok_inv d m h.Hash st s0 l1 hone
    obtain ⟨e1, e2, e3⟩ := settleRoots_foldl d m rate (h :: rest) st txs s1 hs hr
    obtain ⟨txs', s2, hs2⟩ := settleRoots_of_deposits d m rate (h :: rest).reverse st
      (fun x hx => e2 x (List.mem_reverse.mp hx)) hr
    obtain ⟨f1, _, f3⟩ := settleRoots_foldl d m rate (h :: rest).reverse st txs' s2 hs2 hr
    obtain ⟨_, _, o3, o4, o5⟩ := foldl_applyDeposit_obs d rate txs st hgas
    obtain ⟨_, _, p3, p4, p5⟩ := foldl_applyDeposit_obs d rate txs' st hgas
    have hsum : ∀ g : CrossShardTransactionDeposit → Int, (txs'.map g).sum = (txs.map g).sum := by
      intro g
      rw [f1, e1, List.map_reverse]
      exact sum_map_flatten_reverse g _
    have hne : (h :: rest).reverse.isEmpty = false := by
      simp
    simp only [List.isEmpty_cons, Bool.false_eq_true, if_false] at e3
    simp only [hne, Bool.false_eq_true, if_false] at f3
    refine ⟨txs', s2, hs2, ?_, ?_, ?_, ?_⟩
    · intro a
      rw [f3, e3]
      show (txs'.foldl (applyDeposit d rate) st).balances a
        = (txs.foldl (applyDeposit d rate) st).balances a
      rw [p4 a, o4 a, hsum]
    · rw [f3, e3]
      show (txs'.foldl (applyDeposit d rate) st).gasUsed
        = (txs.foldl (applyDeposit d rate) st).gasUsed
      rw [p5, o5, hsum]
    · rw [f3, e3]
      show (txs'.foldl (applyDeposit d rate) st).gasUsed
        = (txs.foldl (applyDeposit d rate) st).gasUsed
      rw [p5, o5, hsum]
    · rw [f3, e3]
      show (txs'.foldl (applyDeposit d rate) st).blockFee
        = (txs.foldl (applyDeposit d rate) st).blockFee
      rw [p3, o3, hsum]

theorem rootPath_length (m : MinorBlockChain) (k : Nat) :
    ∀ (h a : RootBlockHeader) (path : List RootBlockHeader),
      rootPath m k h = some (path, a) → path.length = k := by
  induction k with
  | zero =>
    intro h a path hp
    simp only [rootPath, Option.some.injEq, Prod.mk.injEq] at hp
    rw [← hp.1]
    rfl
  | succ k ih =>
    intro h a path hp
    obtain ⟨p, l, _, hr, hpath⟩ := (rootPath_succ_eq_some m k h a path).mp hp
    rw [hpath, List.length_cons, ih p a l hr]

theorem rootPath_split (m : MinorBlockChain) (r a : RootBlockHeader)
    (l2 : List RootBlockHeader) (l1 : List RootBlockHeader) :
    ∀ (k : Nat) (desc : RootBlockHeader),
      rootPath m k desc = some (l1 ++ r :: l2, a) →
      rootPath m (l2.length + 1) r = some (r :: l2, a) := by
  induction l1 with
  | nil =>
    intro k desc hp
    cases k with
    | zero =>
      simp only [rootPath, Option.some.injEq, Prod.mk.injEq] at hp
      exact absurd hp.1 (by simp)
    | succ k =>
      obtain ⟨p, l, hl, hr, hpath⟩ := (rootPath_succ_eq_some m k desc a _).mp hp
      simp only [List.nil_append, List.cons.injEq] at hpath
      obtain ⟨e1, e2⟩ := hpath
      subst e1 e2
      have hk := rootPath_length m k p a l2 hr
      rw [hk]
      exact hp
  | cons x rest ih =>
    intro k desc hp
    cases k with
    | zero =>
      simp only [rootPath, Option.some.injEq, Prod.mk.injEq] at hp
      exact absurd hp.1 (by simp)
    | succ k =>
      obtain ⟨p, l, hl, hr, hpath⟩ := (rootPath_succ_eq_some m k desc a _).mp hp
      simp only [List.cons_append, List.cons.injEq] at hpath
      obtain ⟨_, e2⟩ := hpath
      subst e2
      exact ih k p hr

theorem includeWalk_inv (m : MinorBlockChain) (anc : RootBlockHeader) (fuel : Nat) :
    ∀ (desc : RootBlockHeader) (acc headerList : List RootBlockHeader),
      includeWalk m anc fuel desc acc = some (.ok headerList) →
      ∃ k path a, k < fuel ∧ rootPath m k desc = some (path, a) ∧ a.Hash = anc.Hash ∧
        headerList = acc ++ path ∧ ∀ h ∈ path, h.Hash ≠ anc.Hash ∧ anc.Number < h.Number := by
  induction fuel with
  | zero => intro desc acc headerList h; simp [includeWalk] at h
  | succ f ih =>
    intro desc acc headerList h
    rw [includeWalk] at h
    split_ifs at h with h1 h2
    · simp only [Option.some.injEq, Outcome.ok.injEq] at h
      subst h
      exact ⟨0, [], desc, Nat.succ_pos _, rfl, h1, (List.append_nil _).symm,
        fun x hx => absurd hx (List.not_mem_nil _)⟩
    · cases h
    · cases hp : m.getRootBlockHeaderByHash desc.ParentHash with
      | none => rw [hp] at h; cases h
      | some parent =>
        rw [hp] at h
        obtain ⟨k, path, a, hk, hr, ha, hl, hne⟩ := ih parent _ headerList h
        refine ⟨k + 1, desc :: path, a, Nat.succ_lt_succ hk,
          (rootPath_succ_eq_some m k desc a _).mpr ⟨parent, path, hp, hr, rfl⟩, ha, ?_, ?_⟩
        · rw [hl, List.append_assoc, List.singleton_append]
        · intro x hx
          rcases List.mem_cons.mp hx with hx | hx
          · subst hx
            exact ⟨h1, Nat.lt_of_not_le h2⟩
          · exact hne x hx

theorem includeSettle_inv (d : Deps) (m : MinorBlockChain) (desc : RootBlockHeader)
    (roots : List RootBlockHeader) :
    ∀ (st : EvmState) (same : Bool) (r : RootBlockHeader) (s1 : EvmState),
      includeSettle d m desc roots st same = .ok (r, s1) →
      (∃ pre post txs, roots = pre ++ r :: post ∧
          settleRoots d m (pre ++ [r]) st = .ok (txs, s1)) ∨
        (r = desc ∧ ∃ txs, settleRoots d m roots st = .ok (txs, s1)) := by
  induction roots with
  | nil =>
    intro st same r s1 h
    simp only [includeSettle, Outcome.ok.injEq, Prod.mk.injEq] at h
    obtain ⟨h1, h2⟩ := h
    subst h1 h2
    exact Or.inr ⟨rfl, [], rfl⟩
  | cons x rest ih =>
    intro st same r s1 h
    rw [includeSettle] at h
    cases hone : runOneCrossShardTxListByRootBlockHash d m x.Hash st with
    | error e => rw [hone] at h; cases h
    | fault => rw [hone] at h; cases h
    | ok res =>
      obtain ⟨l, s⟩ := res
      rw [hone] at h
      dsimp only at h
      split_ifs at h <;> first
        | (simp only [Outcome.ok.injEq, Prod.mk.injEq] at h
           obtain ⟨h1, h2⟩ := h
           subst h1 h2
           exact Or.inl ⟨[], rest, l ++ [], rfl,
             (settleRoots_cons_eq_ok d m x [] st s _).mpr ⟨l, s, [], hone, rfl, rfl⟩⟩)
        | (rcases ih s _ r s1 h with ⟨pre, post, txs, hsplit, hs⟩ | ⟨hr, txs, hs⟩
           · refine Or.inl ⟨x :: pre, post, l ++ txs, by rw [hsplit]; rfl, ?_⟩
             exact (settleRoots_cons_eq_ok d m x (pre ++ [r]) st s1 _).mpr
               ⟨l, s, txs, hone, hs, rfl⟩
           · exact Or.inr ⟨hr, l ++ txs,
               (settleRoots_cons_eq_ok d m x rest st s1 _).mpr ⟨l, s, txs, hone, hs, rfl⟩⟩)

/-- C31: on a state whose gas used is at most the gas limit, when
`includeCrossShardTxList` returns the root header `r` and the state `s1`, it has settled
a list `roots` of root blocks oldest first, and `runCrossShardTxList` from `r` back to
the same ancestor on the same starting state returns (for every bound on the loop
tests that is at least the bound of the first call) the deposits and the state of
settling these root blocks in the reverse order; that state has the balances, gas used,
cross-shard gas used and block fee of `s1`. -/
theorem includeCrossShardTxList_run_same_state (d : Deps) (m : MinorBlockChain) (fuel : Nat)
    (st : EvmState) (same : Bool) (desc anc r : RootBlockHeader) (s1 : EvmState)
    (hgas : st.gasUsed ≤ st.gasLimit)
    (hinc : includeCrossShardTxList d m fuel st same desc anc = some (.ok (r, s1))) :
    ∃ roots txs1 txs s2,
      settleRoots d m roots st = .ok (txs1, s1) ∧
      settleRoots d m roots.reverse st = .ok (txs, s2) ∧
      (∀ fuel2, fuel ≤ fuel2 →
        runCrossShardTxList d m fuel2 st r anc = some (.ok (txs, s2))) ∧
      (∀ a, s2.balances a = s1.balances a) ∧ s2.gasUsed = s1.gasUsed ∧
      s2.xShardReceiveGasUsed = s1.xShardReceiveGasUsed ∧ s2.blockFee = s1.blockFee := by
  unfold includeCrossShardTxList at hinc
  cases hw : includeWalk m anc fuel desc [] with
  | none => rw [hw] at hinc; cases hinc
  | some w =>
    rw [hw] at hinc
    cases w with
    | error e => cases hinc
    | fault => cases hinc
    | ok headerList =>
      have hset : includeSettle d m desc headerList.reverse st same = .ok (r, s1) :=
        Option.some.inj hinc
      obtain ⟨k, path, a, hk, hp, ha, hl, hne⟩ := includeWalk_inv m anc fuel desc [] headerList hw
      rw [List.nil_append] at hl
      subst hl
      have hlen := rootPath_length m k desc a headerList hp
      rcases includeSettle_inv d m desc headerList.reverse st same r s1 hset with
        ⟨pre, post, txs1, hsplit, hs⟩ | ⟨hr, txs1, hs⟩
      · obtain ⟨txs, s2, hs2, o1, o2, o3, o4⟩ :=
          settleRoots_reverse d m (pre ++ [r]) st txs1 s1 hgas hs
        have hpath : headerList = post.reverse ++ r :: pre.reverse := by
          have := congrArg List.reverse hsplit
          rw [List.reverse_reverse] at this
          rw [this]
          simp
        have hrev : (pre ++ [r]).reverse = r :: pre.reverse := by simp
        rw [hrev] at hs2
        have hp2 := rootPath_split m r a pre.reverse post.reverse k desc (by rw [← hpath]; exact hp)
        have hk2 : pre.reverse.length + 1 ≤ k := by
          rw [← hlen, hpath]
          simp only [List.length_append, List.length_cons, List.length_reverse]
          omega
        refine ⟨pre ++ [r], txs1, txs, s2, hs, by rw [hrev]; exact hs2, ?_, o1, o2, o3, o4⟩
        intro fuel2 hf
        have hrun := runCrossShardTxListLoop_along_path d m anc (pre.reverse.length + 1) r st []
          (r :: pre.reverse) a txs s2 hp2 ha
          (fun x hx => by
            have hx' : x ∈ headerList := by
              rw [hpath]
              exact List.mem_append_right _ hx
            obtain ⟨q1, q2⟩ := hne x hx'
            exact ⟨q1, Nat.ne_of_gt q2⟩)
          hgas hs2 fuel2 (by omega)
        rw [List.nil_append] at hrun
        exact hrun
      · subst hr
        obtain ⟨txs, s2, hs2, o1, o2, o3, o4⟩ :=
          settleRoots_reverse d m headerList.reverse st txs1 s1 hgas hs
        refine ⟨headerList.reverse, txs1, txs, s2, hs, hs2, ?_, o1, o2, o3, o4⟩
        rw [List.reverse_reverse] at hs2
        intro fuel2 hf
        have hrun := runCrossShardTxListLoop_along_path d m anc k r st [] headerList a txs s2
          hp ha
          (fun x hx => by
            obtain ⟨q1, q2⟩ := hne x hx
            exact ⟨q1, Nat.ne_of_gt q2⟩)
          hgas hs2 fuel2 (by omega)
        rw [List.nil_append] at hrun
        exact hrun

/-- C31, witness: in the example chain `includeCrossShardTxList` from the root header 10
back to its parent 9 settles the root block 10, whose deposit of gas price 1 uses 9000
of the 1,000,000 gas, and returns the root header 10; `runCrossShardTxList` from 10 back
to 9 returns a state with the same gas used, 9000. -/
theorem includeCrossShardTxList_run_same_state_witness :
    ∃ s1 txs s2,
      includeCrossShardTxList stdDeps (exampleChain [exampleDeposit 100 1]) 2 exampleState
          false ⟨10, 9, 6, ⟨99, 2⟩, 0⟩ ⟨9, 8, 5, ⟨99, 2⟩, 0⟩
        = some (.ok (⟨10, 9, 6, ⟨99, 2⟩, 0⟩, s1)) ∧
      runCrossShardTxList stdDeps (exampleChain [exampleDeposit 100 1]) 2 exampleState
          ⟨10, 9, 6, ⟨99, 2⟩, 0⟩ ⟨9, 8, 5, ⟨99, 2⟩, 0⟩ = some (.ok (txs, s2)) ∧
      (∀ a, s2.balances a = s1.balances a) ∧ s2.gasUsed = s1.gasUsed ∧
      s2.xShardReceiveGasUsed = s1.xShardReceiveGasUsed ∧ s2.blockFee = s1.blockFee ∧
      s1.gasUsed = 9000 := by
  have h1 := runOne_of_list_and_rate stdDeps (exampleChain [exampleDeposit 100 1]) 10
    exampleState [exampleDeposit 100 1] (1 / 2) rfl exampleState_rate
  have hgu : (([exampleDeposit 100 1].foldl (applyDeposit stdDeps (1 / 2))
        exampleState).SetXShardReceiveGasUsed
      ([exampleDeposit 100 1].foldl (applyDeposit stdDeps (1 / 2)) exampleState).gasUsed).gasUsed
      = 9000 := by
    simp [applyDeposit, EvmState.AddBalance, EvmState.SetGasUsed, EvmState.AddBlockFee,
      EvmState.SetXShardReceiveGasUsed, exampleState, exampleDeposit, bigUint64, stdDeps]
  have hgl : (([exampleDeposit 100 1].foldl (applyDeposit stdDeps (1 / 2))
        exampleState).SetXShardReceiveGasUsed
      ([exampleDeposit 100 1].foldl (applyDeposit stdDeps (1 / 2)) exampleState).gasUsed).gasLimit
      = 1000000 := by
    simp [applyDeposit, EvmState.AddBalance, EvmState.SetGasUsed, EvmState.AddBlockFee,
      EvmState.SetXShardReceiveGasUsed, exampleState, exampleDeposit, bigUint64, stdDeps]
  have hw : includeWalk (exampleChain [exampleDeposit 100 1]) ⟨9, 8, 5, ⟨99, 2⟩, 0⟩ 2
      ⟨10, 9, 6, ⟨99, 2⟩, 0⟩ [] = some (.ok [⟨10, 9, 6, ⟨99, 2⟩, 0⟩]) := rfl
  have hinc : includeCrossShardTxList stdDeps (exampleChain [exampleDeposit 100 1]) 2
      exampleState false ⟨10, 9, 6, ⟨99, 2⟩, 0⟩ ⟨9, 8, 5, ⟨99, 2⟩, 0⟩
      = some (.ok (⟨10, 9, 6, ⟨99, 2⟩, 0⟩,
          ([exampleDeposit 100 1].foldl (applyDeposit stdDeps (1 / 2))
            exampleState).SetXShardReceiveGasUsed
          ([exampleDeposit 100 1].foldl (applyDeposit stdDeps (1 / 2)) exampleState).gasUsed)) := by
    unfold includeCrossShardTxList
    rw [hw]
    simp only [List.reverse_cons, List.reverse_nil, List.nil_append, includeSettle]
    rw [show runOneCrossShardTxListByRootBlockHash stdDeps (exampleChain [exampleDeposit 100 1])
      (RootBlockHeader.Hash ⟨10, 9, 6, ⟨99, 2⟩, 0⟩) exampleState = _ from h1]
    simp only [List.isEmpty_cons, Bool.false_eq_true, if_false, hgu, hgl]
    rfl
  obtain ⟨roots, txs1, txs, s2, -, -, hrun, o1, o2, o3, o4⟩ :=
    includeCrossShardTxList_run_same_state stdDeps (exampleChain [exampleDeposit 100 1]) 2
      exampleState false ⟨10, 9, 6, ⟨99, 2⟩, 0⟩ ⟨9, 8, 5, ⟨99, 2⟩, 0⟩ ⟨10, 9, 6, ⟨99, 2⟩, 0⟩ _
      (by decide) hinc
  exact ⟨_, txs, s2, hinc, hrun 2 (le_refl _), o1, o2, o3, o4, hgu⟩

end GoQuarkChain
